import Mathlib

/-! onego: unified request envelope, response model and price table

A shallow embedding of `input.go` and `output.go`.

* A Go `string` value is the sequence of its bytes (`GoString`), valid UTF-8 or
  not; the text of a JSON document is a Lean `String`. `uint16` and `uint32`
  values are natural numbers, a `float64` is its bit pattern, a pointer field
  `*T` is an `Option T` (`none` is the nil pointer), a slice is either nil or a
  list of elements.
* A Go `map` literal is the list of its entries; lookups are the two index
  expressions of the language (`v, ok := m[k]` and `v := m[k]`).
* Methods with a pointer receiver that assign a field are functions from the
  envelope before the call to the envelope after it.
* JSON documents are value trees. `Marshal` and `Decode` are the calls
  `json.Marshal(a)` and `json.NewDecoder(body).Decode(&output)` of `Send`, taken
  between Go values and value trees; writing a tree as bytes and reading bytes
  as a tree are not modelled. A string of a document is its text, a sequence
  of Unicode scalar values: the encoder writes `U+FFFD` for every byte of a Go
  string that is not part of a valid UTF-8 encoding, and the decoder stores
  the UTF-8 encoding of the text.
-/

namespace Onego

/-! ## Go strings

A Go `string` is a sequence of bytes; nothing makes it valid UTF-8. A string
literal of the source holds the UTF-8 encoding of its text. `json.Marshal`
reads a string rune by rune (`utf8.DecodeRuneInString`) and writes the
replacement character `U+FFFD` for every byte that does not start a valid
encoding; the decoder stores the UTF-8 encoding of the text of a JSON string. -/

/-- A Go `string`: the sequence of its bytes. A byte is a number below 256;
the functions below treat any larger number as a byte that starts no valid
encoding. -/
structure GoString where
  bytes : List Nat
deriving DecidableEq, Repr

/-- The UTF-8 encoding of one rune (`utf8.AppendRune` on a Unicode scalar value). -/
def encodeRune (r : Nat) : List Nat :=
  if r < 0x80 then [r]
  else if r < 0x800 then [0xC0 + r / 64, 0x80 + r % 64]
  else if r < 0x10000 then [0xE0 + r / 4096, 0x80 + r / 64 % 64, 0x80 + r % 64]
  else [0xF0 + r / 262144, 0x80 + r / 4096 % 64, 0x80 + r / 64 % 64, 0x80 + r % 64]

/-- The UTF-8 encoding of a text. -/
def utf8Bytes : List Char → List Nat
  | [] => []
  | c :: cs => encodeRune c.toNat ++ utf8Bytes cs

/-- The Go string that holds a text: a string literal of the source, or the
string that the decoder stores for a JSON string. -/
def goString (s : String) : GoString :=
  { bytes := utf8Bytes s.data }

/-- The concatenation `s + t` of two Go strings. -/
def GoString.append (s t : GoString) : GoString :=
  { bytes := s.bytes ++ t.bytes }

/-- A continuation byte, `0x80` to `0xBF`. -/
def continuation (b : Nat) : Bool :=
  decide (0x80 ≤ b) && decide (b ≤ 0xBF)

/-- The first rune of a byte sequence and its width (`utf8.DecodeRuneInString`):
the replacement rune `U+FFFD` with width 1 when the first byte does not start a
valid encoding (a stray continuation byte, an overlong form, a surrogate, a
value above `U+10FFFF`, a truncated sequence), and with width 0 when there are
no bytes. -/
def decodeRune : List Nat → Nat × Nat
  | [] => (0xFFFD, 0)
  | s0 :: rest =>
    if s0 < 0x80 then (s0, 1)
    else if s0 < 0xC2 then (0xFFFD, 1)
    else if s0 < 0xE0 then
      match rest with
      | s1 :: _ =>
        if continuation s1 then ((s0 - 0xC0) * 64 + (s1 - 0x80), 2) else (0xFFFD, 1)
      | _ => (0xFFFD, 1)
    else if s0 < 0xF0 then
      match rest with
      | s1 :: s2 :: _ =>
        if (if s0 = 0xE0 then 0xA0 else 0x80) ≤ s1 ∧ s1 ≤ (if s0 = 0xED then 0x9F else 0xBF) then
          if continuation s2 then
            ((s0 - 0xE0) * 4096 + (s1 - 0x80) * 64 + (s2 - 0x80), 3)
          else (0xFFFD, 1)
        else (0xFFFD, 1)
      | _ => (0xFFFD, 1)
    else if s0 < 0xF5 then
      match rest with
      | s1 :: s2 :: s3 :: _ =>
        if (if s0 = 0xF0 then 0x90 else 0x80) ≤ s1 ∧ s1 ≤ (if s0 = 0xF4 then 0x8F else 0xBF) then
          if continuation s2 then
            if continuation s3 then
              ((s0 - 0xF0) * 262144 + (s1 - 0x80) * 4096 + (s2 - 0x80) * 64 + (s3 - 0x80), 4)
            else (0xFFFD, 1)
          else (0xFFFD, 1)
        else (0xFFFD, 1)
      | _ => (0xFFFD, 1)
    else (0xFFFD, 1)

/-- The runes of a byte sequence, as a loop `for _, r := range s` yields them:
a rune is decoded at the current byte and the bytes of its encoding are
skipped (`skip` counts the bytes still to pass over). -/
def runesFrom : Nat → List Nat → List Nat
  | _, [] => []
  | 0, s0 :: rest =>
    (decodeRune (s0 :: rest)).1 :: runesFrom ((decodeRune (s0 :: rest)).2 - 1) rest
  | skip + 1, _ :: rest => runesFrom skip rest

/-- The text that `json.Marshal` writes for a Go string: its runes, with
`U+FFFD` in place of every byte that is not part of a valid encoding. -/
def GoString.text (s : GoString) : String :=
  String.mk ((runesFrom 0 s.bytes).map Char.ofNat)

/-- Whether the bytes from the current position on are valid UTF-8: no rune
decodes as the replacement rune with width 1, the sign of a byte that starts no
valid encoding (`skip` counts the bytes still to pass over). -/
def validFrom : Nat → List Nat → Bool
  | 0, [] => true
  | _ + 1, [] => false
  | 0, s0 :: rest =>
    decide (decodeRune (s0 :: rest) ≠ (0xFFFD, 1)) &&
      validFrom ((decodeRune (s0 :: rest)).2 - 1) rest
  | skip + 1, _ :: rest => validFrom skip rest

/-- Whether a Go string is valid UTF-8 (`utf8.ValidString`). -/
def GoString.validUTF8 (s : GoString) : Bool :=
  validFrom 0 s.bytes

/-! ## Model identifiers and the price table (`input.go`, lines 13-112) -/

/-- The Go type `Model`, a named string type. -/
abbrev Model := GoString

def ModelGpt4_1 : Model := goString "GPT-4.1"
def ModelGpt4_1Mini : Model := goString "GPT-4.1-Mini"
def ModelGpt4_1Nano : Model := goString "GPT-4.1-Nano"
def ModelGptO3 : Model := goString "GPT-o3"
def ModelGptO4Mini : Model := goString "GPT-o4-mini"
def ModelGptO3Pro : Model := goString "GPT-o3-pro"
def ModelGpt4o : Model := goString "GPT-4o"
def ModelGpt4oMini : Model := goString "GPT-4o-mini"
def ModelGptO1 : Model := goString "GPT-o1"
def ModelGptO3DeepResearch : Model := goString "GPT-o3-DeepResearch"
def ModelGptO3Mini : Model := goString "GPT-o3-Mini"
def ModelGptO1Mini : Model := goString "GPT-o1-Mini"

def ModelClaudeOpus4 : Model := goString "Opus-4"
def ModelClaudeSonnet4 : Model := goString "Sonnet-4"
def ModelClaudeHaiku3_5 : Model := goString "Haiku-3.5"
def ModelClaudeOpus3 : Model := goString "Opus-3"
def ModelClaudeSonnet3_7 : Model := goString "Sonnet-3.7"
def ModelClaudeHaiku3 : Model := goString "Haiku-3"

def ModelDeepSeekR1 : Model := goString "DeepSeek-Reasoner"
def ModelDeepSeekV3 : Model := goString "DeepSeek-Chat"

def ModelGemini25FlashPreview : Model := goString "gemini-2.5-Flash-preview"
def ModelGemini25ProPreview : Model := goString "gemini-2.5-Pro-preview"
def ModelGemini20Flash : Model := goString "gemini-2.0-Flash"
def ModelGemini20FlashLite : Model := goString "gemini-2.0-Flash-lite"
def ModelGemini15Flash : Model := goString "gemini-1.5-Flash"
def ModelGemini15Flash8B : Model := goString "gemini-1.5-Flash-8B"
def ModelGemini15Pro : Model := goString "gemini-1.5-Pro"

def ModelMistralMedium3 : Model := goString "Mistral-Medium-3"
def ModelMagistralMedium : Model := goString "Magistral-Medium"
def ModelCodestral : Model := goString "Codestral"
def ModelDevstralMedium : Model := goString "Devstral-Medium"
def ModelMistralLarge : Model := goString "Mistral-Large"
def ModelPixtralLarge : Model := goString "Pixtral-Large"
def ModelMinistral8B2410 : Model := goString "Ministral-8B-24.10"
def ModelMinistral3B2410 : Model := goString "Ministral-3B-24.10"
def ModelMistralSmall3_2 : Model := goString "Mistral-Small-3.2"
def ModelMagistralSmall : Model := goString "Magistral-Small"
def ModelDevstralSmall : Model := goString "Devstral-Small"
def ModelPixtral12B : Model := goString "Pixtral-12B"
def ModelMistralNemo : Model := goString "Mistral-NeMo"

/-- The constants of the `const ( ... )` block of type `Model`, in declaration order. -/
def modelConstants : List Model :=
  [ ModelGpt4_1, ModelGpt4_1Mini, ModelGpt4_1Nano, ModelGptO3, ModelGptO4Mini, ModelGptO3Pro,
    ModelGpt4o, ModelGpt4oMini, ModelGptO1, ModelGptO3DeepResearch, ModelGptO3Mini,
    ModelGptO1Mini,
    ModelClaudeOpus4, ModelClaudeSonnet4, ModelClaudeHaiku3_5, ModelClaudeOpus3,
    ModelClaudeSonnet3_7, ModelClaudeHaiku3,
    ModelDeepSeekR1, ModelDeepSeekV3,
    ModelGemini25FlashPreview, ModelGemini25ProPreview, ModelGemini20Flash,
    ModelGemini20FlashLite, ModelGemini15Flash, ModelGemini15Flash8B, ModelGemini15Pro,
    ModelMistralMedium3, ModelMagistralMedium, ModelCodestral, ModelDevstralMedium,
    ModelMistralLarge, ModelPixtralLarge, ModelMinistral8B2410, ModelMinistral3B2410,
    ModelMistralSmall3_2, ModelMagistralSmall, ModelDevstralSmall, ModelPixtral12B,
    ModelMistralNemo ]

/-- The map literal `ModelPrices`, entry by entry (`map[Model]uint32`). -/
def ModelPrices : List (Model × Nat) :=
  [ (ModelGpt4_1, 1040),
    (ModelGpt4_1Mini, 208),
    (ModelGpt4_1Nano, 52),
    (ModelGptO3, 1040),
    (ModelGptO4Mini, 572),
    (ModelGptO3Pro, 10400),
    (ModelGpt4o, 1300),
    (ModelGpt4oMini, 78),
    (ModelGptO1, 7800),
    (ModelGptO3DeepResearch, 5200),
    (ModelGptO3Mini, 572),
    (ModelGptO1Mini, 572),
    (ModelClaudeOpus4, 9360),
    (ModelClaudeSonnet4, 1872),
    (ModelClaudeHaiku3_5, 499),
    (ModelClaudeOpus3, 9360),
    (ModelClaudeSonnet3_7, 1872),
    (ModelClaudeHaiku3, 182),
    (ModelDeepSeekR1, 142),
    (ModelDeepSeekV3, 242),
    (ModelGemini25FlashPreview, 380),
    (ModelGemini25ProPreview, 1820),
    (ModelGemini20Flash, 52),
    (ModelGemini20FlashLite, 39),
    (ModelGemini15Flash, 78),
    (ModelGemini15Flash8B, 39),
    (ModelGemini15Pro, 1300),
    (ModelMistralMedium3, 2496),
    (ModelMagistralMedium, 7280),
    (ModelCodestral, 1248),
    (ModelDevstralMedium, 2496),
    (ModelMistralLarge, 8320),
    (ModelPixtralLarge, 8320),
    (ModelMinistral8B2410, 208),
    (ModelMinistral3B2410, 83),
    (ModelMistralSmall3_2, 416),
    (ModelMagistralSmall, 2080),
    (ModelDevstralSmall, 416),
    (ModelPixtral12B, 312),
    (ModelMistralNemo, 312) ]

/-- The two-value index expression `v, ok := m[k]` of a Go map with `uint32`
values: the stored value and `true`, or the zero value and `false`. -/
def mapIndexOk : List (Model × Nat) → Model → Nat × Bool
  | [], _ => (0, false)
  | (k, v) :: rest, key => if k = key then (v, true) else mapIndexOk rest key

/-- The one-value index expression `m[k]`: the stored value, or the zero value
of `uint32` when the key has no entry. -/
def mapIndex (m : List (Model × Nat)) (key : Model) : Nat :=
  (mapIndexOk m key).1

/-- The keys of a map literal. -/
def mapKeys (m : List (Model × Nat)) : List Model :=
  m.map Prod.fst

/-! ## Values shared by both files -/

/-- A `float64` value, given by its IEEE-754 binary64 bit pattern (a number
below `2^64`: sign bit, 11 exponent bits, 52 fraction bits). The envelope only
stores such values and hands them to the encoder. -/
structure Float64 where
  bits : Nat
deriving DecidableEq, Repr

namespace Float64

/-- The biased exponent field. -/
def exponent (f : Float64) : Nat := (f.bits / 2 ^ 52) % 2 ^ 11

/-- The fraction field. -/
def fraction (f : Float64) : Nat := f.bits % 2 ^ 52

/-- The sign bit. -/
def negative (f : Float64) : Bool := decide ((f.bits / 2 ^ 63) % 2 = 1)

/-- The test `math.IsInf(f, 0) || math.IsNaN(f)` of the encoder. -/
def isInfOrNaN (f : Float64) : Bool := decide (f.exponent = 2047)

/-- The constant `1.0`. -/
def one : Float64 := ⟨0x3FF0000000000000⟩

/-- The constant `0.0`. -/
def zero : Float64 := ⟨0⟩

/-- The value `math.NaN()`. -/
def nan : Float64 := ⟨0x7FF8000000000001⟩

/-- The value `math.Inf(1)`. -/
def posInf : Float64 := ⟨0x7FF0000000000000⟩

/-- The natural number written by the number literal that the encoder prints
for `f`, when that literal consists of decimal digits only and its value is
below `2^52`: `f` is `+0` or a positive integer. Every other literal (a sign, a
fraction, an exponent, or at least `2^52`) is rejected by the unsigned integer
targets of `output.go`, whose widths are 16 and 32 bits. -/
def toUint? (f : Float64) : Option Nat :=
  if f.negative then none
  else if f.exponent = 0 then (if f.fraction = 0 then some 0 else none)
  else if 1075 ≤ f.exponent then none
  else if (2 ^ 52 + f.fraction) % 2 ^ (1075 - f.exponent) = 0 then
    some ((2 ^ 52 + f.fraction) / 2 ^ (1075 - f.exponent))
  else none

end Float64

/-- A JSON document, as a value tree. Number literals come in three shapes:
`uint n` is a literal made of decimal digits only, `float f` is the literal the
encoder prints for the finite `float64` value `f`, and `numLit` is any other
number literal, kept as text. Object members keep their order and may repeat
a key. -/
inductive Json where
  | null
  | bool (b : Bool)
  | uint (n : Nat)
  | float (f : Float64)
  | numLit (text : String)
  | str (s : String)
  | arr (elems : List Json)
  | obj (members : List (String × Json))

namespace Json

/-- The keys of the members of an object, in document order. -/
def keys : Json → List String
  | obj ms => ms.map Prod.fst
  | _ => []

/-- The value of the first member with the given key. -/
def get? : Json → String → Option Json
  | obj ms, k => ms.lookup k
  | _, _ => none

end Json

/-- A Go slice as the encoder sees it: the nil slice, or a slice with the
given (possibly zero) elements. -/
inductive Slice (α : Type) where
  | nil
  | elems (l : List α)

/-- A `json.RawMessage`: the nil slice, bytes that form one well-formed JSON
text (given by its value), or any other bytes. -/
inductive RawMessage where
  | nil
  | wellFormed (v : Json)
  | malformed

/-! ## The request envelope (`input.go`, lines 114-222) -/

structure Message where
  Role : GoString
  Content : GoString

structure Part where
  Text : GoString

structure Content where
  Role : GoString
  Parts : Slice Part

structure Function where
  Name : GoString
  Description : GoString
  Parameters : RawMessage

structure Tool where
  Type_ : GoString
  Function : Function

structure SafetySetting where
  Category : GoString
  Threshold : GoString

structure GenerationConfig where
  Temperature : Float64
  TopP : Float64
  TopK : Nat
  CandidateCount : Nat
  MaxOutputTokens : Nat
  StopSequences : Slice GoString

structure ResponseFormat where
  Type_ : GoString

/-- The struct `APIInput`, fields in declaration order. -/
structure APIInput where
  Endpoint : GoString
  Model : Model
  Temperature : Option Float64
  Stream : Option Bool
  Messages : Slice Message
  MaxTokens : Nat
  TopP : Float64
  StopSequences : Option (Slice GoString)
  Tools : Option (Slice Tool)
  Contents : Option (Slice Content)
  SafetySettings : Option (Slice SafetySetting)
  GenerationConfig : Option GenerationConfig
  FrequencyPenalty : Option Float64
  PresencePenalty : Option Float64
  N : Option Nat
  ResponseFormat : Option ResponseFormat
  Seed : Option Nat
  ToolChoice : Option GoString
  User : Option GoString
  Logprobs : Option Bool
  TopLogprobs : Option Nat
  System : Option GoString
  TopK : Option Nat

/-- Helper `floatPtr`. -/
def floatPtr (v : Float64) : Option Float64 := some v

/-- Helper `boolPtr`. -/
def boolPtr (v : Bool) : Option Bool := some v

/-- The constructor `NewAPIInput`. -/
def NewAPIInput (endpoint : GoString) (model : Model) (messages : Slice Message)
    (maxTokens : Nat) : APIInput :=
  { Endpoint := endpoint
    Model := model
    Messages := messages
    MaxTokens := maxTokens
    Temperature := floatPtr Float64.one
    Stream := boolPtr false
    TopP := Float64.one
    StopSequences := none
    Tools := none
    Contents := none
    SafetySettings := none
    GenerationConfig := none
    FrequencyPenalty := none
    PresencePenalty := none
    N := none
    ResponseFormat := none
    Seed := none
    ToolChoice := none
    User := none
    Logprobs := none
    TopLogprobs := none
    System := none
    TopK := none }

/-- The method `SetTemperature`: `a.Temperature = &temp`. -/
def APIInput.SetTemperature (a : APIInput) (temp : Float64) : APIInput :=
  { a with Temperature := some temp }

/-- The method `SetStopSequences`: `a.StopSequences = &seqs`. -/
def APIInput.SetStopSequences (a : APIInput) (seqs : Slice GoString) : APIInput :=
  { a with StopSequences := some seqs }

/-! ## `json.Marshal` on the envelope

The encoder walks the struct fields in declaration order, writes each field
under the key of its `json` tag, skips a pointer field tagged `omitempty` when
the pointer is nil, and stops at the first value it cannot encode. -/

/-- The errors of `json.Marshal` that these types can raise. -/
inductive MarshalError where
  | unsupportedValue (f : Float64)
  | marshalerError

/-- A `float64`: NaN and the infinities are unsupported values. -/
def encodeFloat (f : Float64) : Except MarshalError Json :=
  if f.isInfOrNaN then .error (.unsupportedValue f) else .ok (.float f)

/-- A `json.RawMessage`: `null` for the nil slice, the bytes themselves when
they are well formed, an error otherwise. -/
def encodeRaw : RawMessage → Except MarshalError Json
  | .nil => .ok .null
  | .wellFormed v => .ok v
  | .malformed => .error .marshalerError

/-- Encodes the elements of a slice in order, stopping at the first error. -/
def encodeAll {α : Type} (enc : α → Except MarshalError Json) :
    List α → Except MarshalError (List Json)
  | [] => .ok []
  | a :: rest =>
    match enc a with
    | .error e => .error e
    | .ok v =>
      match encodeAll enc rest with
      | .error e => .error e
      | .ok vs => .ok (v :: vs)

/-- A slice: `null` for the nil slice, otherwise the array of its elements. -/
def encodeSlice {α : Type} (enc : α → Except MarshalError Json) :
    Slice α → Except MarshalError Json
  | .nil => .ok .null
  | .elems l =>
    match encodeAll enc l with
    | .error e => .error e
    | .ok vs => .ok (.arr vs)

/-- Collects the members of a struct in order, stopping at the first error. -/
def encodeMembers :
    List (String × Except MarshalError Json) → Except MarshalError (List (String × Json))
  | [] => .ok []
  | (k, r) :: rest =>
    match r with
    | .error e => .error e
    | .ok v =>
      match encodeMembers rest with
      | .error e => .error e
      | .ok ms => .ok ((k, v) :: ms)

/-- A struct: the object of its emitted members. -/
def encodeStruct (fields : List (String × Except MarshalError Json)) :
    Except MarshalError Json :=
  match encodeMembers fields with
  | .error e => .error e
  | .ok ms => .ok (.obj ms)

/-- A pointer field tagged `omitempty`: no member when the pointer is nil,
otherwise the member with the encoding of the pointee. -/
def omitEmpty {α : Type} (key : String) (p : Option α)
    (enc : α → Except MarshalError Json) : List (String × Except MarshalError Json) :=
  match p with
  | none => []
  | some v => [(key, enc v)]

/-- A `string`: the JSON string of its text; bytes that are not valid UTF-8
are written as `U+FFFD`. -/
def encodeString (s : GoString) : Except MarshalError Json := .ok (.str s.text)

def encodeBool (b : Bool) : Except MarshalError Json := .ok (.bool b)

def encodeUint (n : Nat) : Except MarshalError Json := .ok (.uint n)

def encodeMessage (m : Message) : Except MarshalError Json :=
  encodeStruct [("role", encodeString m.Role), ("content", encodeString m.Content)]

def encodePart (p : Part) : Except MarshalError Json :=
  encodeStruct [("text", encodeString p.Text)]

def encodeContent (c : Content) : Except MarshalError Json :=
  encodeStruct [("role", encodeString c.Role), ("parts", encodeSlice encodePart c.Parts)]

def encodeFunction (f : Function) : Except MarshalError Json :=
  encodeStruct
    [("name", encodeString f.Name), ("description", encodeString f.Description),
     ("parameters", encodeRaw f.Parameters)]

def encodeTool (t : Tool) : Except MarshalError Json :=
  encodeStruct [("type", encodeString t.Type_), ("function", encodeFunction t.Function)]

def encodeSafetySetting (s : SafetySetting) : Except MarshalError Json :=
  encodeStruct [("category", encodeString s.Category), ("threshold", encodeString s.Threshold)]

def encodeGenerationConfig (g : GenerationConfig) : Except MarshalError Json :=
  encodeStruct
    [("temperature", encodeFloat g.Temperature), ("top_p", encodeFloat g.TopP),
     ("top_k", encodeUint g.TopK), ("candidate_count", encodeUint g.CandidateCount),
     ("max_output_tokens", encodeUint g.MaxOutputTokens),
     ("stop_sequences", encodeSlice encodeString g.StopSequences)]

def encodeResponseFormat (r : ResponseFormat) : Except MarshalError Json :=
  encodeStruct [("type", encodeString r.Type_)]

/-- The members of the envelope that the encoder visits, in declaration
order, each with the outcome of encoding its value. -/
def APIInput.fields (a : APIInput) : List (String × Except MarshalError Json) :=
  [("endpoint", encodeString a.Endpoint), ("model", encodeString a.Model)]
    ++ omitEmpty "temperature" a.Temperature encodeFloat
    ++ omitEmpty "stream" a.Stream encodeBool
    ++ [("messages", encodeSlice encodeMessage a.Messages),
        ("max_tokens", encodeUint a.MaxTokens), ("top_p", encodeFloat a.TopP)]
    ++ omitEmpty "stop_sequences" a.StopSequences (encodeSlice encodeString)
    ++ omitEmpty "tools" a.Tools (encodeSlice encodeTool)
    ++ omitEmpty "contents" a.Contents (encodeSlice encodeContent)
    ++ omitEmpty "safety_settings" a.SafetySettings (encodeSlice encodeSafetySetting)
    ++ omitEmpty "generation_config" a.GenerationConfig encodeGenerationConfig
    ++ omitEmpty "frequency_penalty" a.FrequencyPenalty encodeFloat
    ++ omitEmpty "presence_penalty" a.PresencePenalty encodeFloat
    ++ omitEmpty "n" a.N encodeUint
    ++ omitEmpty "response_format" a.ResponseFormat encodeResponseFormat
    ++ omitEmpty "seed" a.Seed encodeUint
    ++ omitEmpty "tool_choice" a.ToolChoice encodeString
    ++ omitEmpty "user" a.User encodeString
    ++ omitEmpty "logprobs" a.Logprobs encodeBool
    ++ omitEmpty "top_logprobs" a.TopLogprobs encodeUint
    ++ omitEmpty "system" a.System encodeString
    ++ omitEmpty "top_k" a.TopK encodeUint

/-- The call `json.Marshal(a)` of `Send`, up to the document it writes. -/
def Marshal (a : APIInput) : Except MarshalError Json :=
  encodeStruct a.fields

/-! ## The response model (`output.go`) -/

structure LlmUsage where
  InputTokens : Option Nat
  OutputTokens : Option Nat
  TotalTokens : Option Nat

structure LlmUnifiedResponse where
  Role : Option GoString
  Content : GoString
  Usage : Option LlmUsage
  FinishReason : Option GoString

structure APIResponse where
  Code : Nat
  Output : LlmUnifiedResponse

/-! ## `Decode` of the response body (`input.go`, lines 250-254)

`Send` declares `var output APIResponse` and decodes the body into it. The
decoder walks the members of an object in document order; for each key it
looks up the struct field whose `json` name equals the key, or failing that
equals it up to case folding, and decodes the value into that field; a key
that matches no field is skipped. The literal `null` clears a pointer and
leaves any other target as it is. A value of the wrong kind, or a number out
of range, is an `UnmarshalTypeError`. A body that is not well-formed JSON never
reaches this stage. -/

/-- The error `json.UnmarshalTypeError`: the offending value and the Go type. -/
inductive DecodeError where
  | unmarshalType (value : Json) (goType : String)

/-- The smallest rune of the case-folding orbit of `r` (`foldRune`), for the
orbits that contain an ASCII rune: the letters, the Kelvin sign `U+212A`
(orbit of `K`) and the long s `U+017F` (orbit of `S`). Any other rune folds to
a non-ASCII rune; it is kept unchanged here, which compares the same way with
the folded ASCII field names. -/
def foldRune (r : Char) : Char :=
  if 'a' ≤ r ∧ r ≤ 'z' then Char.ofNat (r.toNat - 32)
  else if r = Char.ofNat 0x212A then 'K'
  else if r = Char.ofNat 0x17F then 'S'
  else r

/-- The folded form of a key or field name (`foldName`). -/
def foldName (s : String) : List Char :=
  s.data.map foldRune

/-- The index of the struct field for a key: the field with exactly that name
(`byExactName`), or else the field with the same folded name (`byFoldedName`). -/
def fieldIndex (names : List String) (key : String) : Option Nat :=
  match names.findIdx? (fun n => decide (n = key)) with
  | some i => some i
  | none => names.findIdx? (fun n => decide (foldName n = foldName key))

/-- Decodes the members of an object into a struct, in document order. -/
def decodeMembers {σ : Type} (setField : σ → String → Json → Except DecodeError σ) :
    List (String × Json) → σ → Except DecodeError σ
  | [], s => .ok s
  | (k, v) :: rest, s =>
    match setField s k v with
    | .error e => .error e
    | .ok s1 => decodeMembers setField rest s1

/-- A value into a `string` target holding `cur`: a JSON string is stored as
the UTF-8 encoding of its text. -/
def decodeString (cur : GoString) : Json → Except DecodeError GoString
  | .null => .ok cur
  | .str s => .ok (goString s)
  | v => .error (.unmarshalType v "string")

/-- A value into a `*string` target. -/
def decodeStringPtr : Json → Except DecodeError (Option GoString)
  | .null => .ok none
  | .str s => .ok (some (goString s))
  | v => .error (.unmarshalType v "string")

/-- A value into an unsigned integer target of `w` bits holding `cur`
(`strconv.ParseUint` on the literal, then the overflow test). -/
def decodeUint (w : Nat) (goType : String) (cur : Nat) : Json → Except DecodeError Nat
  | .null => .ok cur
  | .uint n => if n < 2 ^ w then .ok n else .error (.unmarshalType (.uint n) goType)
  | .float f =>
    match f.toUint? with
    | some n => if n < 2 ^ w then .ok n else .error (.unmarshalType (.float f) goType)
    | none => .error (.unmarshalType (.float f) goType)
  | v => .error (.unmarshalType v goType)

/-- A value into a `*uint32` target. -/
def decodeUint32Ptr : Json → Except DecodeError (Option Nat)
  | .null => .ok none
  | v =>
    match decodeUint 32 "uint32" 0 v with
    | .error e => .error e
    | .ok n => .ok (some n)

/-- The `json` names of the fields of `LlmUsage`, in declaration order. -/
def LlmUsage.fieldNames : List String :=
  ["input_tokens", "output_tokens", "total_tokens"]

/-- The zero value of `LlmUsage`. -/
def LlmUsage.zero : LlmUsage :=
  { InputTokens := none, OutputTokens := none, TotalTokens := none }

/-- One member of a usage object. -/
def LlmUsage.setField (u : LlmUsage) (key : String) (v : Json) :
    Except DecodeError LlmUsage :=
  match fieldIndex LlmUsage.fieldNames key with
  | some 0 =>
    match decodeUint32Ptr v with
    | .error e => .error e
    | .ok x => .ok { u with InputTokens := x }
  | some 1 =>
    match decodeUint32Ptr v with
    | .error e => .error e
    | .ok x => .ok { u with OutputTokens := x }
  | some 2 =>
    match decodeUint32Ptr v with
    | .error e => .error e
    | .ok x => .ok { u with TotalTokens := x }
  | _ => .ok u

/-- A value into a `*LlmUsage` target holding `cur`: `null` clears the
pointer, an object is decoded into the pointee (a fresh zero value when the
pointer is nil). -/
def decodeUsagePtr (cur : Option LlmUsage) : Json → Except DecodeError (Option LlmUsage)
  | .null => .ok none
  | .obj ms =>
    match decodeMembers LlmUsage.setField ms (cur.getD LlmUsage.zero) with
    | .error e => .error e
    | .ok u => .ok (some u)
  | v => .error (.unmarshalType v "onego.LlmUsage")

/-- The `json` names of the fields of `LlmUnifiedResponse`, in declaration order. -/
def LlmUnifiedResponse.fieldNames : List String :=
  ["role", "content", "usage", "finish_reason"]

/-- The zero value of `LlmUnifiedResponse`. -/
def LlmUnifiedResponse.zero : LlmUnifiedResponse :=
  { Role := none, Content := goString "", Usage := none, FinishReason := none }

/-- One member of an output object. -/
def LlmUnifiedResponse.setField (o : LlmUnifiedResponse) (key : String) (v : Json) :
    Except DecodeError LlmUnifiedResponse :=
  match fieldIndex LlmUnifiedResponse.fieldNames key with
  | some 0 =>
    match decodeStringPtr v with
    | .error e => .error e
    | .ok x => .ok { o with Role := x }
  | some 1 =>
    match decodeString o.Content v with
    | .error e => .error e
    | .ok x => .ok { o with Content := x }
  | some 2 =>
    match decodeUsagePtr o.Usage v with
    | .error e => .error e
    | .ok x => .ok { o with Usage := x }
  | some 3 =>
    match decodeStringPtr v with
    | .error e => .error e
    | .ok x => .ok { o with FinishReason := x }
  | _ => .ok o

/-- A value into a `LlmUnifiedResponse` target holding `cur`. -/
def decodeOutput (cur : LlmUnifiedResponse) : Json → Except DecodeError LlmUnifiedResponse
  | .null => .ok cur
  | .obj ms => decodeMembers LlmUnifiedResponse.setField ms cur
  | v => .error (.unmarshalType v "onego.LlmUnifiedResponse")

/-- The `json` names of the fields of `APIResponse`, in declaration order. -/
def APIResponse.fieldNames : List String :=
  ["code", "output"]

/-- The zero value of `APIResponse` (`var output APIResponse`). -/
def APIResponse.zero : APIResponse :=
  { Code := 0, Output := LlmUnifiedResponse.zero }

/-- One member of the response object. -/
def APIResponse.setField (r : APIResponse) (key : String) (v : Json) :
    Except DecodeError APIResponse :=
  match fieldIndex APIResponse.fieldNames key with
  | some 0 =>
    match decodeUint 16 "uint16" r.Code v with
    | .error e => .error e
    | .ok x => .ok { r with Code := x }
  | some 1 =>
    match decodeOutput r.Output v with
    | .error e => .error e
    | .ok x => .ok { r with Output := x }
  | _ => .ok r

/-- A value into an `APIResponse` target holding `cur`. -/
def decodeAPIResponse (cur : APIResponse) : Json → Except DecodeError APIResponse
  | .null => .ok cur
  | .obj ms => decodeMembers APIResponse.setField ms cur
  | v => .error (.unmarshalType v "onego.APIResponse")

/-- The call `json.NewDecoder(resp.Body).Decode(&output)` of `Send` on a
well-formed body, with `output` freshly declared. -/
def Decode (doc : Json) : Except DecodeError APIResponse :=
  decodeAPIResponse APIResponse.zero doc

/-! ## Vocabulary of the specification -/

/-- The document value of a message: the object with the texts of its role
and content. -/
def messageJson (m : Message) : Json :=
  .obj [("role", .str m.Role.text), ("content", .str m.Content.text)]

/-- The document value of a message slice: `null` for the nil slice, otherwise
the array of the message objects in order. -/
def messagesJson : Slice Message → Json
  | .nil => .null
  | .elems l => .arr (l.map messageJson)

/-- The document value of a string slice: `null` for the nil slice, otherwise
the array of the texts of the strings in order. -/
def stringsJson : Slice GoString → Json
  | .nil => .null
  | .elems l => .arr (l.map (fun s => Json.str s.text))

/-- The keys of the always-present and defaulted tiers, as section 6 lists them. -/
def alwaysKeys : List String :=
  ["endpoint", "model", "messages", "max_tokens", "top_p", "temperature", "stream"]

/-- The keys of the optional tier, as section 6 lists them. -/
def optionalKeys : List String :=
  ["stop_sequences", "tools", "contents", "safety_settings", "generation_config",
   "frequency_penalty", "presence_penalty", "n", "response_format", "seed", "tool_choice",
   "user", "logprobs", "top_logprobs", "system", "top_k"]

/-- The 23 wire keys of section 6. -/
def wireKeys : List String :=
  alwaysKeys ++ optionalKeys

/-- The sixteen optional fields of the envelope. -/
inductive OptField where
  | stopSequences | tools | contents | safetySettings | generationConfig
  | frequencyPenalty | presencePenalty | n | responseFormat | seed | toolChoice
  | user | logprobs | topLogprobs | system | topK
deriving DecidableEq, Repr

/-- The wire key of an optional field. -/
def OptField.key : OptField → String
  | .stopSequences => "stop_sequences"
  | .tools => "tools"
  | .contents => "contents"
  | .safetySettings => "safety_settings"
  | .generationConfig => "generation_config"
  | .frequencyPenalty => "frequency_penalty"
  | .presencePenalty => "presence_penalty"
  | .n => "n"
  | .responseFormat => "response_format"
  | .seed => "seed"
  | .toolChoice => "tool_choice"
  | .user => "user"
  | .logprobs => "logprobs"
  | .topLogprobs => "top_logprobs"
  | .system => "system"
  | .topK => "top_k"

/-- Whether an optional field of the envelope has been set (its pointer is not nil). -/
def OptField.isSet (a : APIInput) : OptField → Bool
  | .stopSequences => a.StopSequences.isSome
  | .tools => a.Tools.isSome
  | .contents => a.Contents.isSome
  | .safetySettings => a.SafetySettings.isSome
  | .generationConfig => a.GenerationConfig.isSome
  | .frequencyPenalty => a.FrequencyPenalty.isSome
  | .presencePenalty => a.PresencePenalty.isSome
  | .n => a.N.isSome
  | .responseFormat => a.ResponseFormat.isSome
  | .seed => a.Seed.isSome
  | .toolChoice => a.ToolChoice.isSome
  | .user => a.User.isSome
  | .logprobs => a.Logprobs.isSome
  | .topLogprobs => a.TopLogprobs.isSome
  | .system => a.System.isSome
  | .topK => a.TopK.isSome

/-- The key that a pointer field tagged `omitempty` contributes to the document. -/
def optKey (key : String) (present : Bool) : List String :=
  if present then [key] else []

/-- The `json` names of the fields of `APIInput`, in declaration order. -/
def APIInput.fieldNames : List String :=
  ["endpoint", "model", "temperature", "stream", "messages", "max_tokens", "top_p",
   "stop_sequences", "tools", "contents", "safety_settings", "generation_config",
   "frequency_penalty", "presence_penalty", "n", "response_format", "seed", "tool_choice",
   "user", "logprobs", "top_logprobs", "system", "top_k"]

/-- An encoding outcome that is a document. -/
def Succeeds (r : Except MarshalError Json) : Prop :=
  ∃ v, r = .ok v

/-- A float the encoder accepts: neither NaN nor an infinity. -/
def Float64.finite (f : Float64) : Bool :=
  !f.isInfOrNaN

/-- A predicate on the pointee of a pointer, true of the nil pointer. -/
def optAll {α : Type} (p : α → Bool) : Option α → Bool
  | none => true
  | some x => p x

/-- A predicate on every element of a slice. -/
def Slice.all {α : Type} (p : α → Bool) : Slice α → Bool
  | .nil => true
  | .elems l => l.all p

/-- Raw bytes the encoder accepts. -/
def RawMessage.encodable : RawMessage → Bool
  | .malformed => false
  | _ => true

/-- A tool the encoder accepts: its parameters are nil or well formed. -/
def Tool.encodable (t : Tool) : Bool :=
  t.Function.Parameters.encodable

/-- A generation config the encoder accepts: its two floats are finite. -/
def GenerationConfig.encodable (g : GenerationConfig) : Bool :=
  g.Temperature.finite && g.TopP.finite

/-- An envelope the encoder accepts: every `float64` it holds is finite and
the parameters of every tool are nil or well formed. -/
def APIInput.encodable (a : APIInput) : Bool :=
  optAll Float64.finite a.Temperature && a.TopP.finite &&
  optAll (Slice.all Tool.encodable) a.Tools &&
  optAll GenerationConfig.encodable a.GenerationConfig &&
  optAll Float64.finite a.FrequencyPenalty && optAll Float64.finite a.PresencePenalty

/-- The envelope of section 8: endpoint "chat", model GPT-4.1, one user message
"hi", 16 tokens. -/
def exampleEnvelope : APIInput :=
  NewAPIInput (goString "chat") ModelGpt4_1
    (.elems [{ Role := goString "user", Content := goString "hi" }]) 16

/-- An envelope with a conversation of five turns, the second and the fourth
alike, the content of the last one not valid UTF-8 (the byte 0xFF after "h"). -/
def conversationEnvelope : APIInput :=
  NewAPIInput (goString "chat") ModelGpt4_1
    (.elems
      [{ Role := goString "system", Content := goString "Be brief." },
       { Role := goString "user", Content := goString "hi" },
       { Role := goString "assistant", Content := goString "héllo" },
       { Role := goString "user", Content := goString "hi" },
       { Role := goString "assistant", Content := GoString.mk [104, 0xFF] }]) 16

/-- An envelope in which every pointer field is set, several of them to a
zero or empty value. -/
def fullEnvelope : APIInput :=
  { exampleEnvelope with
    StopSequences := some (.elems [])
    Tools := some (.elems
      [{ Type_ := goString "function",
         Function :=
           { Name := goString "f", Description := goString "", Parameters := .nil } }])
    Contents := some (.elems
      [{ Role := goString "user", Parts := .elems [{ Text := goString "hi" }] }])
    SafetySettings := some .nil
    GenerationConfig := some
      { Temperature := Float64.zero, TopP := Float64.one, TopK := 0, CandidateCount := 1,
        MaxOutputTokens := 16, StopSequences := .nil }
    FrequencyPenalty := some Float64.zero
    PresencePenalty := some Float64.zero
    N := some 1
    ResponseFormat := some { Type_ := goString "json_object" }
    Seed := some 0
    ToolChoice := some (goString "auto")
    User := some (goString "")
    Logprobs := some false
    TopLogprobs := some 0
    System := some (goString "")
    TopK := some 0 }

/-- The document that `fullEnvelope` serializes to. -/
def fullDocument : Json :=
  .obj
    [("endpoint", .str "chat"), ("model", .str "GPT-4.1"),
     ("temperature", .float Float64.one), ("stream", .bool false),
     ("messages", .arr [.obj [("role", .str "user"), ("content", .str "hi")]]),
     ("max_tokens", .uint 16), ("top_p", .float Float64.one),
     ("stop_sequences", .arr []),
     ("tools", .arr
       [.obj [("type", .str "function"),
              ("function", .obj [("name", .str "f"), ("description", .str ""),
                                 ("parameters", .null)])]]),
     ("contents", .arr [.obj [("role", .str "user"), ("parts", .arr [.obj [("text", .str "hi")]])]]),
     ("safety_settings", .null),
     ("generation_config", .obj
       [("temperature", .float Float64.zero), ("top_p", .float Float64.one),
        ("top_k", .uint 0), ("candidate_count", .uint 1), ("max_output_tokens", .uint 16),
        ("stop_sequences", .null)]),
     ("frequency_penalty", .float Float64.zero), ("presence_penalty", .float Float64.zero),
     ("n", .uint 1), ("response_format", .obj [("type", .str "json_object")]),
     ("seed", .uint 0), ("tool_choice", .str "auto"), ("user", .str ""),
     ("logprobs", .bool false), ("top_logprobs", .uint 0), ("system", .str ""),
     ("top_k", .uint 0)]

/-- Whether a document key designates the struct field with the given `json`
name for the decoder: it is the name itself, or equals it up to case folding. -/
def designates (name key : String) : Bool :=
  decide (name = key) || decide (foldName name = foldName key)

/-- The members of a document that is an object (none for any other value). -/
def objectMembers : Json → List (String × Json)
  | .obj ms => ms
  | _ => []

/-- The members of all the objects found, in a member list, under the keys
that designate the field `name`. -/
def membersAt (name : String) : List (String × Json) → List (String × Json)
  | [] => []
  | (k, v) :: rest =>
    if designates name k then objectMembers v ++ membersAt name rest
    else membersAt name rest

/-- The members of the output objects of a response document. -/
def outputMembers (doc : Json) : List (String × Json) :=
  membersAt "output" (objectMembers doc)

/-- The members of the usage objects inside the output objects of a response
document. -/
def usageMembers (doc : Json) : List (String × Json) :=
  membersAt "usage" (outputMembers doc)

/-- No member of the list has a key that designates the field `name`. -/
def lacksKey (name : String) (ms : List (String × Json)) : Bool :=
  ms.all (fun kv => !designates name kv.1)

/-- The response document of section 8: code 200 and an output object with
content "hello" only. -/
def exampleResponse : Json :=
  .obj [("code", .uint 200), ("output", .obj [("content", .str "hello")])]

/-- The response document with an empty output object. -/
def emptyOutputResponse : Json :=
  .obj [("code", .uint 200), ("output", .obj [])]

/-- A response document whose output object spells the role key in capitals. -/
def capitalRoleResponse : Json :=
  .obj [("code", .uint 200),
        ("output", .obj [("content", .str "hello"), ("ROLE", .str "assistant")])]

/-- The value that `exampleResponse` decodes to. -/
def exampleDecoded : APIResponse :=
  { Code := 200,
    Output :=
      { Role := none, Content := goString "hello", Usage := none, FinishReason := none } }

/-- The values an unsigned integer target of `w` bits accepts: `null`, or a
number literal that writes a natural number below `2^w`. -/
def uintFits (w : Nat) : Json → Bool
  | .null => true
  | .uint n => decide (n < 2 ^ w)
  | .float f =>
    match f.toUint? with
    | some n => decide (n < 2 ^ w)
    | none => false
  | _ => false

/-- The values a string target accepts: `null` or a string. -/
def stringOrNull : Json → Bool
  | .null => true
  | .str _ => true
  | _ => false

/-- A member of a usage object that the decoder accepts: when its key
designates one of the three counts, its value fits a `uint32`. -/
def usageMemberOk (kv : String × Json) : Bool :=
  if designates "input_tokens" kv.1 then uintFits 32 kv.2
  else if designates "output_tokens" kv.1 then uintFits 32 kv.2
  else if designates "total_tokens" kv.1 then uintFits 32 kv.2
  else true

/-- The values the `Usage` field accepts: `null`, or an object of accepted members. -/
def usageValueOk : Json → Bool
  | .null => true
  | .obj ms => ms.all usageMemberOk
  | _ => false

/-- A member of an output object that the decoder accepts: when its key
designates a field, its value is of the kind of that field. -/
def outputMemberOk (kv : String × Json) : Bool :=
  if designates "role" kv.1 then stringOrNull kv.2
  else if designates "content" kv.1 then stringOrNull kv.2
  else if designates "usage" kv.1 then usageValueOk kv.2
  else if designates "finish_reason" kv.1 then stringOrNull kv.2
  else true

/-- The values the `Output` field accepts: `null`, or an object of accepted members. -/
def outputValueOk : Json → Bool
  | .null => true
  | .obj ms => ms.all outputMemberOk
  | _ => false

/-- A member of the response object that the decoder accepts. -/
def responseMemberOk (kv : String × Json) : Bool :=
  if designates "code" kv.1 then uintFits 16 kv.2
  else if designates "output" kv.1 then outputValueOk kv.2
  else true

/-- A response document in which every member that designates a field holds
`null` or a value of the kind and range of that field. No key is required to
be present. -/
def wellTyped : Json → Bool
  | .null => true
  | .obj ms => ms.all responseMemberOk
  | _ => false

/-! ## `Send` (`input.go`, lines 224-257)

The collaborators of `Send` are parameters: whether `url.Parse` accepts a URL,
what `client.Do` (one POST with a 30 second timeout) returns for a request,
and the reading of response bytes as a JSON document. The request body is the
document that `Marshal` produced; its bytes are not modelled. -/

/-- An HTTP header: the list of its key and value pairs. The keys are the
literals of the source; a value is a Go string. -/
abbrev Header := List (String × GoString)

/-- The method `Header.Set`: the value replaces any value stored under the
key. The two keys that `Send` sets are already in canonical form. -/
def Header.Set (h : Header) (key : String) (value : GoString) : Header :=
  h.filter (fun p => !decide (p.1 = key)) ++ [(key, value)]

/-- The method `Header.Get`: the value stored under the key, or "". -/
def Header.Get (h : Header) (key : String) : GoString :=
  (h.lookup key).getD (goString "")

/-- The request that `Send` builds. -/
structure Request where
  Method : String
  URL : String
  Header : Header
  Body : Json

/-- The response that the transport returns: the HTTP status and the raw body. -/
structure Response where
  StatusCode : Nat
  Body : List Nat

/-- A failure of `client.Do`, with its description. -/
structure TransportError where
  reason : String

/-- The collaborators of `Send`. -/
structure Env where
  /-- Whether `url.Parse` accepts the URL. -/
  urlParses : String → Bool
  /-- The call `client.Do(req)`. -/
  Do : Request → Except TransportError Response
  /-- The JSON document that the body starts with, if it is well formed. -/
  readJson : List Nat → Option Json

/-- The errors that `Send` returns, one for each `fmt.Errorf` of its body. -/
inductive SendError where
  | marshalFailed (e : MarshalError)
  | createRequestFailed (reason : String)
  | requestFailed (e : TransportError)
  | malformedBody
  | decodeFailed (e : DecodeError)

/-- The token characters other than letters and digits, by code point. -/
def tokenPunctuation : List Nat :=
  [33, 35, 36, 37, 38, 39, 42, 43, 45, 46, 94, 95, 96, 124, 126]

/-- Whether a rune may occur in an HTTP token (`httpguts.IsTokenRune`). -/
def isTokenRune (r : Char) : Bool :=
  r.isAlphanum || tokenPunctuation.contains r.toNat

/-- The test `validMethod` of `net/http`. -/
def validMethod (method : String) : Bool :=
  !method.data.isEmpty && method.data.all isTokenRune

/-- The call `http.NewRequest(method, url, body)`: an empty method stands for
GET; it fails on a method that is not a token and on a URL that does not
parse, and otherwise returns the request with an empty header. -/
def NewRequest (env : Env) (method url : String) (body : Json) :
    Except String Request :=
  let method := if method = "" then "GET" else method
  if !validMethod method then .error "net/http: invalid method"
  else if !env.urlParses url then .error "parse error"
  else .ok { Method := method, URL := url, Header := [], Body := body }

/-- The lines 250-256 of `Send`: decode the response body into a fresh
`APIResponse`; the status code is not read. -/
def decodeBody (env : Env) (resp : Response) : Except SendError APIResponse :=
  match env.readJson resp.Body with
  | none => .error .malformedBody
  | some doc =>
    match Decode doc with
    | .error e => .error (.decodeFailed e)
    | .ok output => .ok output

/-- The method `Send`: the envelope after the call, and what is returned. -/
def APIInput.Send (env : Env) (a : APIInput) (apiKey : GoString) :
    APIInput × Except SendError APIResponse :=
  match Marshal a with
  | .error e => (a, .error (.marshalFailed e))
  | .ok body =>
    match NewRequest env "POST" "https://onellm.dev/api" body with
    | .error e => (a, .error (.createRequestFailed e))
    | .ok req =>
      let req1 :=
        { req with Header := req.Header.Set "Content-Type" (goString "application/json") }
      let req2 :=
        { req1 with
          Header := req1.Header.Set "Authorization" ((goString "Bearer ").append apiKey) }
      match env.Do req2 with
      | .error e => (a, .error (.requestFailed e))
      | .ok resp => (a, decodeBody env resp)

/-! ## `json.Marshal` on the response model

The response structs carry the same kind of tags as the envelope: `code`,
`output` and `content` are always written, the five pointer fields are tagged
`omitempty`. -/

def encodeUsage (u : LlmUsage) : Except MarshalError Json :=
  encodeStruct
    (omitEmpty "input_tokens" u.InputTokens encodeUint
      ++ omitEmpty "output_tokens" u.OutputTokens encodeUint
      ++ omitEmpty "total_tokens" u.TotalTokens encodeUint)

def encodeOutput (o : LlmUnifiedResponse) : Except MarshalError Json :=
  encodeStruct
    (omitEmpty "role" o.Role encodeString
      ++ [("content", encodeString o.Content)]
      ++ omitEmpty "usage" o.Usage encodeUsage
      ++ omitEmpty "finish_reason" o.FinishReason encodeString)

/-- The call `json.Marshal(r)` on a response envelope. -/
def MarshalResponse (r : APIResponse) : Except MarshalError Json :=
  encodeStruct [("code", encodeUint r.Code), ("output", encodeOutput r.Output)]

/-- The request that `Send` is expected to hand to the transport for the
document `d` and the credential `apiKey`. -/
def sentRequest (d : Json) (apiKey : GoString) : Request :=
  { Method := "POST"
    URL := "https://onellm.dev/api"
    Header :=
      [("Content-Type", goString "application/json"),
       ("Authorization", (goString "Bearer ").append apiKey)]
    Body := d }

/-- The document with unified code 500 that the example gateway replies with. -/
def failureResponse : Json :=
  .obj [("code", .uint 500), ("output", .obj [("content", .str "upstream failure")])]

/-- Example collaborators: every URL parses, the transport answers every
request with HTTP status 500 and a body that reads as `failureResponse`. -/
def exampleEnv : Env :=
  { urlParses := fun _ => true
    Do := fun _ => .ok { StatusCode := 500, Body := [] }
    readJson := fun _ => some failureResponse }

/-- One call of a setter of the envelope. -/
inductive SetterCall where
  | setTemperature (temp : Float64)
  | setStopSequences (seqs : Slice GoString)

/-- The envelope after one setter call. -/
def SetterCall.apply (a : APIInput) : SetterCall → APIInput
  | .setTemperature temp => a.SetTemperature temp
  | .setStopSequences seqs => a.SetStopSequences seqs

/-- The envelope after a finite sequence of setter calls, first call first. -/
def applyCalls (a : APIInput) : List SetterCall → APIInput
  | [] => a
  | c :: rest => applyCalls (c.apply a) rest

/-- The temperature last written by a sequence of setter calls, `t0` when the
sequence has no SetTemperature call. -/
def lastTemperature (t0 : Float64) : List SetterCall → Float64
  | [] => t0
  | .setTemperature temp :: rest => lastTemperature temp rest
  | .setStopSequences _ :: rest => lastTemperature t0 rest

/-- The member that an optional value contributes to an object: none when the
value is absent. -/
def optMember {α : Type} (key : String) (p : Option α) (val : α → Json) :
    List (String × Json) :=
  match p with
  | none => []
  | some v => [(key, val v)]

/-- The usage object of a usage record: one member for each count present. -/
def usageJson (u : LlmUsage) : Json :=
  .obj (optMember "input_tokens" u.InputTokens Json.uint
    ++ optMember "output_tokens" u.OutputTokens Json.uint
    ++ optMember "total_tokens" u.TotalTokens Json.uint)

/-- The output object of a unified payload, strings by their texts. -/
def outputJson (o : LlmUnifiedResponse) : Json :=
  .obj (optMember "role" o.Role (fun s => Json.str s.text)
    ++ [("content", .str o.Content.text)]
    ++ optMember "usage" o.Usage usageJson
    ++ optMember "finish_reason" o.FinishReason (fun s => Json.str s.text))

/-- The document of a response envelope. -/
def responseJson (r : APIResponse) : Json :=
  .obj [("code", .uint r.Code), ("output", outputJson r.Output)]

/-- A count that is absent or a `uint32`. -/
def countInRange (c : Option Nat) : Bool :=
  optAll (fun n => decide (n < 2 ^ 32)) c

/-- A usage record whose counts are `uint32` values. -/
def LlmUsage.inRange (u : LlmUsage) : Bool :=
  countInRange u.InputTokens && countInRange u.OutputTokens && countInRange u.TotalTokens

/-- A response envelope whose numbers are values of their Go types: the code
a `uint16`, the counts `uint32`. -/
def APIResponse.inRange (r : APIResponse) : Bool :=
  decide (r.Code < 2 ^ 16) && optAll LlmUsage.inRange r.Output.Usage

/-- A response envelope whose strings are valid UTF-8: the content, and the
role and the finish reason when present. -/
def APIResponse.validUTF8 (r : APIResponse) : Bool :=
  r.Output.Content.validUTF8 && optAll GoString.validUTF8 r.Output.Role &&
    optAll GoString.validUTF8 r.Output.FinishReason

/-- A response document whose output object holds the content and one usage
object with the given members. -/
def usageResponse (code : Nat) (content : String) (ums : List (String × Json)) : Json :=
  .obj [("code", .uint code), ("output", .obj [("content", .str content), ("usage", .obj ums)])]

/-- A response document given by the place of one usage object in it: the
top-level members `tpre`, then the member with key `ko` holding an output
object, then the members `tpost`; in that output object the members `opre`,
then the member with key `ku` holding the usage object with members `ums`, then
the members `opost`. -/
def usageDocument (tpre : List (String × Json)) (ko : String) (opre : List (String × Json))
    (ku : String) (ums opost tpost : List (String × Json)) : Json :=
  .obj (tpre ++ (ko, .obj (opre ++ (ku, .obj ums) :: opost)) :: tpost)

/-- The three counts of a usage record. -/
inductive Count where
  | inputTokens | outputTokens | totalTokens
deriving DecidableEq, Repr

/-- The `json` name of a count. -/
def Count.key : Count → String
  | .inputTokens => "input_tokens"
  | .outputTokens => "output_tokens"
  | .totalTokens => "total_tokens"

/-- The field of a usage record that holds a count. -/
def Count.get : Count → LlmUsage → Option Nat
  | .inputTokens, u => u.InputTokens
  | .outputTokens, u => u.OutputTokens
  | .totalTokens, u => u.TotalTokens

/-- The usage record with one count made absent. -/
def Count.clear : Count → LlmUsage → LlmUsage
  | .inputTokens, u => { u with InputTokens := none }
  | .outputTokens, u => { u with OutputTokens := none }
  | .totalTokens, u => { u with TotalTokens := none }

/-- The members of a list whose key does not designate the field `name`. -/
def removeKey (name : String) (ms : List (String × Json)) : List (String × Json) :=
  ms.filter (fun kv => !designates name kv.1)

/-- A value with `f` applied to its members when it is an object. -/
def mapObject (f : List (String × Json) → List (String × Json)) : Json → Json
  | .obj ms => .obj (f ms)
  | v => v

/-- A member list with `f` applied to the members of every object found under
a key that designates the field `name` (the objects that `membersAt` reads). -/
def mapMembersAt (name : String) (f : List (String × Json) → List (String × Json))
    (ms : List (String × Json)) : List (String × Json) :=
  ms.map (fun kv => if designates name kv.1 then (kv.1, mapObject f kv.2) else kv)

/-- The response document without the members that designate the count `name`
in its usage objects; everything else is kept. -/
def removeCount (name : String) (doc : Json) : Json :=
  mapObject (mapMembersAt "output" (mapMembersAt "usage" (removeKey name))) doc

/-- An ordinary reply: code 200, role, content, a usage object reporting 0 input
tokens, no output count and 7 tokens in total, and a finish reason. -/
def zeroInputReply : Json :=
  .obj [("code", .uint 200),
        ("output", .obj
          [("role", .str "assistant"), ("content", .str "hello"),
           ("usage", .obj [("input_tokens", .uint 0), ("total_tokens", .uint 7)]),
           ("finish_reason", .str "stop")])]

end Onego

namespace Onego

/-! ## Go strings: lemmas -/

theorem runesFrom_skip (pre tail : List Nat) :
    runesFrom pre.length (pre ++ tail) = runesFrom 0 tail := by
  induction pre with
  | nil => rfl
  | cons b rest ih => simpa [runesFrom] using ih

theorem validFrom_skip (pre tail : List Nat) :
    validFrom pre.length (pre ++ tail) = validFrom 0 tail := by
  induction pre with
  | nil => rfl
  | cons b rest ih => simpa [validFrom] using ih

theorem decodeRune_encodeRune (n : Nat) (hv : n < 0xD800 ∨ (0xDFFF < n ∧ n < 0x110000))
    (tail : List Nat) :
    ∃ b pre, encodeRune n = b :: pre ∧
      decodeRune (b :: (pre ++ tail)) = (n, pre.length + 1) ∧
      (n, pre.length + 1) ≠ (0xFFFD, 1) := by
  unfold encodeRune
  by_cases h1 : n < 0x80
  · refine ⟨n, [], by simp [h1], by simp [decodeRune, h1], ?_⟩
    intro h
    simp only [Prod.mk.injEq] at h
    omega
  · by_cases h2 : n < 0x800
    · have a1 : ¬ (0xC0 + n / 64 < 0x80) := by omega
      have a2 : ¬ (0xC0 + n / 64 < 0xC2) := by omega
      have a3 : 0xC0 + n / 64 < 0xE0 := by omega
      have a4 : continuation (0x80 + n % 64) = true := by
        simp [continuation]; omega
      have a5 : (0xC0 + n / 64 - 0xC0) * 64 + (0x80 + n % 64 - 0x80) = n := by omega
      rw [if_neg h1, if_pos h2]
      refine ⟨_, _, rfl, ?_, by simp⟩
      simp only [List.cons_append, List.nil_append, decodeRune, a1, a2, a3, a4, a5, if_false,
        if_true, List.length_cons, List.length_nil]
    · by_cases h3 : n < 0x10000
      · have a1 : ¬ (0xE0 + n / 4096 < 0x80) := by omega
        have a2 : ¬ (0xE0 + n / 4096 < 0xC2) := by omega
        have a3 : ¬ (0xE0 + n / 4096 < 0xE0) := by omega
        have a4 : 0xE0 + n / 4096 < 0xF0 := by omega
        have a5 : (if 0xE0 + n / 4096 = 0xE0 then 0xA0 else 0x80) ≤ 0x80 + n / 64 % 64 ∧
            0x80 + n / 64 % 64 ≤ (if 0xE0 + n / 4096 = 0xED then 0x9F else 0xBF) := by
          constructor
          · split_ifs <;> omega
          · split_ifs <;> omega
        have a6 : continuation (0x80 + n % 64) = true := by
          simp [continuation]; omega
        have a7 : (0xE0 + n / 4096 - 0xE0) * 4096 + (0x80 + n / 64 % 64 - 0x80) * 64 +
            (0x80 + n % 64 - 0x80) = n := by omega
        rw [if_neg h1, if_neg h2, if_pos h3]
        refine ⟨_, _, rfl, ?_, by simp⟩
        simp only [List.cons_append, List.nil_append, decodeRune, a1, a2, a3, a4, a5, a6, a7,
          if_false, if_true, and_self, List.length_cons, List.length_nil]
      · have a1 : ¬ (0xF0 + n / 262144 < 0x80) := by omega
        have a2 : ¬ (0xF0 + n / 262144 < 0xC2) := by omega
        have a3 : ¬ (0xF0 + n / 262144 < 0xE0) := by omega
        have a4 : ¬ (0xF0 + n / 262144 < 0xF0) := by omega
        have a4b : 0xF0 + n / 262144 < 0xF5 := by omega
        have a5 : (if 0xF0 + n / 262144 = 0xF0 then 0x90 else 0x80) ≤ 0x80 + n / 4096 % 64 ∧
            0x80 + n / 4096 % 64 ≤ (if 0xF0 + n / 262144 = 0xF4 then 0x8F else 0xBF) := by
          constructor
          · split_ifs <;> omega
          · split_ifs <;> omega
        have a6 : continuation (0x80 + n / 64 % 64) = true := by
          simp [continuation]; omega
        have a6b : continuation (0x80 + n % 64) = true := by
          simp [continuation]; omega
        have a7 : (0xF0 + n / 262144 - 0xF0) * 262144 + (0x80 + n / 4096 % 64 - 0x80) * 4096 +
            (0x80 + n / 64 % 64 - 0x80) * 64 + (0x80 + n % 64 - 0x80) = n := by omega
        rw [if_neg h1, if_neg h2, if_neg h3]
        refine ⟨_, _, rfl, ?_, by simp⟩
        simp only [List.cons_append, List.nil_append, decodeRune, a1, a2, a3, a4, a4b, a5, a6,
          a6b, a7, if_false, if_true, and_self, List.length_cons, List.length_nil]

theorem runesFrom_encodeRune (c : Char) (tail : List Nat) :
    runesFrom 0 (encodeRune c.toNat ++ tail) = c.toNat :: runesFrom 0 tail := by
  obtain ⟨b, pre, henc, hdec, -⟩ := decodeRune_encodeRune c.toNat c.valid tail
  rw [henc, List.cons_append]
  simp only [runesFrom, hdec, Nat.add_sub_cancel, runesFrom_skip]

theorem runesFrom_utf8Bytes (cs : List Char) (tail : List Nat) :
    runesFrom 0 (utf8Bytes cs ++ tail) = cs.map Char.toNat ++ runesFrom 0 tail := by
  induction cs with
  | nil => rfl
  | cons c rest ih =>
    simp only [utf8Bytes, List.append_assoc, runesFrom_encodeRune, ih, List.map_cons,
      List.cons_append]

theorem text_goString (t : String) : (goString t).text = t := by
  have h := runesFrom_utf8Bytes t.data []
  simp only [List.append_nil] at h
  have h0 : runesFrom 0 [] = [] := rfl
  rw [h0, List.append_nil] at h
  unfold GoString.text goString
  simp only [h, List.map_map]
  have : (Char.ofNat ∘ Char.toNat) = id := by
    funext c
    simp
  rw [this, List.map_id]

theorem validFrom_encodeRune (c : Char) (tail : List Nat) :
    validFrom 0 (encodeRune c.toNat ++ tail) = validFrom 0 tail := by
  obtain ⟨b, pre, henc, hdec, hne⟩ := decodeRune_encodeRune c.toNat c.valid tail
  rw [henc, List.cons_append]
  simp only [validFrom, hdec, Nat.add_sub_cancel, validFrom_skip]
  simp [hne]

theorem validFrom_utf8Bytes (cs : List Char) : validFrom 0 (utf8Bytes cs) = true := by
  induction cs with
  | nil => rfl
  | cons c rest ih => simp only [utf8Bytes, validFrom_encodeRune, ih]

theorem validUTF8_goString (t : String) : (goString t).validUTF8 = true :=
  validFrom_utf8Bytes t.data

theorem decodeRune_valid (s0 : Nat) (rest : List Nat)
    (h : decodeRune (s0 :: rest) ≠ (0xFFFD, 1)) :
    ∃ pre tail, rest = pre ++ tail ∧
      pre.length = (decodeRune (s0 :: rest)).2 - 1 ∧
      encodeRune (decodeRune (s0 :: rest)).1 = s0 :: pre ∧
      ((decodeRune (s0 :: rest)).1 < 0xD800 ∨
        (0xDFFF < (decodeRune (s0 :: rest)).1 ∧ (decodeRune (s0 :: rest)).1 < 0x110000)) := by
  by_cases h1 : s0 < 0x80
  · refine ⟨[], rest, rfl, ?_, ?_, ?_⟩
    · simp [decodeRune, h1]
    · simp [decodeRune, h1, encodeRune]
    · simp only [decodeRune, h1, if_true]
      omega
  · by_cases h2 : s0 < 0xC2
    · exact absurd (by simp [decodeRune, h1, h2]) h
    · by_cases h3 : s0 < 0xE0
      · cases rest with
        | nil => exact absurd (by simp [decodeRune, h1, h2, h3]) h
        | cons s1 t =>
          by_cases c1 : continuation s1 = true
          · have hd : decodeRune (s0 :: s1 :: t) = ((s0 - 0xC0) * 64 + (s1 - 0x80), 2) := by
              simp [decodeRune, h1, h2, h3, c1]
            rw [hd]
            simp only [continuation, Bool.and_eq_true, decide_eq_true_eq] at c1
            refine ⟨[s1], t, rfl, rfl, ?_, ?_⟩
            · have e1 : ¬ ((s0 - 0xC0) * 64 + (s1 - 0x80) < 0x80) := by omega
              have e2 : (s0 - 0xC0) * 64 + (s1 - 0x80) < 0x800 := by omega
              have e3 : 0xC0 + ((s0 - 0xC0) * 64 + (s1 - 0x80)) / 64 = s0 := by omega
              have e4 : 0x80 + ((s0 - 0xC0) * 64 + (s1 - 0x80)) % 64 = s1 := by omega
              simp only [encodeRune, e1, e2, if_false, if_true, e3, e4]
            · left
              simp only
              omega
          · exact absurd (by simp [decodeRune, h1, h2, h3, c1]) h
      · by_cases h4 : s0 < 0xF0
        · match rest with
          | [] => exact absurd (by simp [decodeRune, h1, h2, h3, h4]) h
          | [_] => exact absurd (by simp [decodeRune, h1, h2, h3, h4]) h
          | s1 :: s2 :: t =>
            by_cases c1 : (if s0 = 0xE0 then 0xA0 else 0x80) ≤ s1 ∧
                s1 ≤ (if s0 = 0xED then 0x9F else 0xBF)
            · by_cases c2 : continuation s2 = true
              · have hd : decodeRune (s0 :: s1 :: s2 :: t) =
                    ((s0 - 0xE0) * 4096 + (s1 - 0x80) * 64 + (s2 - 0x80), 3) := by
                  simp only [decodeRune, h1, h2, h3, h4, c1, c2, if_false, if_true, and_self]
                rw [hd]
                simp only [continuation, Bool.and_eq_true, decide_eq_true_eq] at c2
                obtain ⟨c1a, c1b⟩ := c1
                have b1 : 0x80 ≤ s1 := by split_ifs at c1a <;> omega
                have b2 : s1 ≤ 0xBF := by split_ifs at c1b <;> omega
                have b3 : s0 = 0xE0 → 0xA0 ≤ s1 := by
                  intro hs; rw [if_pos hs] at c1a; exact c1a
                have b4 : s0 = 0xED → s1 ≤ 0x9F := by
                  intro hs; rw [if_pos hs] at c1b; exact c1b
                refine ⟨[s1, s2], t, rfl, rfl, ?_, ?_⟩
                · have e1 : ¬ ((s0 - 0xE0) * 4096 + (s1 - 0x80) * 64 + (s2 - 0x80) < 0x80) := by
                    omega
                  have e2 : ¬ ((s0 - 0xE0) * 4096 + (s1 - 0x80) * 64 + (s2 - 0x80) < 0x800) := by
                    omega
                  have e3 : (s0 - 0xE0) * 4096 + (s1 - 0x80) * 64 + (s2 - 0x80) < 0x10000 := by
                    omega
                  have e4 : 0xE0 + ((s0 - 0xE0) * 4096 + (s1 - 0x80) * 64 + (s2 - 0x80)) / 4096
                      = s0 := by omega
                  have e5 : 0x80 + ((s0 - 0xE0) * 4096 + (s1 - 0x80) * 64 + (s2 - 0x80)) / 64 % 64
                      = s1 := by omega
                  have e6 : 0x80 + ((s0 - 0xE0) * 4096 + (s1 - 0x80) * 64 + (s2 - 0x80)) % 64
                      = s2 := by omega
                  simp only [encodeRune, e1, e2, e3, if_false, if_true, e4, e5, e6]
                · simp only
                  omega
              · have c2f : continuation s2 = false := by simpa using c2
                exact absurd
                  (by simp only [decodeRune, h1, h2, h3, h4, c1, c2f, if_false, if_true, and_self,
                    Bool.false_eq_true])
                  h
            · exact absurd
                (by simp only [decodeRune, h1, h2, h3, h4, c1, if_false, if_true])
                h
        · by_cases h5 : s0 < 0xF5
          · match rest with
            | [] => exact absurd (by simp [decodeRune, h1, h2, h3, h4, h5]) h
            | [_] => exact absurd (by simp [decodeRune, h1, h2, h3, h4, h5]) h
            | [_, _] => exact absurd (by simp [decodeRune, h1, h2, h3, h4, h5]) h
            | s1 :: s2 :: s3 :: t =>
              by_cases c1 : (if s0 = 0xF0 then 0x90 else 0x80) ≤ s1 ∧
                  s1 ≤ (if s0 = 0xF4 then 0x8F else 0xBF)
              · by_cases c2 : continuation s2 = true
                · by_cases c3 : continuation s3 = true
                  · have hd : decodeRune (s0 :: s1 :: s2 :: s3 :: t) =
                        ((s0 - 0xF0) * 262144 + (s1 - 0x80) * 4096 + (s2 - 0x80) * 64 +
                          (s3 - 0x80), 4) := by
                      simp only [decodeRune, h1, h2, h3, h4, h5, c1, c2, c3, if_false, if_true,
                        and_self]
                    rw [hd]
                    simp only [continuation, Bool.and_eq_true, decide_eq_true_eq] at c2 c3
                    obtain ⟨c1a, c1b⟩ := c1
                    have b1 : 0x80 ≤ s1 := by split_ifs at c1a <;> omega
                    have b2 : s1 ≤ 0xBF := by split_ifs at c1b <;> omega
                    have b3 : s0 = 0xF0 → 0x90 ≤ s1 := by
                      intro hs; rw [if_pos hs] at c1a; exact c1a
                    have b4 : s0 = 0xF4 → s1 ≤ 0x8F := by
                      intro hs; rw [if_pos hs] at c1b; exact c1b
                    refine ⟨[s1, s2, s3], t, rfl, rfl, ?_, ?_⟩
                    · have e1 : ¬ ((s0 - 0xF0) * 262144 + (s1 - 0x80) * 4096 + (s2 - 0x80) * 64 +
                          (s3 - 0x80) < 0x80) := by omega
                      have e2 : ¬ ((s0 - 0xF0) * 262144 + (s1 - 0x80) * 4096 + (s2 - 0x80) * 64 +
                          (s3 - 0x80) < 0x800) := by omega
                      have e3 : ¬ ((s0 - 0xF0) * 262144 + (s1 - 0x80) * 4096 + (s2 - 0x80) * 64 +
                          (s3 - 0x80) < 0x10000) := by omega
                      have e4 : 0xF0 + ((s0 - 0xF0) * 262144 + (s1 - 0x80) * 4096 +
                          (s2 - 0x80) * 64 + (s3 - 0x80)) / 262144 = s0 := by omega
                      have e5 : 0x80 + ((s0 - 0xF0) * 262144 + (s1 - 0x80) * 4096 +
                          (s2 - 0x80) * 64 + (s3 - 0x80)) / 4096 % 64 = s1 := by omega
                      have e6 : 0x80 + ((s0 - 0xF0) * 262144 + (s1 - 0x80) * 4096 +
                          (s2 - 0x80) * 64 + (s3 - 0x80)) / 64 % 64 = s2 := by omega
                      have e7 : 0x80 + ((s0 - 0xF0) * 262144 + (s1 - 0x80) * 4096 +
                          (s2 - 0x80) * 64 + (s3 - 0x80)) % 64 = s3 := by omega
                      simp only [encodeRune, e1, e2, e3, if_false, if_true, e4, e5, e6, e7]
                    · simp only
                      omega
                  · have c3f : continuation s3 = false := by simpa using c3
                    exact absurd
                      (by simp only [decodeRune, h1, h2, h3, h4, h5, c1, c2, c3f, if_false,
                        if_true, and_self, Bool.false_eq_true])
                      h
                · have c2f : continuation s2 = false := by simpa using c2
                  exact absurd
                    (by simp only [decodeRune, h1, h2, h3, h4, h5, c1, c2f, if_false, if_true,
                      and_self, Bool.false_eq_true])
                    h
              · exact absurd
                  (by simp only [decodeRune, h1, h2, h3, h4, h5, c1, if_false, if_true])
                  h
          · exact absurd (by simp [decodeRune, h1, h2, h3, h4, h5]) h

theorem toNat_ofNat_of_valid (r : Nat) (h : r < 0xD800 ∨ (0xDFFF < r ∧ r < 0x110000)) :
    (Char.ofNat r).toNat = r := by
  have hv : r.isValidChar := h
  simp only [Char.ofNat, hv, Char.ofNatAux, Char.toNat, dite_true]
  rfl

theorem utf8Bytes_runesFrom (n : Nat) :
    ∀ bs : List Nat, bs.length ≤ n → validFrom 0 bs = true →
      utf8Bytes ((runesFrom 0 bs).map Char.ofNat) = bs := by
  induction n with
  | zero =>
    intro bs hlen _
    have : bs = [] := List.length_eq_zero.mp (by omega)
    subst this
    rfl
  | succ n ih =>
    intro bs hlen hv
    cases bs with
    | nil => rfl
    | cons s0 rest =>
      simp only [validFrom, Bool.and_eq_true, decide_eq_true_eq] at hv
      obtain ⟨hne, hrest⟩ := hv
      obtain ⟨pre, tail, hsplit, hpre, henc, hvalid⟩ := decodeRune_valid s0 rest hne
      subst hsplit
      rw [← hpre, validFrom_skip] at hrest
      have htail : tail.length ≤ n := by
        simp only [List.length_cons, List.length_append] at hlen
        omega
      have := ih tail htail hrest
      simp only [runesFrom, List.map_cons, utf8Bytes]
      rw [← hpre, runesFrom_skip, this, toNat_ofNat_of_valid _ hvalid, henc]
      rfl

theorem goString_text (s : GoString) (h : s.validUTF8 = true) : goString s.text = s := by
  have := utf8Bytes_runesFrom s.bytes.length s.bytes (le_refl _) h
  cases s
  simpa [goString, GoString.text] using this

theorem validUTF8_iff (s : GoString) : s.validUTF8 = true ↔ goString s.text = s := by
  constructor
  · exact goString_text s
  · intro h
    rw [← h]
    exact validUTF8_goString _

/-! ## Price table: lemmas -/

theorem mapIndexOk_of_not_mem (m : List (Model × Nat)) (key : Model)
    (h : key ∉ mapKeys m) : mapIndexOk m key = (0, false) := by
  induction m with
  | nil => rfl
  | cons kv rest ih =>
    obtain ⟨k, v⟩ := kv
    have hk : k ≠ key := by
      intro hEq
      exact h (by simp [mapKeys, hEq])
    have hrest : key ∉ mapKeys rest := by
      intro hmem
      exact h (by simp only [mapKeys, List.map_cons, List.mem_cons]; exact Or.inr hmem)
    simp [mapIndexOk, hk, ih hrest]

theorem mapKeys_ModelPrices : mapKeys ModelPrices = modelConstants := rfl

theorem modelConstants_nodup : modelConstants.Nodup := by
  decide

theorem mapIndexOk_ModelPrices_of_mem :
    ∀ M ∈ modelConstants,
      (mapIndexOk ModelPrices M).2 = true ∧ 0 < (mapIndexOk ModelPrices M).1 := by
  decide

theorem count_ModelPrices_of_mem :
    ∀ M ∈ modelConstants, (ModelPrices.filter (fun kv => decide (kv.1 = M))).length = 1 := by
  decide

/-! ## Price table: claims -/

/-- C1: for each of the 40 constants of the Model enumeration the lookup in
ModelPrices finds an entry (the two-value index reports ok) and the price it
returns, which is also what the one-value index returns, is strictly greater
than 0. -/
theorem price_lookup_enumerated (M : Model) (h : M ∈ modelConstants) :
    modelConstants.length = 40 ∧
    (mapIndexOk ModelPrices M).2 = true ∧
    0 < (mapIndexOk ModelPrices M).1 ∧
    0 < mapIndex ModelPrices M := by
  have hM := mapIndexOk_ModelPrices_of_mem M h
  exact ⟨rfl, hM.1, hM.2, hM.2⟩

theorem price_lookup_enumerated_witness :
    ModelGpt4_1 ∈ modelConstants ∧
    (modelConstants.length = 40 ∧
     (mapIndexOk ModelPrices ModelGpt4_1).2 = true ∧
     0 < (mapIndexOk ModelPrices ModelGpt4_1).1 ∧
     0 < mapIndex ModelPrices ModelGpt4_1) :=
  ⟨by decide, price_lookup_enumerated ModelGpt4_1 (by decide)⟩

/-- C2, as stated, fails: the identifier "GPT-5" is not a constant of the
enumeration, and its lookup raises no error: the index expression returns the
price 0 (the two-value form returns 0 with ok false). -/
theorem price_lookup_unknown_returns_zero :
    goString "GPT-5" ∉ modelConstants ∧
    mapIndex ModelPrices (goString "GPT-5") = 0 ∧
    mapIndexOk ModelPrices (goString "GPT-5") = (0, false) := by
  decide

/-- C2, amended: for every Model value that is not a constant of the
enumeration, ModelPrices has no entry: the two-value index reports ok false
with the zero value, and the one-value index returns 0. -/
theorem price_lookup_unknown (M : Model) (h : M ∉ modelConstants) :
    mapIndexOk ModelPrices M = (0, false) ∧ mapIndex ModelPrices M = 0 := by
  have hkeys : M ∉ mapKeys ModelPrices := by
    rw [mapKeys_ModelPrices]
    exact h
  have hlook := mapIndexOk_of_not_mem ModelPrices M hkeys
  refine ⟨hlook, ?_⟩
  simp [mapIndex, hlook]

theorem price_lookup_unknown_witness :
    goString "not-a-model" ∉ modelConstants ∧
    (mapIndexOk ModelPrices (goString "not-a-model") = (0, false) ∧
     mapIndex ModelPrices (goString "not-a-model") = 0) :=
  ⟨by decide, price_lookup_unknown (goString "not-a-model") (by decide)⟩

/-- C3: the keys of ModelPrices are exactly the values of the Model
enumeration: the enumeration has 40 pairwise distinct identifiers, the table
has 40 entries, an identifier is a key of the table if and only if it is
enumerated, and each enumerated identifier has exactly one entry. -/
theorem price_table_keys_lockstep :
    modelConstants.length = 40 ∧
    modelConstants.Nodup ∧
    ModelPrices.length = 40 ∧
    (∀ M : Model, M ∈ mapKeys ModelPrices ↔ M ∈ modelConstants) ∧
    (∀ M : Model, M ∈ modelConstants →
      (ModelPrices.filter (fun kv => decide (kv.1 = M))).length = 1) := by
  refine ⟨rfl, modelConstants_nodup, rfl, ?_, count_ModelPrices_of_mem⟩
  intro M
  rw [mapKeys_ModelPrices]

/-! ## Encoder: lemmas -/

theorem encodeMembers_ok {l : List (String × Except MarshalError Json)}
    {ms : List (String × Json)} (h : encodeMembers l = .ok ms) :
    l = ms.map (fun kv => (kv.1, Except.ok kv.2)) := by
  induction l generalizing ms with
  | nil =>
    simp only [encodeMembers, Except.ok.injEq] at h
    subst h
    rfl
  | cons kv rest ih =>
    obtain ⟨k, r⟩ := kv
    cases r with
    | error e => simp [encodeMembers] at h
    | ok v =>
      cases hrest : encodeMembers rest with
      | error e => simp [encodeMembers, hrest] at h
      | ok ms1 =>
        simp only [encodeMembers, hrest, Except.ok.injEq] at h
        subst h
        simp [← ih hrest]

theorem encodeMembers_map_ok (ms : List (String × Json)) :
    encodeMembers (ms.map (fun kv => (kv.1, Except.ok kv.2))) = .ok ms := by
  induction ms with
  | nil => rfl
  | cons kv rest ih => simp [encodeMembers, ih]

theorem encodeMembers_isOk_iff (l : List (String × Except MarshalError Json)) :
    (∃ ms, encodeMembers l = .ok ms) ↔ ∀ kv ∈ l, ∃ v, kv.2 = Except.ok v := by
  constructor
  · rintro ⟨ms, h⟩ kv hkv
    rw [encodeMembers_ok h] at hkv
    obtain ⟨x, -, rfl⟩ := List.mem_map.mp hkv
    exact ⟨x.2, rfl⟩
  · intro h
    induction l with
    | nil => exact ⟨[], rfl⟩
    | cons kv rest ih =>
      obtain ⟨k, r⟩ := kv
      obtain ⟨v, hv⟩ := h (k, r) (List.mem_cons_self _ _)
      obtain ⟨ms, hms⟩ := ih (fun kv hkv => h kv (List.mem_cons_of_mem _ hkv))
      simp only at hv
      subst hv
      exact ⟨(k, v) :: ms, by simp [encodeMembers, hms]⟩

theorem encodeMembers_keys {l : List (String × Except MarshalError Json)}
    {ms : List (String × Json)} (h : encodeMembers l = .ok ms) :
    ms.map Prod.fst = l.map Prod.fst := by
  rw [encodeMembers_ok h]
  simp [Function.comp_def]

theorem encodeMembers_lookup {l : List (String × Except MarshalError Json)}
    {ms : List (String × Json)} (h : encodeMembers l = .ok ms) (k : String) :
    l.lookup k = (ms.lookup k).map Except.ok := by
  rw [encodeMembers_ok h]
  clear h
  induction ms with
  | nil => rfl
  | cons kv rest ih =>
    obtain ⟨k1, v1⟩ := kv
    by_cases hk : k = k1
    · subst hk
      simp
    · have hb : (k == k1) = false := by simpa using hk
      simp [List.lookup_cons, hb, ih]

theorem Marshal_ok {a : APIInput} {d : Json} (h : Marshal a = .ok d) :
    ∃ ms, encodeMembers a.fields = .ok ms ∧ d = .obj ms := by
  unfold Marshal encodeStruct at h
  cases hms : encodeMembers a.fields with
  | error e => simp [hms] at h
  | ok ms =>
    simp only [hms, Except.ok.injEq] at h
    exact ⟨ms, rfl, h.symm⟩

theorem encodeAll_encodeMessage (l : List Message) :
    encodeAll encodeMessage l = .ok (l.map messageJson) := by
  induction l with
  | nil => rfl
  | cons m rest ih =>
    simp [encodeAll, ih, encodeMessage, encodeStruct, encodeMembers, encodeString, messageJson]

theorem encodeSlice_encodeMessage (s : Slice Message) :
    encodeSlice encodeMessage s = .ok (messagesJson s) := by
  cases s with
  | nil => rfl
  | elems l => simp [encodeSlice, encodeAll_encodeMessage, messagesJson]

theorem encodeAll_encodeString (l : List GoString) :
    encodeAll encodeString l = .ok (l.map (fun s => Json.str s.text)) := by
  induction l with
  | nil => rfl
  | cons m rest ih => simp [encodeAll, ih, encodeString]

theorem encodeSlice_encodeString (s : Slice GoString) :
    encodeSlice encodeString s = .ok (stringsJson s) := by
  cases s with
  | nil => rfl
  | elems l => simp [encodeSlice, encodeAll_encodeString, stringsJson]

theorem encodeFloat_one : encodeFloat Float64.one = .ok (.float Float64.one) := by
  rfl

theorem alwaysKeys_perm :
    ["endpoint", "model", "temperature", "stream", "messages", "max_tokens", "top_p"].Perm
      alwaysKeys := by
  decide

theorem optionalKeys_not_always :
    ∀ k ∈ optionalKeys,
      k ∉ ["endpoint", "model", "temperature", "stream", "messages", "max_tokens", "top_p"] := by
  decide

theorem NewAPIInput_members (endpoint : GoString) (model : Model)
    (messages : Slice Message) (maxTokens : Nat) :
    (NewAPIInput endpoint model messages maxTokens).fields =
      [("endpoint", .ok (.str endpoint.text)), ("model", .ok (.str model.text)),
       ("temperature", encodeFloat Float64.one), ("stream", .ok (.bool false)),
       ("messages", encodeSlice encodeMessage messages),
       ("max_tokens", .ok (.uint maxTokens)), ("top_p", encodeFloat Float64.one)] := by
  unfold APIInput.fields
  simp only [NewAPIInput]
  simp only [omitEmpty, floatPtr, boolPtr]
  simp only [List.cons_append, List.nil_append, List.append_nil, encodeString, encodeBool,
    encodeUint]

theorem Marshal_NewAPIInput_eq (endpoint : GoString) (model : Model)
    (messages : Slice Message) (maxTokens : Nat) :
    Marshal (NewAPIInput endpoint model messages maxTokens) = .ok (.obj
      [("endpoint", .str endpoint.text), ("model", .str model.text),
       ("temperature", .float Float64.one), ("stream", .bool false),
       ("messages", messagesJson messages), ("max_tokens", .uint maxTokens),
       ("top_p", .float Float64.one)]) := by
  unfold Marshal
  rw [NewAPIInput_members, encodeFloat_one, encodeSlice_encodeMessage]
  simp only [encodeStruct, encodeMembers]

/-! ## Construction and serialization: claims -/

/-- C4: for every endpoint, every Model value (enumerated or not), every
message slice (nil and empty included) and every maxTokens, NewAPIInput is
defined and returns an envelope whose Endpoint, Model, Messages and MaxTokens
are the arguments, whose Temperature is set to 1.0, whose Stream is set to
false, whose TopP is 1.0 and whose sixteen optional fields are unset. -/
theorem NewAPIInput_fields (endpoint : GoString) (model : Model)
    (messages : Slice Message) (maxTokens : Nat) :
    (NewAPIInput endpoint model messages maxTokens).Endpoint = endpoint ∧
    (NewAPIInput endpoint model messages maxTokens).Model = model ∧
    (NewAPIInput endpoint model messages maxTokens).Messages = messages ∧
    (NewAPIInput endpoint model messages maxTokens).MaxTokens = maxTokens ∧
    (NewAPIInput endpoint model messages maxTokens).Temperature = some Float64.one ∧
    (NewAPIInput endpoint model messages maxTokens).Stream = some false ∧
    (NewAPIInput endpoint model messages maxTokens).TopP = Float64.one ∧
    (NewAPIInput endpoint model messages maxTokens).StopSequences = none ∧
    (NewAPIInput endpoint model messages maxTokens).Tools = none ∧
    (NewAPIInput endpoint model messages maxTokens).Contents = none ∧
    (NewAPIInput endpoint model messages maxTokens).SafetySettings = none ∧
    (NewAPIInput endpoint model messages maxTokens).GenerationConfig = none ∧
    (NewAPIInput endpoint model messages maxTokens).FrequencyPenalty = none ∧
    (NewAPIInput endpoint model messages maxTokens).PresencePenalty = none ∧
    (NewAPIInput endpoint model messages maxTokens).N = none ∧
    (NewAPIInput endpoint model messages maxTokens).ResponseFormat = none ∧
    (NewAPIInput endpoint model messages maxTokens).Seed = none ∧
    (NewAPIInput endpoint model messages maxTokens).ToolChoice = none ∧
    (NewAPIInput endpoint model messages maxTokens).User = none ∧
    (NewAPIInput endpoint model messages maxTokens).Logprobs = none ∧
    (NewAPIInput endpoint model messages maxTokens).TopLogprobs = none ∧
    (NewAPIInput endpoint model messages maxTokens).System = none ∧
    (NewAPIInput endpoint model messages maxTokens).TopK = none ∧
    (∀ F : OptField, F.isSet (NewAPIInput endpoint model messages maxTokens) = false) := by
  refine ⟨rfl, rfl, rfl, rfl, rfl, rfl, rfl, rfl, rfl, rfl, rfl, rfl, rfl, rfl, rfl, rfl, rfl,
    rfl, rfl, rfl, rfl, rfl, rfl, ?_⟩
  intro F
  cases F <;> rfl

/-- C5, as stated, fails: a Go string is a sequence of bytes and need not be
valid UTF-8. For the endpoint that is the single byte 0xFF the document holds
under endpoint the one-character string U+FFFD, whose bytes are EF BF BD: the
endpoint of the document is not the constructor argument. -/
theorem invalid_endpoint_replaced :
    ∃ d : Json,
      Marshal (NewAPIInput (GoString.mk [0xFF]) ModelGpt4_1
        (.elems [{ Role := goString "user", Content := goString "hi" }]) 16) = .ok d ∧
      d.get? "endpoint" = some (.str (String.mk [Char.ofNat 0xFFFD])) ∧
      goString (String.mk [Char.ofNat 0xFFFD]) = GoString.mk [0xEF, 0xBF, 0xBD] ∧
      ∀ t : String, d.get? "endpoint" = some (.str t) → goString t ≠ GoString.mk [0xFF] := by
  refine ⟨_, rfl, rfl, by decide, ?_⟩
  intro t ht
  have h1 : Json.str (String.mk [Char.ofNat 0xFFFD]) = Json.str t :=
    Option.some.inj ht
  have h2 : String.mk [Char.ofNat 0xFFFD] = t := Json.str.inj h1
  rw [← h2]
  decide

/-- C5, amended: for every endpoint, model, message slice and maxTokens,
serializing the envelope returned by NewAPIInput succeeds, and the document is
the object with exactly the seven members endpoint, model, temperature = 1.0,
stream = false, messages, max_tokens and top_p = 1.0; its keys are the seven
always-present and defaulted keys, each once, and none of the optional keys
occurs. max_tokens holds the argument. endpoint, model and the role and content
of every message are written as the text of the argument, in which every byte
that is not part of a valid UTF-8 encoding is replaced by U+FFFD; when the
argument is valid UTF-8 the string of the document is the argument itself. The
messages member is null for the nil slice and otherwise the array of the
message objects in order. -/
theorem Marshal_NewAPIInput (endpoint : GoString) (model : Model)
    (messages : Slice Message) (maxTokens : Nat) :
    ∃ d : Json,
      Marshal (NewAPIInput endpoint model messages maxTokens) = .ok d ∧
      d = .obj
        [("endpoint", .str endpoint.text), ("model", .str model.text),
         ("temperature", .float Float64.one), ("stream", .bool false),
         ("messages", messagesJson messages), ("max_tokens", .uint maxTokens),
         ("top_p", .float Float64.one)] ∧
      d.keys.Perm alwaysKeys ∧
      (∀ k ∈ optionalKeys, k ∉ d.keys) ∧
      d.get? "endpoint" = some (.str endpoint.text) ∧
      d.get? "model" = some (.str model.text) ∧
      d.get? "messages" = some (messagesJson messages) ∧
      d.get? "max_tokens" = some (.uint maxTokens) ∧
      d.get? "top_p" = some (.float Float64.one) ∧
      d.get? "temperature" = some (.float Float64.one) ∧
      d.get? "stream" = some (.bool false) ∧
      (endpoint.validUTF8 = true →
        ∃ e : String, d.get? "endpoint" = some (.str e) ∧ goString e = endpoint) ∧
      (model.validUTF8 = true →
        ∃ m : String, d.get? "model" = some (.str m) ∧ goString m = model) ∧
      (messages = .nil → d.get? "messages" = some .null) ∧
      (∀ l : List Message, messages = .elems l →
        ∃ arr : List Json, d.get? "messages" = some (.arr arr) ∧
          arr.length = l.length ∧
          ∀ (i : Nat) (hi : i < l.length),
            arr[i]? = some
              (.obj [("role", .str l[i].Role.text), ("content", .str l[i].Content.text)]) ∧
            (l[i].Role.validUTF8 = true → l[i].Content.validUTF8 = true →
              ∃ role content : String,
                arr[i]? = some (.obj [("role", .str role), ("content", .str content)]) ∧
                goString role = l[i].Role ∧ goString content = l[i].Content)) := by
  refine ⟨_, Marshal_NewAPIInput_eq endpoint model messages maxTokens, rfl, alwaysKeys_perm,
    optionalKeys_not_always, ?_, ?_, ?_, ?_, ?_, ?_, ?_, ?_, ?_, ?_, ?_⟩
  · simp [Json.get?, List.lookup]
  · simp [Json.get?, List.lookup]
  · simp [Json.get?, List.lookup]
  · simp [Json.get?, List.lookup]
  · simp [Json.get?, List.lookup]
  · simp [Json.get?, List.lookup]
  · simp [Json.get?, List.lookup]
  · intro hv
    exact ⟨endpoint.text, by simp [Json.get?, List.lookup], goString_text endpoint hv⟩
  · intro hv
    exact ⟨model.text, by simp [Json.get?, List.lookup], goString_text model hv⟩
  · intro hn
    subst hn
    simp [Json.get?, List.lookup, messagesJson]
  · intro l hl
    subst hl
    refine ⟨l.map messageJson, by simp [Json.get?, List.lookup, messagesJson],
      List.length_map _ _, ?_⟩
    intro i hi
    have hget : (l.map messageJson)[i]? = some (messageJson l[i]) := by
      rw [List.getElem?_map, List.getElem?_eq_getElem hi]
      rfl
    refine ⟨hget, ?_⟩
    intro hr hc
    exact ⟨l[i].Role.text, l[i].Content.text, hget, goString_text _ hr, goString_text _ hc⟩

theorem Marshal_NewAPIInput_witness :
    (∃ d : Json,
      Marshal (NewAPIInput (goString "chat") ModelGpt4_1
        (.elems [{ Role := goString "user", Content := goString "hi" }]) 16) = .ok d ∧
      d = .obj
        [("endpoint", .str "chat"), ("model", .str "GPT-4.1"),
         ("temperature", .float Float64.one), ("stream", .bool false),
         ("messages", .arr [.obj [("role", .str "user"), ("content", .str "hi")]]),
         ("max_tokens", .uint 16), ("top_p", .float Float64.one)]) ∧
    (∃ d : Json,
      Marshal (NewAPIInput (GoString.mk [99, 0xE2, 0x82, 104, 0xFF]) ModelGpt4_1
        (.elems [{ Role := goString "user", Content := GoString.mk [0xC3] }]) 16) = .ok d ∧
      d = .obj
        [("endpoint", .str
           (String.mk ['c', Char.ofNat 0xFFFD, Char.ofNat 0xFFFD, 'h', Char.ofNat 0xFFFD])),
         ("model", .str "GPT-4.1"),
         ("temperature", .float Float64.one), ("stream", .bool false),
         ("messages", .arr
           [.obj [("role", .str "user"), ("content", .str (String.mk [Char.ofNat 0xFFFD]))]]),
         ("max_tokens", .uint 16), ("top_p", .float Float64.one)]) :=
  ⟨match Marshal_NewAPIInput (goString "chat") ModelGpt4_1
      (.elems [{ Role := goString "user", Content := goString "hi" }]) 16 with
    | ⟨d, h1, h2, _⟩ => ⟨d, h1, h2⟩,
   match Marshal_NewAPIInput (GoString.mk [99, 0xE2, 0x82, 104, 0xFF]) ModelGpt4_1
      (.elems [{ Role := goString "user", Content := GoString.mk [0xC3] }]) 16 with
    | ⟨d, h1, h2, _⟩ => ⟨d, h1, h2⟩⟩

/-! ## Encoder: which members are written, and when encoding succeeds -/

theorem map_fst_omitEmpty {α : Type} (k : String) (p : Option α)
    (enc : α → Except MarshalError Json) :
    (omitEmpty k p enc).map Prod.fst = optKey k p.isSome := by
  cases p <;> rfl

theorem lookup_omitEmpty_self {α : Type} (k : String) (p : Option α)
    (enc : α → Except MarshalError Json) :
    (omitEmpty k p enc).lookup k = p.map enc := by
  cases p <;> simp [omitEmpty, List.lookup]

theorem lookup_omitEmpty_of_ne {α : Type} {k k1 : String} (h : k ≠ k1) (p : Option α)
    (enc : α → Except MarshalError Json) :
    (omitEmpty k1 p enc).lookup k = none := by
  cases p with
  | none => rfl
  | some v =>
    have hb : (k == k1) = false := by simpa using h
    simp [omitEmpty, List.lookup, hb]

theorem forall_mem_omitEmpty {α : Type} (k : String) (p : Option α)
    (enc : α → Except MarshalError Json) (P : String × Except MarshalError Json → Prop) :
    (∀ kv ∈ omitEmpty k p enc, P kv) ↔ ∀ v, p = some v → P (k, enc v) := by
  cases p <;> simp [omitEmpty]

theorem mem_optKey (x k : String) (b : Bool) : x ∈ optKey k b ↔ x = k ∧ b = true := by
  cases b <;> simp [optKey]

theorem optKey_sublist (k : String) (b : Bool) : (optKey k b).Sublist [k] := by
  cases b <;> simp [optKey]

theorem succeeds_encodeFloat (f : Float64) : Succeeds (encodeFloat f) ↔ f.finite = true := by
  unfold encodeFloat Float64.finite Succeeds
  cases f.isInfOrNaN <;> simp

theorem encodeFloat_ok {f : Float64} {v : Json} (h : encodeFloat f = .ok v) :
    v = .float f ∧ f.finite = true := by
  unfold encodeFloat at h
  unfold Float64.finite
  cases hf : f.isInfOrNaN <;> simp [hf] at h
  exact ⟨h.symm, rfl⟩

theorem encodeFloat_of_not_finite {f : Float64} (h : f.finite = false) :
    encodeFloat f = .error (.unsupportedValue f) := by
  unfold Float64.finite at h
  unfold encodeFloat
  cases hf : f.isInfOrNaN <;> simp [hf] at h ⊢

theorem succeeds_encodeStruct (l : List (String × Except MarshalError Json)) :
    Succeeds (encodeStruct l) ↔ ∀ kv ∈ l, Succeeds kv.2 := by
  unfold Succeeds
  rw [← encodeMembers_isOk_iff]
  unfold encodeStruct
  cases encodeMembers l <;> simp

theorem succeeds_encodeAll {α : Type} (enc : α → Except MarshalError Json) (l : List α) :
    (∃ vs, encodeAll enc l = .ok vs) ↔ ∀ x ∈ l, Succeeds (enc x) := by
  induction l with
  | nil => simp [encodeAll]
  | cons x rest ih =>
    rw [List.forall_mem_cons, ← ih]
    unfold Succeeds
    cases hx : enc x <;> cases hr : encodeAll enc rest <;> simp [encodeAll, hx, hr]

theorem succeeds_encodeSlice {α : Type} (enc : α → Except MarshalError Json) (p : α → Bool)
    (hp : ∀ x, Succeeds (enc x) ↔ p x = true) (s : Slice α) :
    Succeeds (encodeSlice enc s) ↔ s.all p = true := by
  cases s with
  | nil => simp [encodeSlice, Succeeds, Slice.all]
  | elems l =>
    have h := succeeds_encodeAll enc l
    simp only [Slice.all, List.all_eq_true, ← hp, ← h]
    unfold Succeeds encodeSlice
    cases hl : encodeAll enc l <;> simp [hl]

theorem succeeds_encodeSlice_always {α : Type} (enc : α → Except MarshalError Json)
    (hp : ∀ x, Succeeds (enc x)) (s : Slice α) : Succeeds (encodeSlice enc s) := by
  rw [succeeds_encodeSlice enc (fun _ => true) (fun x => by simp [hp x])]
  cases s <;> simp [Slice.all]

theorem succeeds_encodeString (s : GoString) : Succeeds (encodeString s) := ⟨_, rfl⟩

theorem succeeds_encodeBool (b : Bool) : Succeeds (encodeBool b) := ⟨_, rfl⟩

theorem succeeds_encodeUint (n : Nat) : Succeeds (encodeUint n) := ⟨_, rfl⟩

theorem succeeds_encodeMessage (m : Message) : Succeeds (encodeMessage m) := ⟨_, rfl⟩

theorem succeeds_encodePart (p : Part) : Succeeds (encodePart p) := ⟨_, rfl⟩

theorem succeeds_encodeSafetySetting (s : SafetySetting) : Succeeds (encodeSafetySetting s) :=
  ⟨_, rfl⟩

theorem succeeds_encodeResponseFormat (r : ResponseFormat) :
    Succeeds (encodeResponseFormat r) := ⟨_, rfl⟩

theorem succeeds_encodeContent (c : Content) : Succeeds (encodeContent c) := by
  unfold encodeContent
  rw [succeeds_encodeStruct]
  intro kv hkv
  simp only [List.mem_cons, List.mem_singleton, List.not_mem_nil, or_false] at hkv
  rcases hkv with rfl | rfl
  · exact succeeds_encodeString _
  · exact succeeds_encodeSlice_always _ succeeds_encodePart _

theorem succeeds_encodeRaw (r : RawMessage) : Succeeds (encodeRaw r) ↔ r.encodable = true := by
  cases r <;> simp [encodeRaw, Succeeds, RawMessage.encodable]

theorem succeeds_encodeTool (t : Tool) : Succeeds (encodeTool t) ↔ t.encodable = true := by
  unfold encodeTool encodeFunction Tool.encodable
  simp only [succeeds_encodeStruct, List.mem_cons, List.mem_singleton, List.not_mem_nil,
    or_false, forall_eq_or_imp, forall_eq, succeeds_encodeRaw]
  simp [succeeds_encodeString]

theorem succeeds_encodeGenerationConfig (g : GenerationConfig) :
    Succeeds (encodeGenerationConfig g) ↔ g.encodable = true := by
  unfold encodeGenerationConfig GenerationConfig.encodable
  simp only [succeeds_encodeStruct, List.mem_cons, List.mem_singleton, List.not_mem_nil,
    or_false, forall_eq_or_imp, forall_eq, succeeds_encodeFloat]
  simp [succeeds_encodeUint, succeeds_encodeSlice_always _ succeeds_encodeString]

theorem forall_some_iff_optAll {α : Type} (p : Option α) (q : α → Bool) (Q : α → Prop)
    (h : ∀ v, Q v ↔ q v = true) : (∀ v, p = some v → Q v) ↔ optAll q p = true := by
  cases p <;> simp [optAll, h]

theorem succeeds_Marshal (a : APIInput) : Succeeds (Marshal a) ↔ a.encodable = true := by
  unfold Marshal APIInput.fields APIInput.encodable
  simp only [succeeds_encodeStruct, List.forall_mem_append, forall_mem_omitEmpty,
    List.mem_cons, List.mem_singleton, List.not_mem_nil, or_false, forall_eq_or_imp, forall_eq]
  rw [forall_some_iff_optAll a.Temperature _ _ succeeds_encodeFloat,
    forall_some_iff_optAll a.FrequencyPenalty _ _ succeeds_encodeFloat,
    forall_some_iff_optAll a.PresencePenalty _ _ succeeds_encodeFloat,
    forall_some_iff_optAll a.GenerationConfig _ _ succeeds_encodeGenerationConfig,
    forall_some_iff_optAll a.Tools _ _
      (succeeds_encodeSlice encodeTool Tool.encodable succeeds_encodeTool)]
  simp only [succeeds_encodeFloat, succeeds_encodeString, succeeds_encodeBool,
    succeeds_encodeUint, succeeds_encodeSlice_always _ succeeds_encodeMessage,
    succeeds_encodeSlice_always _ succeeds_encodeString,
    succeeds_encodeSlice_always _ succeeds_encodeContent,
    succeeds_encodeSlice_always _ succeeds_encodeSafetySetting,
    succeeds_encodeResponseFormat, implies_true, true_and, and_true, Bool.and_eq_true]

theorem fields_keys (a : APIInput) :
    a.fields.map Prod.fst =
      ["endpoint", "model"] ++ optKey "temperature" a.Temperature.isSome
        ++ optKey "stream" a.Stream.isSome
        ++ ["messages", "max_tokens", "top_p"]
        ++ optKey "stop_sequences" a.StopSequences.isSome
        ++ optKey "tools" a.Tools.isSome
        ++ optKey "contents" a.Contents.isSome
        ++ optKey "safety_settings" a.SafetySettings.isSome
        ++ optKey "generation_config" a.GenerationConfig.isSome
        ++ optKey "frequency_penalty" a.FrequencyPenalty.isSome
        ++ optKey "presence_penalty" a.PresencePenalty.isSome
        ++ optKey "n" a.N.isSome
        ++ optKey "response_format" a.ResponseFormat.isSome
        ++ optKey "seed" a.Seed.isSome
        ++ optKey "tool_choice" a.ToolChoice.isSome
        ++ optKey "user" a.User.isSome
        ++ optKey "logprobs" a.Logprobs.isSome
        ++ optKey "top_logprobs" a.TopLogprobs.isSome
        ++ optKey "system" a.System.isSome
        ++ optKey "top_k" a.TopK.isSome := by
  unfold APIInput.fields
  simp only [List.map_append, map_fst_omitEmpty, List.map_cons, List.map_nil]

theorem Marshal_keys {a : APIInput} {d : Json} (h : Marshal a = .ok d) :
    d.keys = a.fields.map Prod.fst := by
  obtain ⟨ms, hms, rfl⟩ := Marshal_ok h
  exact encodeMembers_keys hms

theorem Marshal_get? {a : APIInput} {d : Json} (h : Marshal a = .ok d) (k : String) :
    a.fields.lookup k = (d.get? k).map Except.ok := by
  obtain ⟨ms, hms, rfl⟩ := Marshal_ok h
  exact encodeMembers_lookup hms k

theorem fields_lookup_temperature (a : APIInput) :
    a.fields.lookup "temperature" = a.Temperature.map encodeFloat := by
  unfold APIInput.fields
  simp [List.lookup_append, lookup_omitEmpty_self, lookup_omitEmpty_of_ne, List.lookup_cons]

theorem fields_lookup_stop_sequences (a : APIInput) :
    a.fields.lookup "stop_sequences" = a.StopSequences.map (encodeSlice encodeString) := by
  unfold APIInput.fields
  simp [List.lookup_append, lookup_omitEmpty_self, lookup_omitEmpty_of_ne, List.lookup_cons]

theorem fields_lookup_seed (a : APIInput) :
    a.fields.lookup "seed" = a.Seed.map encodeUint := by
  unfold APIInput.fields
  simp [List.lookup_append, lookup_omitEmpty_self, lookup_omitEmpty_of_ne, List.lookup_cons]

theorem fields_lookup_top_k (a : APIInput) :
    a.fields.lookup "top_k" = a.TopK.map encodeUint := by
  unfold APIInput.fields
  simp [List.lookup_append, lookup_omitEmpty_self, lookup_omitEmpty_of_ne, List.lookup_cons]

theorem fields_lookup_logprobs (a : APIInput) :
    a.fields.lookup "logprobs" = a.Logprobs.map encodeBool := by
  unfold APIInput.fields
  simp [List.lookup_append, lookup_omitEmpty_self, lookup_omitEmpty_of_ne, List.lookup_cons]

theorem Marshal_fullEnvelope : Marshal fullEnvelope = .ok fullDocument := by
  rfl

theorem fieldNames_perm_wireKeys : APIInput.fieldNames.Perm wireKeys := by
  decide

theorem wireKeys_nodup : wireKeys.Nodup := by
  decide

theorem fields_keys_sublist (a : APIInput) :
    (a.fields.map Prod.fst).Sublist APIInput.fieldNames := by
  rw [fields_keys]
  show List.Sublist _
    (["endpoint", "model"] ++ ["temperature"] ++ ["stream"]
      ++ ["messages", "max_tokens", "top_p"]
      ++ ["stop_sequences"] ++ ["tools"] ++ ["contents"] ++ ["safety_settings"]
      ++ ["generation_config"] ++ ["frequency_penalty"] ++ ["presence_penalty"] ++ ["n"]
      ++ ["response_format"] ++ ["seed"] ++ ["tool_choice"] ++ ["user"] ++ ["logprobs"]
      ++ ["top_logprobs"] ++ ["system"] ++ ["top_k"])
  refine List.Sublist.append ?_ (optKey_sublist _ _)
  refine List.Sublist.append ?_ (optKey_sublist _ _)
  refine List.Sublist.append ?_ (optKey_sublist _ _)
  refine List.Sublist.append ?_ (optKey_sublist _ _)
  refine List.Sublist.append ?_ (optKey_sublist _ _)
  refine List.Sublist.append ?_ (optKey_sublist _ _)
  refine List.Sublist.append ?_ (optKey_sublist _ _)
  refine List.Sublist.append ?_ (optKey_sublist _ _)
  refine List.Sublist.append ?_ (optKey_sublist _ _)
  refine List.Sublist.append ?_ (optKey_sublist _ _)
  refine List.Sublist.append ?_ (optKey_sublist _ _)
  refine List.Sublist.append ?_ (optKey_sublist _ _)
  refine List.Sublist.append ?_ (optKey_sublist _ _)
  refine List.Sublist.append ?_ (optKey_sublist _ _)
  refine List.Sublist.append ?_ (optKey_sublist _ _)
  refine List.Sublist.append ?_ (optKey_sublist _ _)
  refine List.Sublist.append ?_ (List.Sublist.refl _)
  refine List.Sublist.append ?_ (optKey_sublist _ _)
  refine List.Sublist.append ?_ (optKey_sublist _ _)
  exact List.Sublist.refl _

theorem optField_key_mem_iff (a : APIInput) (F : OptField) :
    F.key ∈ a.fields.map Prod.fst ↔ F.isSet a = true := by
  rw [fields_keys]
  cases F <;>
    simp [OptField.key, OptField.isSet, mem_optKey]

theorem get?_eq_none_of_not_mem {d : Json} {k : String} (h : k ∉ d.keys) :
    d.get? k = none := by
  cases d with
  | obj ms =>
    simp only [Json.get?, List.lookup_eq_none_iff]
    intro p hp
    rw [bne_iff_ne]
    intro e
    exact h (List.mem_map.mpr ⟨p, hp, e.symm⟩)
  | _ => rfl

theorem get?_of_fields_lookup {a : APIInput} {d : Json} (h : Marshal a = .ok d) {k : String}
    {α : Type} {p : Option α} {enc : α → Except MarshalError Json} {val : α → Json}
    (hl : a.fields.lookup k = p.map enc) (henc : ∀ x, enc x = .ok (val x)) :
    d.get? k = p.map val := by
  have h1 := Marshal_get? h k
  rw [hl] at h1
  cases p with
  | none =>
    cases hd : d.get? k with
    | none => rfl
    | some v => simp [hd] at h1
  | some x =>
    cases hd : d.get? k with
    | none => simp [hd] at h1
    | some v =>
      simp only [hd, Option.map_some', Option.some.injEq, henc x, Except.ok.injEq] at h1
      simp [h1]

/-! ## Optional fields and setters: claims -/

/-- C6: for every envelope state whose serialization yields a document, and
for each of the sixteen optional fields, the document contains the key of the
field if and only if the field is set; an unset field has no member at all (no
null or empty placeholder); and a field set to a zero or empty value is still
written with that value: seed = 0, top_k = 0, logprobs = false and an empty
stop-sequence list appear as 0, 0, false and the empty array. -/
theorem optional_key_iff_set (a : APIInput) (d : Json) (h : Marshal a = .ok d) :
    (∀ F : OptField, F.key ∈ d.keys ↔ F.isSet a = true) ∧
    (∀ F : OptField, F.isSet a = false → d.get? F.key = none) ∧
    d.get? "seed" = a.Seed.map Json.uint ∧
    d.get? "top_k" = a.TopK.map Json.uint ∧
    d.get? "logprobs" = a.Logprobs.map Json.bool ∧
    d.get? "stop_sequences" = a.StopSequences.map stringsJson ∧
    (a.Seed = some 0 → d.get? "seed" = some (.uint 0)) ∧
    (a.TopK = some 0 → d.get? "top_k" = some (.uint 0)) ∧
    (a.Logprobs = some false → d.get? "logprobs" = some (.bool false)) ∧
    (a.StopSequences = some (.elems []) → d.get? "stop_sequences" = some (.arr [])) := by
  have hkeys : ∀ F : OptField, F.key ∈ d.keys ↔ F.isSet a = true := by
    intro F
    rw [Marshal_keys h]
    exact optField_key_mem_iff a F
  have hseed : d.get? "seed" = a.Seed.map Json.uint :=
    get?_of_fields_lookup h (fields_lookup_seed a) (fun _ => rfl)
  have htopk : d.get? "top_k" = a.TopK.map Json.uint :=
    get?_of_fields_lookup h (fields_lookup_top_k a) (fun _ => rfl)
  have hlog : d.get? "logprobs" = a.Logprobs.map Json.bool :=
    get?_of_fields_lookup h (fields_lookup_logprobs a) (fun _ => rfl)
  have hstop : d.get? "stop_sequences" = a.StopSequences.map stringsJson :=
    get?_of_fields_lookup h (fields_lookup_stop_sequences a) encodeSlice_encodeString
  refine ⟨hkeys, ?_, hseed, htopk, hlog, hstop, ?_, ?_, ?_, ?_⟩
  · intro F hF
    apply get?_eq_none_of_not_mem
    rw [hkeys F, hF]
    simp
  · intro h0
    rw [hseed, h0]
    rfl
  · intro h0
    rw [htopk, h0]
    rfl
  · intro h0
    rw [hlog, h0]
    rfl
  · intro h0
    rw [hstop, h0]
    rfl

theorem optional_key_iff_set_witness :
    Marshal fullEnvelope = .ok fullDocument ∧
    ((∀ F : OptField, F.key ∈ fullDocument.keys ↔ F.isSet fullEnvelope = true) ∧
     (∀ F : OptField, F.isSet fullEnvelope = false → fullDocument.get? F.key = none) ∧
     fullDocument.get? "seed" = fullEnvelope.Seed.map Json.uint ∧
     fullDocument.get? "top_k" = fullEnvelope.TopK.map Json.uint ∧
     fullDocument.get? "logprobs" = fullEnvelope.Logprobs.map Json.bool ∧
     fullDocument.get? "stop_sequences" = fullEnvelope.StopSequences.map stringsJson ∧
     (fullEnvelope.Seed = some 0 → fullDocument.get? "seed" = some (.uint 0)) ∧
     (fullEnvelope.TopK = some 0 → fullDocument.get? "top_k" = some (.uint 0)) ∧
     (fullEnvelope.Logprobs = some false → fullDocument.get? "logprobs" = some (.bool false)) ∧
     (fullEnvelope.StopSequences = some (.elems []) →
       fullDocument.get? "stop_sequences" = some (.arr []))) :=
  ⟨Marshal_fullEnvelope, optional_key_iff_set fullEnvelope fullDocument Marshal_fullEnvelope⟩

theorem Marshal_temperature_get? {a : APIInput} {V : Float64} {d : Json}
    (hV : a.Temperature = some V) (h : Marshal a = .ok d) :
    d.get? "temperature" = some (.float V) := by
  have h1 := Marshal_get? h "temperature"
  rw [fields_lookup_temperature, hV] at h1
  cases hd : d.get? "temperature" with
  | none => simp [hd] at h1
  | some v =>
    simp only [hd, Option.map_some', Option.some.injEq] at h1
    rw [(encodeFloat_ok h1).1]

theorem Marshal_stop_sequences_get? {a : APIInput} {S : Slice GoString} {d : Json}
    (hS : a.StopSequences = some S) (h : Marshal a = .ok d) :
    d.get? "stop_sequences" = some (stringsJson S) := by
  rw [get?_of_fields_lookup h (fields_lookup_stop_sequences a) encodeSlice_encodeString, hS]
  rfl

theorem encodeMembers_error_third (k1 k2 k3 : String) (v1 v2 : Json) (e : MarshalError)
    (rest : List (String × Except MarshalError Json)) :
    encodeMembers ((k1, .ok v1) :: (k2, .ok v2) :: (k3, .error e) :: rest) = .error e := by
  simp [encodeMembers]

theorem Marshal_error_of_temperature {a : APIInput} {V : Float64}
    (hV : a.Temperature = some V) (hf : V.finite = false) :
    Marshal a = .error (.unsupportedValue V) := by
  unfold Marshal APIInput.fields
  rw [hV]
  simp only [omitEmpty, List.cons_append, List.nil_append, encodeString,
    encodeFloat_of_not_finite hf]
  unfold encodeStruct
  rw [encodeMembers_error_third]

/-- C7, as stated, fails. After SetTemperature(NaN) on the envelope of section
8, serialization returns an unsupported-value error, so no document contains
the key temperature with that value; after SetStopSequences of the nil slice
the document holds null under stop_sequences, not a list; and after
SetStopSequences of the list whose one element is the byte 0xFF, which is not
valid UTF-8, the document holds the string U+FFFD, not that element. -/
theorem SetTemperature_nan_not_serialized :
    Marshal (exampleEnvelope.SetTemperature Float64.nan)
      = .error (.unsupportedValue Float64.nan) ∧
    (∃ d : Json, Marshal (exampleEnvelope.SetStopSequences .nil) = .ok d ∧
      d.get? "stop_sequences" = some .null) ∧
    (∃ d : Json,
      Marshal (exampleEnvelope.SetStopSequences (.elems [GoString.mk [0xFF]])) = .ok d ∧
      d.get? "stop_sequences" = some (.arr [.str (String.mk [Char.ofNat 0xFFFD])]) ∧
      goString (String.mk [Char.ofNat 0xFFFD]) ≠ GoString.mk [0xFF]) :=
  ⟨rfl, ⟨_, rfl, rfl⟩, ⟨_, rfl, rfl, by decide⟩⟩

/-- C7, amended: for every envelope and every value V such that the envelope
after the setter call is one the encoder accepts (its floats, V included, are
finite and its tool parameters are well formed), serialization succeeds and
the document holds V under temperature after SetTemperature(V), and holds the
encoding of V under stop_sequences after SetStopSequences(V); the same holds
when the other setter is called before or after. The encoding of V is null for
the nil slice and otherwise the array, of the same length and in the same
order, of the texts of the elements of V, where every byte that is not part of
a valid UTF-8 encoding is replaced by U+FFFD; an element that is valid UTF-8
is written as itself. SetStopSequences does not change whether the envelope is
accepted, SetTemperature(V) with V finite keeps an accepted envelope accepted,
and when V is NaN or an infinity serialization after SetTemperature(V) is an
unsupported-value error. -/
theorem setter_value_serialized (a : APIInput) (V : Float64) (S : Slice GoString) :
    ((a.SetTemperature V).encodable = true →
      ∃ d : Json, Marshal (a.SetTemperature V) = .ok d ∧
        d.get? "temperature" = some (.float V)) ∧
    ((a.SetStopSequences S).encodable = true →
      ∃ d : Json, Marshal (a.SetStopSequences S) = .ok d ∧
        d.get? "stop_sequences" = some (stringsJson S)) ∧
    (((a.SetTemperature V).SetStopSequences S).encodable = true →
      ∃ d : Json, Marshal ((a.SetTemperature V).SetStopSequences S) = .ok d ∧
        d.get? "temperature" = some (.float V) ∧
        d.get? "stop_sequences" = some (stringsJson S)) ∧
    (((a.SetStopSequences S).SetTemperature V).encodable = true →
      ∃ d : Json, Marshal ((a.SetStopSequences S).SetTemperature V) = .ok d ∧
        d.get? "temperature" = some (.float V) ∧
        d.get? "stop_sequences" = some (stringsJson S)) ∧
    (S = .nil → stringsJson S = .null) ∧
    (∀ l : List GoString, S = .elems l →
      ∃ arr : List Json, stringsJson S = .arr arr ∧ arr.length = l.length ∧
        ∀ (i : Nat) (hi : i < l.length),
          arr[i]? = some (.str l[i].text) ∧
          (l[i].validUTF8 = true →
            ∃ t : String, arr[i]? = some (.str t) ∧ goString t = l[i])) ∧
    (a.SetStopSequences S).encodable = a.encodable ∧
    (a.encodable = true → V.finite = true → (a.SetTemperature V).encodable = true) ∧
    (V.finite = false → Marshal (a.SetTemperature V) = .error (.unsupportedValue V)) := by
  refine ⟨?_, ?_, ?_, ?_, ?_, ?_, rfl, ?_, ?_⟩
  · intro h
    obtain ⟨d, hd⟩ := (succeeds_Marshal _).mpr h
    exact ⟨d, hd, Marshal_temperature_get? rfl hd⟩
  · intro h
    obtain ⟨d, hd⟩ := (succeeds_Marshal _).mpr h
    exact ⟨d, hd, Marshal_stop_sequences_get? rfl hd⟩
  · intro h
    obtain ⟨d, hd⟩ := (succeeds_Marshal _).mpr h
    exact ⟨d, hd, Marshal_temperature_get? rfl hd, Marshal_stop_sequences_get? rfl hd⟩
  · intro h
    obtain ⟨d, hd⟩ := (succeeds_Marshal _).mpr h
    exact ⟨d, hd, Marshal_temperature_get? rfl hd, Marshal_stop_sequences_get? rfl hd⟩
  · intro hn
    subst hn
    rfl
  · intro l hl
    subst hl
    refine ⟨l.map (fun s : GoString => Json.str s.text), rfl, List.length_map _ _, ?_⟩
    intro i hi
    have hget : (l.map (fun s : GoString => Json.str s.text))[i]? = some (.str l[i].text) := by
      rw [List.getElem?_map, List.getElem?_eq_getElem hi]
      rfl
    exact ⟨hget, fun hv => ⟨l[i].text, hget, goString_text _ hv⟩⟩
  · intro ha hV
    simp only [APIInput.encodable, APIInput.SetTemperature, optAll, Bool.and_eq_true] at ha ⊢
    exact ⟨⟨⟨⟨⟨hV, ha.1.1.1.1.2⟩, ha.1.1.1.2⟩, ha.1.1.2⟩, ha.1.2⟩, ha.2⟩
  · intro hV
    exact Marshal_error_of_temperature rfl hV

theorem setter_value_serialized_witness :
    (exampleEnvelope.SetStopSequences (.elems [goString "STOP"])).encodable = true ∧
    (∃ d : Json,
      Marshal (exampleEnvelope.SetStopSequences (.elems [goString "STOP"])) = .ok d ∧
      d.get? "stop_sequences" = some (.arr [.str "STOP"])) ∧
    (∃ d : Json,
      Marshal ((exampleEnvelope.SetTemperature Float64.zero).SetStopSequences
        (.elems [goString "fin", GoString.mk [0xFF, 65], goString "STOP"])) = .ok d ∧
      d.get? "temperature" = some (.float Float64.zero) ∧
      d.get? "stop_sequences" = some
        (.arr [.str "fin", .str (String.mk [Char.ofNat 0xFFFD, 'A']), .str "STOP"])) :=
  ⟨rfl,
    (setter_value_serialized exampleEnvelope Float64.one (.elems [goString "STOP"])).2.1 rfl,
    (setter_value_serialized exampleEnvelope Float64.zero
      (.elems [goString "fin", GoString.mk [0xFF, 65], goString "STOP"])).2.2.1 rfl⟩

theorem Marshal_SetStopSequences_example :
    Marshal (exampleEnvelope.SetStopSequences (.elems [goString "STOP"])) = .ok (.obj
      [("endpoint", .str "chat"), ("model", .str "GPT-4.1"),
       ("temperature", .float Float64.one), ("stream", .bool false),
       ("messages", .arr [.obj [("role", .str "user"), ("content", .str "hi")]]),
       ("max_tokens", .uint 16), ("top_p", .float Float64.one),
       ("stop_sequences", .arr [.str "STOP"])]) := by
  rfl

/-! ## Wire keys: claim -/

theorem defaulted_key_mem_iff (a : APIInput) :
    ("temperature" ∈ a.fields.map Prod.fst ↔ a.Temperature.isSome = true) ∧
    ("stream" ∈ a.fields.map Prod.fst ↔ a.Stream.isSome = true) := by
  rw [fields_keys]
  constructor <;> simp [mem_optKey]

theorem keys_eq_fieldNames {a : APIInput} {d : Json} (h : Marshal a = .ok d)
    (hT : a.Temperature.isSome = true) (hS : a.Stream.isSome = true)
    (hF : ∀ F : OptField, F.isSet a = true) : d.keys = APIInput.fieldNames := by
  rw [Marshal_keys h, fields_keys]
  have h1 := hF .stopSequences
  have h2 := hF .tools
  have h3 := hF .contents
  have h4 := hF .safetySettings
  have h5 := hF .generationConfig
  have h6 := hF .frequencyPenalty
  have h7 := hF .presencePenalty
  have h8 := hF .n
  have h9 := hF .responseFormat
  have h10 := hF .seed
  have h11 := hF .toolChoice
  have h12 := hF .user
  have h13 := hF .logprobs
  have h14 := hF .topLogprobs
  have h15 := hF .system
  have h16 := hF .topK
  simp only [OptField.isSet] at h1 h2 h3 h4 h5 h6 h7 h8 h9 h10 h11 h12 h13 h14 h15 h16
  simp only [hT, hS, h1, h2, h3, h4, h5, h6, h7, h8, h9, h10, h11, h12, h13, h14, h15, h16,
    optKey, if_true]
  rfl

/-- C10: the wire keys are the 23 fixed names of section 6, pairwise
distinct; every serialized envelope has pairwise distinct top-level keys, all
among these 23; an envelope in which every pointer field is set (the sixteen
optional fields, and also Temperature and Stream, which the constructor sets
and no method clears) serializes to a document whose top-level keys are exactly
the 23 names, each once; and such an envelope exists. The hypothesis on
Temperature and Stream is needed: the keys temperature and stream are written
exactly when these two pointers are set, so an envelope with the sixteen
optional fields set has the 23 keys if and only if Temperature and Stream are
set as well. -/
theorem wire_keys_exact :
    wireKeys.length = 23 ∧
    wireKeys.Nodup ∧
    (∀ (a : APIInput) (d : Json), Marshal a = .ok d →
      d.keys.Nodup ∧ (∀ k ∈ d.keys, k ∈ wireKeys)) ∧
    (∀ (a : APIInput) (d : Json), Marshal a = .ok d →
      a.Temperature.isSome = true → a.Stream.isSome = true →
      (∀ F : OptField, F.isSet a = true) →
      d.keys = APIInput.fieldNames ∧ d.keys.Perm wireKeys) ∧
    (∃ d : Json, Marshal fullEnvelope = .ok d ∧ d.keys.Perm wireKeys ∧
      fullEnvelope.Temperature.isSome = true ∧ fullEnvelope.Stream.isSome = true ∧
      (∀ F : OptField, F.isSet fullEnvelope = true)) ∧
    (∀ (a : APIInput) (d : Json), Marshal a = .ok d →
      ("temperature" ∈ d.keys ↔ a.Temperature.isSome = true) ∧
      ("stream" ∈ d.keys ↔ a.Stream.isSome = true)) ∧
    (∀ (a : APIInput) (d : Json), Marshal a = .ok d →
      (∀ F : OptField, F.isSet a = true) →
      (d.keys.Perm wireKeys ↔ a.Temperature.isSome = true ∧ a.Stream.isSome = true)) := by
  refine ⟨rfl, wireKeys_nodup, ?_, ?_, ?_, ?_, ?_⟩
  · intro a d h
    rw [Marshal_keys h]
    have hsub := fields_keys_sublist a
    refine ⟨hsub.nodup (fieldNames_perm_wireKeys.nodup_iff.mpr wireKeys_nodup), ?_⟩
    intro k hk
    exact fieldNames_perm_wireKeys.subset (hsub.subset hk)
  · intro a d h hT hS hF
    have hkeys := keys_eq_fieldNames h hT hS hF
    exact ⟨hkeys, hkeys ▸ fieldNames_perm_wireKeys⟩
  · refine ⟨fullDocument, Marshal_fullEnvelope, fieldNames_perm_wireKeys, rfl, rfl, ?_⟩
    intro F
    cases F <;> rfl
  · intro a d h
    rw [Marshal_keys h]
    exact defaulted_key_mem_iff a
  · intro a d h hF
    constructor
    · intro hperm
      have hd := defaulted_key_mem_iff a
      rw [← Marshal_keys h] at hd
      exact ⟨hd.1.mp (hperm.mem_iff.mpr (by decide)), hd.2.mp (hperm.mem_iff.mpr (by decide))⟩
    · rintro ⟨hT, hS⟩
      rw [keys_eq_fieldNames h hT hS hF]
      exact fieldNames_perm_wireKeys

/-! ## Decoder: lemmas -/

theorem fieldIndex_APIResponse (key : String) :
    fieldIndex APIResponse.fieldNames key =
      if designates "code" key then some 0
      else if designates "output" key then some 1
      else none := by
  by_cases h0 : "code" = key
  · subst h0
    decide
  by_cases h1 : "output" = key
  · subst h1
    decide
  simp only [fieldIndex, APIResponse.fieldNames, designates, h0, h1,
    List.findIdx?_cons, List.findIdx?_nil, decide_False, Bool.false_or, decide_eq_true_eq,
    Bool.false_eq_true, if_false]

theorem fieldIndex_LlmUnifiedResponse (key : String) :
    fieldIndex LlmUnifiedResponse.fieldNames key =
      if designates "role" key then some 0
      else if designates "content" key then some 1
      else if designates "usage" key then some 2
      else if designates "finish_reason" key then some 3
      else none := by
  by_cases h0 : "role" = key
  · subst h0
    decide
  by_cases h1 : "content" = key
  · subst h1
    decide
  by_cases h2 : "usage" = key
  · subst h2
    decide
  by_cases h3 : "finish_reason" = key
  · subst h3
    decide
  simp only [fieldIndex, LlmUnifiedResponse.fieldNames, designates, h0, h1, h2, h3,
    List.findIdx?_cons, List.findIdx?_nil, decide_False, Bool.false_or, decide_eq_true_eq,
    Bool.false_eq_true, if_false]

theorem fieldIndex_LlmUsage (key : String) :
    fieldIndex LlmUsage.fieldNames key =
      if designates "input_tokens" key then some 0
      else if designates "output_tokens" key then some 1
      else if designates "total_tokens" key then some 2
      else none := by
  by_cases h0 : "input_tokens" = key
  · subst h0
    decide
  by_cases h1 : "output_tokens" = key
  · subst h1
    decide
  by_cases h2 : "total_tokens" = key
  · subst h2
    decide
  simp only [fieldIndex, LlmUsage.fieldNames, designates, h0, h1, h2,
    List.findIdx?_cons, List.findIdx?_nil, decide_False, Bool.false_or, decide_eq_true_eq,
    Bool.false_eq_true, if_false]

theorem decodeMembers_invariant {σ : Type}
    (setField : σ → String → Json → Except DecodeError σ) (I : σ → Prop)
    (P : String × Json → Prop)
    (hstep : ∀ s k v s1, P (k, v) → I s → setField s k v = .ok s1 → I s1) :
    ∀ (ms : List (String × Json)) (s s1 : σ), (∀ kv ∈ ms, P kv) → I s →
      decodeMembers setField ms s = .ok s1 → I s1 := by
  intro ms
  induction ms with
  | nil =>
    intro s s1 _ hI h
    simp only [decodeMembers, Except.ok.injEq] at h
    exact h ▸ hI
  | cons kv rest ih =>
    intro s s1 hP hI h
    obtain ⟨k, v⟩ := kv
    cases hs : setField s k v with
    | error e => simp [decodeMembers, hs] at h
    | ok s2 =>
      simp only [decodeMembers, hs] at h
      exact ih s2 s1 (fun kv hkv => hP kv (List.mem_cons_of_mem _ hkv))
        (hstep s k v s2 (hP (k, v) (List.mem_cons_self _ _)) hI hs) h

theorem mem_membersAt {name : String} {ms : List (String × Json)} {kv : String × Json} :
    kv ∈ membersAt name ms ↔
      ∃ k v, (k, v) ∈ ms ∧ designates name k = true ∧ kv ∈ objectMembers v := by
  induction ms with
  | nil => simp [membersAt]
  | cons hd rest ih =>
    obtain ⟨k0, v0⟩ := hd
    by_cases hk : designates name k0 = true
    · rw [membersAt, if_pos hk]
      simp only [List.mem_append, ih, List.mem_cons, Prod.mk.injEq]
      constructor
      · rintro (h | ⟨k, v, hmem, hd, hkv⟩)
        · exact ⟨k0, v0, Or.inl ⟨rfl, rfl⟩, hk, h⟩
        · exact ⟨k, v, Or.inr hmem, hd, hkv⟩
      · rintro ⟨k, v, (⟨rfl, rfl⟩ | hmem), hd, hkv⟩
        · exact Or.inl hkv
        · exact Or.inr ⟨k, v, hmem, hd, hkv⟩
    · rw [membersAt, if_neg hk]
      simp only [ih, List.mem_cons, Prod.mk.injEq]
      constructor
      · rintro ⟨k, v, hmem, hd, hkv⟩
        exact ⟨k, v, Or.inr hmem, hd, hkv⟩
      · rintro ⟨k, v, (⟨rfl, rfl⟩ | hmem), hd, hkv⟩
        · exact absurd hd hk
        · exact ⟨k, v, hmem, hd, hkv⟩

theorem lacksKey_iff {name : String} {ms : List (String × Json)} :
    lacksKey name ms = true ↔ ∀ kv ∈ ms, designates name kv.1 = false := by
  simp [lacksKey]

theorem LlmUsage_setField_cases {u u1 : LlmUsage} {k : String} {v : Json}
    (h : LlmUsage.setField u k v = .ok u1) :
    (designates "input_tokens" k = true ∧ ∃ x, u1 = { u with InputTokens := x }) ∨
    (designates "output_tokens" k = true ∧ ∃ x, u1 = { u with OutputTokens := x }) ∨
    (designates "total_tokens" k = true ∧ ∃ x, u1 = { u with TotalTokens := x }) ∨
    u1 = u := by
  unfold LlmUsage.setField at h
  rw [fieldIndex_LlmUsage] at h
  split_ifs at h with h0 h1 h2
  · cases hd : decodeUint32Ptr v with
    | error e => simp [hd] at h
    | ok x =>
      simp only [hd, Except.ok.injEq] at h
      exact Or.inl ⟨h0, x, h.symm⟩
  · cases hd : decodeUint32Ptr v with
    | error e => simp [hd] at h
    | ok x =>
      simp only [hd, Except.ok.injEq] at h
      exact Or.inr (Or.inl ⟨h1, x, h.symm⟩)
  · cases hd : decodeUint32Ptr v with
    | error e => simp [hd] at h
    | ok x =>
      simp only [hd, Except.ok.injEq] at h
      exact Or.inr (Or.inr (Or.inl ⟨h2, x, h.symm⟩))
  · simp only [Except.ok.injEq] at h
    exact Or.inr (Or.inr (Or.inr h.symm))

theorem LlmUnifiedResponse_setField_cases {o o1 : LlmUnifiedResponse} {k : String} {v : Json}
    (h : LlmUnifiedResponse.setField o k v = .ok o1) :
    (designates "role" k = true ∧ ∃ x, o1 = { o with Role := x }) ∨
    (designates "content" k = true ∧ ∃ x, decodeString o.Content v = .ok x ∧
      o1 = { o with Content := x }) ∨
    (designates "usage" k = true ∧ ∃ x, decodeUsagePtr o.Usage v = .ok x ∧
      o1 = { o with Usage := x }) ∨
    (designates "finish_reason" k = true ∧ ∃ x, o1 = { o with FinishReason := x }) ∨
    o1 = o := by
  unfold LlmUnifiedResponse.setField at h
  rw [fieldIndex_LlmUnifiedResponse] at h
  split_ifs at h with h0 h1 h2 h3
  · cases hd : decodeStringPtr v with
    | error e => simp [hd] at h
    | ok x =>
      simp only [hd, Except.ok.injEq] at h
      exact Or.inl ⟨h0, x, h.symm⟩
  · cases hd : decodeString o.Content v with
    | error e => simp [hd] at h
    | ok x =>
      simp only [hd, Except.ok.injEq] at h
      exact Or.inr (Or.inl ⟨h1, x, rfl, h.symm⟩)
  · cases hd : decodeUsagePtr o.Usage v with
    | error e => simp [hd] at h
    | ok x =>
      simp only [hd, Except.ok.injEq] at h
      exact Or.inr (Or.inr (Or.inl ⟨h2, x, rfl, h.symm⟩))
  · cases hd : decodeStringPtr v with
    | error e => simp [hd] at h
    | ok x =>
      simp only [hd, Except.ok.injEq] at h
      exact Or.inr (Or.inr (Or.inr (Or.inl ⟨h3, x, h.symm⟩)))
  · simp only [Except.ok.injEq] at h
    exact Or.inr (Or.inr (Or.inr (Or.inr h.symm)))

theorem APIResponse_setField_cases {r r1 : APIResponse} {k : String} {v : Json}
    (h : APIResponse.setField r k v = .ok r1) :
    (designates "code" k = true ∧ ∃ x, r1 = { r with Code := x }) ∨
    (designates "output" k = true ∧ ∃ x, decodeOutput r.Output v = .ok x ∧
      r1 = { r with Output := x }) ∨
    r1 = r := by
  unfold APIResponse.setField at h
  rw [fieldIndex_APIResponse] at h
  split_ifs at h with h0 h1
  · cases hd : decodeUint 16 "uint16" r.Code v with
    | error e => simp [hd] at h
    | ok x =>
      simp only [hd, Except.ok.injEq] at h
      exact Or.inl ⟨h0, x, h.symm⟩
  · cases hd : decodeOutput r.Output v with
    | error e => simp [hd] at h
    | ok x =>
      simp only [hd, Except.ok.injEq] at h
      exact Or.inr (Or.inl ⟨h1, x, rfl, h.symm⟩)
  · simp only [Except.ok.injEq] at h
    exact Or.inr (Or.inr h.symm)

/-- An invariant of the usage record that every member of the usage objects
preserves holds of every decoded usage record. -/
theorem decodeUsagePtr_invariant (K : LlmUsage → Prop) (Q : String × Json → Prop)
    (hstep : ∀ u k v u1, Q (k, v) → K u → LlmUsage.setField u k v = .ok u1 → K u1)
    (hzero : K LlmUsage.zero) {cur x : Option LlmUsage} {v : Json}
    (hcur : ∀ u, cur = some u → K u) (hQ : ∀ kv ∈ objectMembers v, Q kv)
    (h : decodeUsagePtr cur v = .ok x) : ∀ u, x = some u → K u := by
  cases v with
  | null =>
    simp only [decodeUsagePtr, Except.ok.injEq] at h
    subst h
    intro u hu
    cases hu
  | obj ms =>
    cases hd : decodeMembers LlmUsage.setField ms (cur.getD LlmUsage.zero) with
    | error e => simp [decodeUsagePtr, hd] at h
    | ok u1 =>
      simp only [decodeUsagePtr, hd, Except.ok.injEq] at h
      subst h
      intro u hu
      cases hu
      refine decodeMembers_invariant LlmUsage.setField K Q hstep ms _ _ hQ ?_ hd
      cases cur with
      | none => exact hzero
      | some u0 => exact hcur u0 rfl
  | bool b => simp [decodeUsagePtr] at h
  | uint n => simp [decodeUsagePtr] at h
  | float f => simp [decodeUsagePtr] at h
  | numLit t => simp [decodeUsagePtr] at h
  | str s => simp [decodeUsagePtr] at h
  | arr l => simp [decodeUsagePtr] at h

/-- An invariant of the output record that every member of the output objects
preserves holds of the decoded output. -/
theorem Decode_output_invariant (J : LlmUnifiedResponse → Prop) (Q : String × Json → Prop)
    (hstep : ∀ o k v o1, Q (k, v) → J o → LlmUnifiedResponse.setField o k v = .ok o1 → J o1)
    (hzero : J LlmUnifiedResponse.zero) {doc : Json} {r : APIResponse}
    (h : Decode doc = .ok r) (hQ : ∀ kv ∈ outputMembers doc, Q kv) : J r.Output := by
  unfold Decode at h
  cases doc with
  | null =>
    simp only [decodeAPIResponse, Except.ok.injEq] at h
    subst h
    exact hzero
  | obj ms =>
    simp only [decodeAPIResponse] at h
    refine decodeMembers_invariant APIResponse.setField (fun r => J r.Output)
      (fun kv => designates "output" kv.1 = true → ∀ m ∈ objectMembers kv.2, Q m)
      ?_ ms _ _ ?_ hzero h
    · intro s k v s1 hP hJ hs
      rcases APIResponse_setField_cases hs with ⟨_, x, rfl⟩ | ⟨hk, x, hx, rfl⟩ | rfl
      · exact hJ
      · cases v with
        | null =>
          simp only [decodeOutput, Except.ok.injEq] at hx
          subst hx
          exact hJ
        | obj oms =>
          simp only [decodeOutput] at hx
          exact decodeMembers_invariant LlmUnifiedResponse.setField J Q hstep oms _ _
            (hP hk) hJ hx
        | bool b => simp [decodeOutput] at hx
        | uint n => simp [decodeOutput] at hx
        | float f => simp [decodeOutput] at hx
        | numLit t => simp [decodeOutput] at hx
        | str s => simp [decodeOutput] at hx
        | arr l => simp [decodeOutput] at hx
      · exact hJ
    · intro kv hkv hd m hm
      exact hQ m (mem_membersAt.mpr ⟨kv.1, kv.2, hkv, hd, hm⟩)
  | bool b => simp [decodeAPIResponse] at h
  | uint n => simp [decodeAPIResponse] at h
  | float f => simp [decodeAPIResponse] at h
  | numLit t => simp [decodeAPIResponse] at h
  | str s => simp [decodeAPIResponse] at h
  | arr l => simp [decodeAPIResponse] at h

/-- An invariant of the usage record that every member of the usage objects
preserves holds of the decoded usage record, when there is one. -/
theorem Decode_usage_invariant (K : LlmUsage → Prop) (Q : String × Json → Prop)
    (hstep : ∀ u k v u1, Q (k, v) → K u → LlmUsage.setField u k v = .ok u1 → K u1)
    (hzero : K LlmUsage.zero) {doc : Json} {r : APIResponse}
    (h : Decode doc = .ok r) (hQ : ∀ kv ∈ usageMembers doc, Q kv) :
    ∀ u, r.Output.Usage = some u → K u := by
  refine Decode_output_invariant (fun o => ∀ u, o.Usage = some u → K u)
    (fun kv => designates "usage" kv.1 = true → ∀ m ∈ objectMembers kv.2, Q m)
    ?_ ?_ h ?_
  · intro o k v o1 hP hJ hs
    rcases LlmUnifiedResponse_setField_cases hs with
      ⟨_, x, rfl⟩ | ⟨_, x, _, rfl⟩ | ⟨hk, x, hx, rfl⟩ | ⟨_, x, rfl⟩ | rfl
    · exact hJ
    · exact hJ
    · exact decodeUsagePtr_invariant K Q hstep hzero hJ (hP hk) hx
    · exact hJ
    · exact hJ
  · intro u hu
    cases hu
  · intro kv hkv hd m hm
    exact hQ m (mem_membersAt.mpr ⟨kv.1, kv.2, hkv, hd, hm⟩)

theorem LlmUnifiedResponse_setField_role {o o1 : LlmUnifiedResponse} {k : String} {v : Json}
    (hk : designates "role" k = false) (h : LlmUnifiedResponse.setField o k v = .ok o1) :
    o1.Role = o.Role := by
  rcases LlmUnifiedResponse_setField_cases h with
    ⟨h0, _⟩ | ⟨_, x, _, rfl⟩ | ⟨_, x, _, rfl⟩ | ⟨_, x, rfl⟩ | rfl
  · rw [hk] at h0
    cases h0
  all_goals rfl

theorem LlmUnifiedResponse_setField_content {o o1 : LlmUnifiedResponse} {k : String}
    {v : Json} (hk : designates "content" k = false)
    (h : LlmUnifiedResponse.setField o k v = .ok o1) : o1.Content = o.Content := by
  rcases LlmUnifiedResponse_setField_cases h with
    ⟨_, x, rfl⟩ | ⟨h0, _⟩ | ⟨_, x, _, rfl⟩ | ⟨_, x, rfl⟩ | rfl
  · rfl
  · rw [hk] at h0
    cases h0
  all_goals rfl

theorem LlmUnifiedResponse_setField_usage {o o1 : LlmUnifiedResponse} {k : String} {v : Json}
    (hk : designates "usage" k = false) (h : LlmUnifiedResponse.setField o k v = .ok o1) :
    o1.Usage = o.Usage := by
  rcases LlmUnifiedResponse_setField_cases h with
    ⟨_, x, rfl⟩ | ⟨_, x, _, rfl⟩ | ⟨h0, _⟩ | ⟨_, x, rfl⟩ | rfl
  · rfl
  · rfl
  · rw [hk] at h0
    cases h0
  all_goals rfl

theorem LlmUnifiedResponse_setField_finish {o o1 : LlmUnifiedResponse} {k : String}
    {v : Json} (hk : designates "finish_reason" k = false)
    (h : LlmUnifiedResponse.setField o k v = .ok o1) : o1.FinishReason = o.FinishReason := by
  rcases LlmUnifiedResponse_setField_cases h with
    ⟨_, x, rfl⟩ | ⟨_, x, _, rfl⟩ | ⟨_, x, _, rfl⟩ | ⟨h0, _⟩ | rfl
  · rfl
  · rfl
  · rfl
  · rw [hk] at h0
    cases h0
  · rfl

theorem LlmUsage_setField_input {u u1 : LlmUsage} {k : String} {v : Json}
    (hk : designates "input_tokens" k = false) (h : LlmUsage.setField u k v = .ok u1) :
    u1.InputTokens = u.InputTokens := by
  rcases LlmUsage_setField_cases h with ⟨h0, _⟩ | ⟨_, x, rfl⟩ | ⟨_, x, rfl⟩ | rfl
  · rw [hk] at h0
    cases h0
  all_goals rfl

theorem LlmUsage_setField_output {u u1 : LlmUsage} {k : String} {v : Json}
    (hk : designates "output_tokens" k = false) (h : LlmUsage.setField u k v = .ok u1) :
    u1.OutputTokens = u.OutputTokens := by
  rcases LlmUsage_setField_cases h with ⟨_, x, rfl⟩ | ⟨h0, _⟩ | ⟨_, x, rfl⟩ | rfl
  · rfl
  · rw [hk] at h0
    cases h0
  all_goals rfl

theorem LlmUsage_setField_total {u u1 : LlmUsage} {k : String} {v : Json}
    (hk : designates "total_tokens" k = false) (h : LlmUsage.setField u k v = .ok u1) :
    u1.TotalTokens = u.TotalTokens := by
  rcases LlmUsage_setField_cases h with ⟨_, x, rfl⟩ | ⟨_, x, rfl⟩ | ⟨h0, _⟩ | rfl
  · rfl
  · rfl
  · rw [hk] at h0
    cases h0
  · rfl

/-! ## Decoder: when decoding succeeds -/

theorem decodeMembers_isOk_iff {σ : Type}
    (setField : σ → String → Json → Except DecodeError σ) (ok : String × Json → Bool)
    (hstep : ∀ s k v, (∃ s1, setField s k v = .ok s1) ↔ ok (k, v) = true) :
    ∀ (ms : List (String × Json)) (s : σ),
      (∃ s1, decodeMembers setField ms s = .ok s1) ↔ ms.all ok = true := by
  intro ms
  induction ms with
  | nil =>
    intro s
    simp [decodeMembers]
  | cons kv rest ih =>
    intro s
    obtain ⟨k, v⟩ := kv
    rw [List.all_cons, Bool.and_eq_true, ← hstep s k v]
    cases hs : setField s k v with
    | error e => simp [decodeMembers, hs]
    | ok s2 =>
      simp only [decodeMembers, hs, Except.ok.injEq, exists_eq', true_and]
      exact ih s2

theorem decodeUint_isOk_iff (w : Nat) (goType : String) (cur : Nat) (v : Json) :
    (∃ x, decodeUint w goType cur v = .ok x) ↔ uintFits w v = true := by
  cases v with
  | uint n =>
    by_cases hn : n < 2 ^ w <;> simp [decodeUint, uintFits, hn]
  | float f =>
    cases hf : f.toUint? with
    | none => simp [decodeUint, uintFits, hf]
    | some n => by_cases hn : n < 2 ^ w <;> simp [decodeUint, uintFits, hf, hn]
  | _ => simp [decodeUint, uintFits]

theorem decodeUint32Ptr_isOk_iff (v : Json) :
    (∃ x, decodeUint32Ptr v = .ok x) ↔ uintFits 32 v = true := by
  rw [← decodeUint_isOk_iff 32 "uint32" 0 v]
  cases v with
  | null => simp [decodeUint32Ptr, decodeUint]
  | _ =>
    simp only [decodeUint32Ptr]
    split <;> simp_all

theorem decodeString_isOk_iff (cur : GoString) (v : Json) :
    (∃ x, decodeString cur v = .ok x) ↔ stringOrNull v = true := by
  cases v <;> simp [decodeString, stringOrNull]

theorem decodeStringPtr_isOk_iff (v : Json) :
    (∃ x, decodeStringPtr v = .ok x) ↔ stringOrNull v = true := by
  cases v <;> simp [decodeStringPtr, stringOrNull]

theorem LlmUsage_setField_isOk_iff (u : LlmUsage) (k : String) (v : Json) :
    (∃ u1, LlmUsage.setField u k v = .ok u1) ↔ usageMemberOk (k, v) = true := by
  unfold LlmUsage.setField usageMemberOk
  rw [fieldIndex_LlmUsage]
  split_ifs
  · rw [← decodeUint32Ptr_isOk_iff v]
    cases decodeUint32Ptr v <;> simp
  · rw [← decodeUint32Ptr_isOk_iff v]
    cases decodeUint32Ptr v <;> simp
  · rw [← decodeUint32Ptr_isOk_iff v]
    cases decodeUint32Ptr v <;> simp
  · simp

theorem decodeUsagePtr_isOk_iff (cur : Option LlmUsage) (v : Json) :
    (∃ x, decodeUsagePtr cur v = .ok x) ↔ usageValueOk v = true := by
  cases v with
  | obj ms =>
    simp only [decodeUsagePtr, usageValueOk]
    rw [← decodeMembers_isOk_iff LlmUsage.setField usageMemberOk LlmUsage_setField_isOk_iff ms
      (cur.getD LlmUsage.zero)]
    cases decodeMembers LlmUsage.setField ms (cur.getD LlmUsage.zero) <;> simp
  | _ => simp [decodeUsagePtr, usageValueOk]

theorem LlmUnifiedResponse_setField_isOk_iff (o : LlmUnifiedResponse) (k : String)
    (v : Json) :
    (∃ o1, LlmUnifiedResponse.setField o k v = .ok o1) ↔ outputMemberOk (k, v) = true := by
  unfold LlmUnifiedResponse.setField outputMemberOk
  rw [fieldIndex_LlmUnifiedResponse]
  split_ifs
  · rw [← decodeStringPtr_isOk_iff v]
    cases decodeStringPtr v <;> simp
  · rw [← decodeString_isOk_iff o.Content v]
    cases decodeString o.Content v <;> simp
  · rw [← decodeUsagePtr_isOk_iff o.Usage v]
    cases decodeUsagePtr o.Usage v <;> simp
  · rw [← decodeStringPtr_isOk_iff v]
    cases decodeStringPtr v <;> simp
  · simp

theorem decodeOutput_isOk_iff (cur : LlmUnifiedResponse) (v : Json) :
    (∃ x, decodeOutput cur v = .ok x) ↔ outputValueOk v = true := by
  cases v with
  | obj ms =>
    simp only [decodeOutput, outputValueOk]
    exact decodeMembers_isOk_iff LlmUnifiedResponse.setField outputMemberOk
      LlmUnifiedResponse_setField_isOk_iff ms _
  | _ => simp [decodeOutput, outputValueOk]

theorem APIResponse_setField_isOk_iff (r : APIResponse) (k : String) (v : Json) :
    (∃ r1, APIResponse.setField r k v = .ok r1) ↔ responseMemberOk (k, v) = true := by
  unfold APIResponse.setField responseMemberOk
  rw [fieldIndex_APIResponse]
  split_ifs
  · rw [← decodeUint_isOk_iff 16 "uint16" r.Code v]
    cases decodeUint 16 "uint16" r.Code v <;> simp
  · rw [← decodeOutput_isOk_iff r.Output v]
    cases decodeOutput r.Output v <;> simp
  · simp

/-- Decoding succeeds exactly on the well-typed documents. -/
theorem Decode_isOk_iff (doc : Json) : (∃ r, Decode doc = .ok r) ↔ wellTyped doc = true := by
  unfold Decode
  cases doc with
  | obj ms =>
    simp only [decodeAPIResponse, wellTyped]
    exact decodeMembers_isOk_iff APIResponse.setField responseMemberOk
      APIResponse_setField_isOk_iff ms _
  | _ => simp [decodeAPIResponse, wellTyped]

/-! ## Response decoding: claims -/

/-- C8, as stated, fails. In this document the output object has no key
"role" (its keys are "content" and "ROLE"), yet the decode succeeds with the
role present: the decoder also accepts a key that equals the field name up to
case folding. -/
theorem capital_role_key_decoded :
    "role" ∉ (outputMembers capitalRoleResponse).map Prod.fst ∧
    Decode capitalRoleResponse = .ok
      { Code := 200,
        Output := { Role := some (goString "assistant"), Content := goString "hello",
                    Usage := none, FinishReason := none } } :=
  ⟨by decide, rfl⟩

/-- C8, amended: for every response document that decodes successfully, each
optional field that no key of the document designates (no key equal to the
field name, exactly or up to case folding, among the members of the output
objects, respectively of the usage objects) decodes to the absent state:
role, usage and finish_reason are nil, and each of the three counts of a
decoded usage record is nil independently of the other two. -/
theorem absent_optional_decodes_absent (doc : Json) (r : APIResponse)
    (h : Decode doc = .ok r) :
    (lacksKey "role" (outputMembers doc) = true → r.Output.Role = none) ∧
    (lacksKey "usage" (outputMembers doc) = true → r.Output.Usage = none) ∧
    (lacksKey "finish_reason" (outputMembers doc) = true → r.Output.FinishReason = none) ∧
    (lacksKey "input_tokens" (usageMembers doc) = true →
      ∀ u, r.Output.Usage = some u → u.InputTokens = none) ∧
    (lacksKey "output_tokens" (usageMembers doc) = true →
      ∀ u, r.Output.Usage = some u → u.OutputTokens = none) ∧
    (lacksKey "total_tokens" (usageMembers doc) = true →
      ∀ u, r.Output.Usage = some u → u.TotalTokens = none) := by
  refine ⟨?_, ?_, ?_, ?_, ?_, ?_⟩
  · intro hl
    exact Decode_output_invariant (fun o => o.Role = none)
      (fun kv => designates "role" kv.1 = false)
      (fun o k v o1 hk hJ hs => (LlmUnifiedResponse_setField_role hk hs).trans hJ)
      rfl h (lacksKey_iff.mp hl)
  · intro hl
    exact Decode_output_invariant (fun o => o.Usage = none)
      (fun kv => designates "usage" kv.1 = false)
      (fun o k v o1 hk hJ hs => (LlmUnifiedResponse_setField_usage hk hs).trans hJ)
      rfl h (lacksKey_iff.mp hl)
  · intro hl
    exact Decode_output_invariant (fun o => o.FinishReason = none)
      (fun kv => designates "finish_reason" kv.1 = false)
      (fun o k v o1 hk hJ hs => (LlmUnifiedResponse_setField_finish hk hs).trans hJ)
      rfl h (lacksKey_iff.mp hl)
  · intro hl
    exact Decode_usage_invariant (fun u => u.InputTokens = none)
      (fun kv => designates "input_tokens" kv.1 = false)
      (fun u k v u1 hk hK hs => (LlmUsage_setField_input hk hs).trans hK)
      rfl h (lacksKey_iff.mp hl)
  · intro hl
    exact Decode_usage_invariant (fun u => u.OutputTokens = none)
      (fun kv => designates "output_tokens" kv.1 = false)
      (fun u k v u1 hk hK hs => (LlmUsage_setField_output hk hs).trans hK)
      rfl h (lacksKey_iff.mp hl)
  · intro hl
    exact Decode_usage_invariant (fun u => u.TotalTokens = none)
      (fun kv => designates "total_tokens" kv.1 = false)
      (fun u k v u1 hk hK hs => (LlmUsage_setField_total hk hs).trans hK)
      rfl h (lacksKey_iff.mp hl)

theorem absent_optional_decodes_absent_witness :
    Decode exampleResponse = .ok exampleDecoded ∧
    exampleDecoded.Code = 200 ∧
    exampleDecoded.Output.Content = goString "hello" ∧
    exampleDecoded.Output.Role = none ∧
    exampleDecoded.Output.Usage = none ∧
    exampleDecoded.Output.FinishReason = none :=
  have h := absent_optional_decodes_absent exampleResponse exampleDecoded rfl
  ⟨rfl, rfl, rfl, h.1 (by decide), h.2.1 (by decide), h.2.2.1 (by decide)⟩

/-- C9, as stated, fails: the body with an empty output object, which has no
content key, decodes successfully, with content defaulted to the empty
string. -/
theorem missing_content_decodes :
    lacksKey "content" (outputMembers emptyOutputResponse) = true ∧
    Decode emptyOutputResponse = .ok
      { Code := 200,
        Output :=
          { Role := none, Content := goString "", Usage := none, FinishReason := none } } :=
  ⟨by decide, rfl⟩

/-- C9, amended: a response body whose output objects have no key that
designates content is not a decode failure on that account. Whenever every
member that designates a field holds null or a value of the kind and range of
that field (no key is required to be present), decoding succeeds, and the
content of the result is the empty string. -/
theorem missing_content_is_empty (doc : Json) (hw : wellTyped doc = true)
    (hl : lacksKey "content" (outputMembers doc) = true) :
    ∃ r, Decode doc = .ok r ∧ r.Output.Content = goString "" := by
  obtain ⟨r, hr⟩ := (Decode_isOk_iff doc).mpr hw
  refine ⟨r, hr, ?_⟩
  exact Decode_output_invariant (fun o => o.Content = goString "")
    (fun kv => designates "content" kv.1 = false)
    (fun _ _ _ _ hk hJ hs => (LlmUnifiedResponse_setField_content hk hs).trans hJ)
    rfl hr (lacksKey_iff.mp hl)

theorem missing_content_is_empty_witness :
    wellTyped (.obj [("code", .uint 500), ("output", .obj [("role", .str "assistant")])])
      = true ∧
    lacksKey "content"
      (outputMembers (.obj [("code", .uint 500), ("output", .obj [("role", .str "assistant")])]))
      = true ∧
    (∃ r, Decode (.obj [("code", .uint 500), ("output", .obj [("role", .str "assistant")])])
      = .ok r ∧ r.Output.Content = goString "") :=
  ⟨by decide, by decide,
    missing_content_is_empty
      (.obj [("code", .uint 500), ("output", .obj [("role", .str "assistant")])])
      (by decide) (by decide)⟩

/-! ## Price of one model: claim -/

/-- C12: the price lookup for ModelGptO3Pro, the identifier "GPT-o3-pro",
returns exactly 10400: the one-value index gives 10400 and the two-value index
gives 10400 with ok true. -/
theorem price_ModelGptO3Pro :
    ModelGptO3Pro = goString "GPT-o3-pro" ∧
    ModelGptO3Pro.text = "GPT-o3-pro" ∧
    mapIndex ModelPrices ModelGptO3Pro = 10400 ∧
    mapIndexOk ModelPrices ModelGptO3Pro = (10400, true) := by
  decide

/-! ## Setters: frame and algebra claims -/

/-- C14: SetTemperature(v) yields an envelope whose Temperature is set to v
and whose 22 other fields are those of the envelope before the call;
SetStopSequences(s) yields an envelope whose StopSequences is set to s and
whose 22 other fields are those of the envelope before the call. -/
theorem setters_frame (e : APIInput) (v : Float64) (s : Slice GoString) :
    ((e.SetTemperature v).Temperature = some v ∧
     (e.SetTemperature v).Endpoint = e.Endpoint ∧
     (e.SetTemperature v).Model = e.Model ∧
     (e.SetTemperature v).Stream = e.Stream ∧
     (e.SetTemperature v).Messages = e.Messages ∧
     (e.SetTemperature v).MaxTokens = e.MaxTokens ∧
     (e.SetTemperature v).TopP = e.TopP ∧
     (e.SetTemperature v).StopSequences = e.StopSequences ∧
     (e.SetTemperature v).Tools = e.Tools ∧
     (e.SetTemperature v).Contents = e.Contents ∧
     (e.SetTemperature v).SafetySettings = e.SafetySettings ∧
     (e.SetTemperature v).GenerationConfig = e.GenerationConfig ∧
     (e.SetTemperature v).FrequencyPenalty = e.FrequencyPenalty ∧
     (e.SetTemperature v).PresencePenalty = e.PresencePenalty ∧
     (e.SetTemperature v).N = e.N ∧
     (e.SetTemperature v).ResponseFormat = e.ResponseFormat ∧
     (e.SetTemperature v).Seed = e.Seed ∧
     (e.SetTemperature v).ToolChoice = e.ToolChoice ∧
     (e.SetTemperature v).User = e.User ∧
     (e.SetTemperature v).Logprobs = e.Logprobs ∧
     (e.SetTemperature v).TopLogprobs = e.TopLogprobs ∧
     (e.SetTemperature v).System = e.System ∧
     (e.SetTemperature v).TopK = e.TopK) ∧
    ((e.SetStopSequences s).StopSequences = some s ∧
     (e.SetStopSequences s).Endpoint = e.Endpoint ∧
     (e.SetStopSequences s).Model = e.Model ∧
     (e.SetStopSequences s).Temperature = e.Temperature ∧
     (e.SetStopSequences s).Stream = e.Stream ∧
     (e.SetStopSequences s).Messages = e.Messages ∧
     (e.SetStopSequences s).MaxTokens = e.MaxTokens ∧
     (e.SetStopSequences s).TopP = e.TopP ∧
     (e.SetStopSequences s).Tools = e.Tools ∧
     (e.SetStopSequences s).Contents = e.Contents ∧
     (e.SetStopSequences s).SafetySettings = e.SafetySettings ∧
     (e.SetStopSequences s).GenerationConfig = e.GenerationConfig ∧
     (e.SetStopSequences s).FrequencyPenalty = e.FrequencyPenalty ∧
     (e.SetStopSequences s).PresencePenalty = e.PresencePenalty ∧
     (e.SetStopSequences s).N = e.N ∧
     (e.SetStopSequences s).ResponseFormat = e.ResponseFormat ∧
     (e.SetStopSequences s).Seed = e.Seed ∧
     (e.SetStopSequences s).ToolChoice = e.ToolChoice ∧
     (e.SetStopSequences s).User = e.User ∧
     (e.SetStopSequences s).Logprobs = e.Logprobs ∧
     (e.SetStopSequences s).TopLogprobs = e.TopLogprobs ∧
     (e.SetStopSequences s).System = e.System ∧
     (e.SetStopSequences s).TopK = e.TopK) := by
  refine ⟨⟨rfl, rfl, rfl, rfl, rfl, rfl, rfl, rfl, rfl, rfl, rfl, rfl, rfl, rfl, rfl, rfl, rfl,
    rfl, rfl, rfl, rfl, rfl, rfl⟩, ?_⟩
  exact ⟨rfl, rfl, rfl, rfl, rfl, rfl, rfl, rfl, rfl, rfl, rfl, rfl, rfl, rfl, rfl, rfl, rfl,
    rfl, rfl, rfl, rfl, rfl, rfl⟩

/-- C15: the last write wins and the two setters commute: SetTemperature(t1)
followed by SetTemperature(t2) gives the envelope of SetTemperature(t2) alone,
SetStopSequences(s1) followed by SetStopSequences(s2) gives the envelope of
SetStopSequences(s2) alone, and SetTemperature(t1) followed by
SetStopSequences(s1) gives the envelope of SetStopSequences(s1) followed by
SetTemperature(t1). -/
theorem setters_last_write_wins (e : APIInput) (t1 t2 : Float64)
    (s1 s2 : Slice GoString) :
    (e.SetTemperature t1).SetTemperature t2 = e.SetTemperature t2 ∧
    (e.SetStopSequences s1).SetStopSequences s2 = e.SetStopSequences s2 ∧
    (e.SetTemperature t1).SetStopSequences s1 = (e.SetStopSequences s1).SetTemperature t1 :=
  ⟨rfl, rfl, rfl⟩

/-! ## Transmission: lemmas -/

theorem validMethod_POST : validMethod "POST" = true := by
  decide

theorem NewRequest_POST (env : Env) (url : String) (body : Json) :
    NewRequest env "POST" url body =
      if env.urlParses url then
        .ok { Method := "POST", URL := url, Header := [], Body := body }
      else .error "parse error" := by
  have hne : ¬ ("POST" = "") := by decide
  simp only [NewRequest, if_neg hne]
  rw [validMethod_POST]
  cases env.urlParses url <;> simp

theorem Send_of_Marshal_error {env : Env} {a : APIInput} {apiKey : GoString}
    {e : MarshalError}
    (h : Marshal a = .error e) : a.Send env apiKey = (a, .error (.marshalFailed e)) := by
  simp [APIInput.Send, h]

theorem Send_of_urlParses_false {env : Env} {a : APIInput} {apiKey : GoString} {d : Json}
    (h : Marshal a = .ok d) (hu : env.urlParses "https://onellm.dev/api" = false) :
    a.Send env apiKey = (a, .error (.createRequestFailed "parse error")) := by
  simp [APIInput.Send, h, NewRequest_POST, hu]

theorem sentRequest_header (apiKey : GoString) :
    Header.Set (Header.Set [] "Content-Type" (goString "application/json")) "Authorization"
      ((goString "Bearer ").append apiKey) =
      [("Content-Type", goString "application/json"),
       ("Authorization", (goString "Bearer ").append apiKey)] := by
  simp [Header.Set]

theorem Send_of_request {env : Env} {a : APIInput} {apiKey : GoString} {d : Json}
    (h : Marshal a = .ok d) (hu : env.urlParses "https://onellm.dev/api" = true) :
    a.Send env apiKey =
      (a, match env.Do (sentRequest d apiKey) with
          | .error e => .error (.requestFailed e)
          | .ok resp => decodeBody env resp) := by
  simp only [APIInput.Send, h, NewRequest_POST, hu, if_true, sentRequest_header, sentRequest]
  cases env.Do
      { Method := "POST", URL := "https://onellm.dev/api",
        Header :=
          [("Content-Type", goString "application/json"),
           ("Authorization", (goString "Bearer ").append apiKey)],
        Body := d } <;> rfl

theorem decodeBody_error_iff (env : Env) (resp : Response) :
    (∃ e, decodeBody env resp = .error e) ↔
      env.readJson resp.Body = none ∨
      ∃ doc, env.readJson resp.Body = some doc ∧ ∃ e, Decode doc = .error e := by
  unfold decodeBody
  cases hj : env.readJson resp.Body with
  | none => simp
  | some doc =>
    cases hd : Decode doc <;> simp [hd]

theorem NewRequest_error_iff (env : Env) (url : String) (body : Json) :
    (∃ e, NewRequest env "POST" url body = .error e) ↔ env.urlParses url = false := by
  rw [NewRequest_POST]
  cases env.urlParses url <;> simp

theorem NewRequest_ok_iff (env : Env) (url : String) (body : Json) :
    (∃ req, NewRequest env "POST" url body = .ok req) ↔ env.urlParses url = true := by
  rw [NewRequest_POST]
  cases env.urlParses url <;> simp

/-! ## Transmission: claims -/

/-- C11: with the transport an arbitrary function from a request to a
response (status and raw bytes) or a transport failure, Send returns an error
if and only if serializing the envelope fails, or building the request fails,
or the transport fails on the request, or the response body does not decode
(it is not well-formed JSON, or its document does not decode into the response
envelope). In every other case Send returns the decoded response envelope as
it is, whatever the HTTP status of the response and whatever the value of the
unified code. -/
theorem Send_error_iff (env : Env) (a : APIInput) (apiKey : GoString) :
    ((∃ e, (a.Send env apiKey).2 = .error e) ↔
      (∃ e, Marshal a = .error e) ∨
      ∃ d, Marshal a = .ok d ∧
        ((∃ e, NewRequest env "POST" "https://onellm.dev/api" d = .error e) ∨
         ((∃ req, NewRequest env "POST" "https://onellm.dev/api" d = .ok req) ∧
          ((∃ e, env.Do (sentRequest d apiKey) = .error e) ∨
           ∃ resp, env.Do (sentRequest d apiKey) = .ok resp ∧
             (env.readJson resp.Body = none ∨
              ∃ doc, env.readJson resp.Body = some doc ∧ ∃ e, Decode doc = .error e))))) ∧
    (∀ (d : Json) (resp : Response) (doc : Json) (r : APIResponse),
      Marshal a = .ok d →
      (∃ req, NewRequest env "POST" "https://onellm.dev/api" d = .ok req) →
      env.Do (sentRequest d apiKey) = .ok resp →
      env.readJson resp.Body = some doc →
      Decode doc = .ok r →
      (a.Send env apiKey).2 = .ok r) := by
  constructor
  · cases hm : Marshal a with
    | error e =>
      rw [Send_of_Marshal_error hm]
      simp
    | ok d =>
      cases hu : env.urlParses "https://onellm.dev/api" with
      | false =>
        rw [Send_of_urlParses_false hm hu]
        simp [NewRequest_error_iff, hu]
      | true =>
        rw [Send_of_request hm hu]
        simp only [NewRequest_error_iff, NewRequest_ok_iff, hu, Except.ok.injEq,
          exists_eq_left', Bool.true_eq_false, false_or, true_and, exists_false,
          reduceCtorEq]
        cases hdo : env.Do (sentRequest d apiKey) with
        | error e => simp
        | ok resp =>
          simp only [Except.ok.injEq, exists_eq_left', exists_false, false_or, reduceCtorEq]
          exact decodeBody_error_iff env resp
  · intro d resp doc r hm hreq hdo hj hdec
    have hu := (NewRequest_ok_iff env _ d).mp hreq
    rw [Send_of_request hm hu]
    simp [hdo, decodeBody, hj, hdec]

theorem Send_error_iff_witness :
    (exampleEnvelope.Send exampleEnv (goString "secret")).2 = .ok
      { Code := 500,
        Output := { Role := none, Content := goString "upstream failure", Usage := none,
                    FinishReason := none } } :=
  (Send_error_iff exampleEnv exampleEnvelope (goString "secret")).2 _
    { StatusCode := 500, Body := [] } failureResponse _ rfl ⟨_, rfl⟩ rfl rfl rfl

/-- C13: Send leaves the envelope as it was. Whenever the envelope
serializes to a document d and the gateway URL parses, the transport is called
with one request: a POST to https://onellm.dev/api whose body is d, whose
header holds exactly Content-Type: application/json and Authorization: Bearer
followed by the credential; what Send returns is determined by what the
transport returns for that request. When the envelope does not serialize, or
the URL does not parse, Send returns its error whatever the transport is. -/
theorem Send_request (env : Env) (a : APIInput) (apiKey : GoString) :
    (a.Send env apiKey).1 = a ∧
    (∀ d : Json, Marshal a = .ok d → env.urlParses "https://onellm.dev/api" = true →
      ∃ req : Request,
        req.Method = "POST" ∧
        req.URL = "https://onellm.dev/api" ∧
        req.Body = d ∧
        req.Header =
          [("Content-Type", goString "application/json"),
           ("Authorization", (goString "Bearer ").append apiKey)] ∧
        req.Header.Get "Content-Type" = goString "application/json" ∧
        req.Header.Get "Authorization" = (goString "Bearer ").append apiKey ∧
        (req.Header.Get "Authorization").bytes = (goString "Bearer ").bytes ++ apiKey.bytes ∧
        (∀ e, env.Do req = .error e →
          (a.Send env apiKey).2 = .error (.requestFailed e)) ∧
        (∀ resp, env.Do req = .ok resp → (a.Send env apiKey).2 = decodeBody env resp)) ∧
    (∀ e, Marshal a = .error e → (a.Send env apiKey).2 = .error (.marshalFailed e)) ∧
    (∀ d : Json, Marshal a = .ok d → env.urlParses "https://onellm.dev/api" = false →
      (a.Send env apiKey).2 = .error (.createRequestFailed "parse error")) := by
  refine ⟨?_, ?_, ?_, ?_⟩
  · cases hm : Marshal a with
    | error e => rw [Send_of_Marshal_error hm]
    | ok d =>
      cases hu : env.urlParses "https://onellm.dev/api" with
      | false => rw [Send_of_urlParses_false hm hu]
      | true => rw [Send_of_request hm hu]
  · intro d hm hu
    refine ⟨sentRequest d apiKey, rfl, rfl, rfl, rfl, ?_, ?_, ?_, ?_, ?_⟩
    · simp [sentRequest, Header.Get, List.lookup]
    · simp [sentRequest, Header.Get, List.lookup]
    · simp [sentRequest, Header.Get, List.lookup, GoString.append]
    · intro e he
      rw [Send_of_request hm hu, he]
    · intro resp he
      rw [Send_of_request hm hu, he]
  · intro e hm
    rw [Send_of_Marshal_error hm]
  · intro d hm hu
    rw [Send_of_urlParses_false hm hu]

theorem Send_request_witness :
    ∃ req : Request,
      req.Method = "POST" ∧
      req.URL = "https://onellm.dev/api" ∧
      req.Body = .obj
        [("endpoint", .str "chat"), ("model", .str "GPT-4.1"),
         ("temperature", .float Float64.one), ("stream", .bool false),
         ("messages", .arr [.obj [("role", .str "user"), ("content", .str "hi")]]),
         ("max_tokens", .uint 16), ("top_p", .float Float64.one)] ∧
      req.Header =
        [("Content-Type", goString "application/json"),
         ("Authorization", goString "Bearer secret")] ∧
      req.Header.Get "Content-Type" = goString "application/json" ∧
      req.Header.Get "Authorization" = goString "Bearer secret" ∧
      (req.Header.Get "Authorization").bytes =
        (goString "Bearer ").bytes ++ (goString "secret").bytes ∧
      (∀ e, exampleEnv.Do req = .error e →
        (exampleEnvelope.Send exampleEnv (goString "secret")).2 = .error (.requestFailed e)) ∧
      (∀ resp, exampleEnv.Do req = .ok resp →
        (exampleEnvelope.Send exampleEnv (goString "secret")).2
          = decodeBody exampleEnv resp) :=
  (Send_request exampleEnv exampleEnvelope (goString "secret")).2.1 _ rfl rfl

/-! ## Reachable envelopes and the conversation: lemmas -/

theorem applyCalls_invariant (calls : List SetterCall) :
    ∀ (a : APIInput) (t : Float64),
      (a.Temperature = some t ∧ a.Stream = some false ∧ a.TopP = Float64.one ∧
        a.Tools = none ∧ a.GenerationConfig = none ∧ a.FrequencyPenalty = none ∧
        a.PresencePenalty = none) →
      ((applyCalls a calls).Temperature = some (lastTemperature t calls) ∧
        (applyCalls a calls).Stream = some false ∧
        (applyCalls a calls).TopP = Float64.one ∧
        (applyCalls a calls).Tools = none ∧ (applyCalls a calls).GenerationConfig = none ∧
        (applyCalls a calls).FrequencyPenalty = none ∧
        (applyCalls a calls).PresencePenalty = none) := by
  induction calls with
  | nil =>
    intro a t h
    exact h
  | cons c rest ih =>
    intro a t h
    cases c with
    | setTemperature temp =>
      exact ih (a.SetTemperature temp) temp ⟨rfl, h.2.1, h.2.2.1, h.2.2.2.1, h.2.2.2.2.1,
        h.2.2.2.2.2.1, h.2.2.2.2.2.2⟩
    | setStopSequences seqs =>
      exact ih (a.SetStopSequences seqs) t ⟨h.1, h.2.1, h.2.2.1, h.2.2.2.1, h.2.2.2.2.1,
        h.2.2.2.2.2.1, h.2.2.2.2.2.2⟩

theorem alwaysKeys_mem_fields (a : APIInput) (hT : a.Temperature.isSome = true)
    (hS : a.Stream.isSome = true) : ∀ k ∈ alwaysKeys, k ∈ a.fields.map Prod.fst := by
  intro k hk
  rw [fields_keys]
  simp only [alwaysKeys, List.mem_cons, List.mem_singleton, List.not_mem_nil, or_false] at hk
  rcases hk with rfl | rfl | rfl | rfl | rfl | rfl | rfl <;>
    simp [mem_optKey, hT, hS]

theorem fields_lookup_messages (a : APIInput) :
    a.fields.lookup "messages" = some (encodeSlice encodeMessage a.Messages) := by
  unfold APIInput.fields
  simp [List.lookup_append, lookup_omitEmpty_self, lookup_omitEmpty_of_ne, List.lookup_cons]

theorem Marshal_messages_get? {a : APIInput} {d : Json} (h : Marshal a = .ok d) :
    d.get? "messages" = some (messagesJson a.Messages) := by
  have h1 := Marshal_get? h "messages"
  rw [fields_lookup_messages, encodeSlice_encodeMessage] at h1
  cases hd : d.get? "messages" with
  | none => simp [hd] at h1
  | some v =>
    simp only [hd, Option.map_some', Option.some.injEq, Except.ok.injEq] at h1
    rw [h1]

/-! ## Reachable envelopes and the conversation: claims -/

/-- C16, as stated, fails: the envelope reached from the constructor by the one
call SetTemperature(NaN) has Temperature and Stream set, but it has no
serialized document: serialization returns an unsupported-value error. -/
theorem reachable_without_document :
    (applyCalls exampleEnvelope [.setTemperature Float64.nan]).Temperature
      = some Float64.nan ∧
    (applyCalls exampleEnvelope [.setTemperature Float64.nan]).Stream = some false ∧
    Marshal (applyCalls exampleEnvelope [.setTemperature Float64.nan])
      = .error (.unsupportedValue Float64.nan) :=
  ⟨rfl, rfl, rfl⟩

/-- C16, amended: for every envelope reached from NewAPIInput by a finite
sequence of SetTemperature and SetStopSequences calls, Temperature is set (to
the value last written, 1.0 when there was no SetTemperature call) and Stream
is set to false, never absent. Serialization of such an envelope succeeds
exactly when that temperature is finite, and then the document contains all
seven keys endpoint, model, messages, max_tokens, top_p, temperature and
stream; no document of such an envelope lacks one of them. -/
theorem reachable_defaults_present (endpoint : GoString) (model : Model)
    (messages : Slice Message) (maxTokens : Nat) (calls : List SetterCall) :
    (applyCalls (NewAPIInput endpoint model messages maxTokens) calls).Temperature
      = some (lastTemperature Float64.one calls) ∧
    (applyCalls (NewAPIInput endpoint model messages maxTokens) calls).Stream = some false ∧
    ((∃ d, Marshal (applyCalls (NewAPIInput endpoint model messages maxTokens) calls) = .ok d)
      ↔ (lastTemperature Float64.one calls).finite = true) ∧
    ((lastTemperature Float64.one calls).finite = true →
      ∃ d, Marshal (applyCalls (NewAPIInput endpoint model messages maxTokens) calls) = .ok d ∧
        ∀ k ∈ alwaysKeys, k ∈ d.keys) ∧
    (∀ d, Marshal (applyCalls (NewAPIInput endpoint model messages maxTokens) calls) = .ok d →
      ∀ k ∈ alwaysKeys, k ∈ d.keys) := by
  have hinv := applyCalls_invariant calls (NewAPIInput endpoint model messages maxTokens)
    Float64.one ⟨rfl, rfl, rfl, rfl, rfl, rfl, rfl⟩
  obtain ⟨hT, hS, hP, hTools, hG, hF, hPp⟩ := hinv
  have hkeys : ∀ d,
      Marshal (applyCalls (NewAPIInput endpoint model messages maxTokens) calls) = .ok d →
      ∀ k ∈ alwaysKeys, k ∈ d.keys := by
    intro d hd
    rw [Marshal_keys hd]
    exact alwaysKeys_mem_fields _ (by rw [hT]; rfl) (by rw [hS]; rfl)
  have henc : (applyCalls (NewAPIInput endpoint model messages maxTokens) calls).encodable
      = (lastTemperature Float64.one calls).finite := by
    unfold APIInput.encodable
    rw [hT, hP, hTools, hG, hF, hPp]
    have h1 : Float64.one.finite = true := by decide
    simp [optAll, h1]
  have hsucc : (∃ d,
      Marshal (applyCalls (NewAPIInput endpoint model messages maxTokens) calls) = .ok d)
      ↔ (lastTemperature Float64.one calls).finite = true := by
    rw [← henc]
    exact succeeds_Marshal _
  refine ⟨hT, hS, hsucc, ?_, hkeys⟩
  intro hfin
  obtain ⟨d, hd⟩ := hsucc.mpr hfin
  exact ⟨d, hd, hkeys d hd⟩

theorem reachable_defaults_present_witness :
    (lastTemperature Float64.one
      [.setTemperature Float64.zero,
       .setStopSequences (.elems [goString "STOP"])]).finite = true ∧
    (∃ d, Marshal (applyCalls (NewAPIInput (goString "chat") ModelGpt4_1 .nil 16)
        [.setTemperature Float64.zero, .setStopSequences (.elems [goString "STOP"])]) = .ok d ∧
      ∀ k ∈ alwaysKeys, k ∈ d.keys) :=
  ⟨by decide,
    (reachable_defaults_present (goString "chat") ModelGpt4_1 .nil 16
      [.setTemperature Float64.zero, .setStopSequences (.elems [goString "STOP"])]).2.2.2.1
      (by decide)⟩

/-- C17, as stated, fails: the envelope built with the nil message slice
serializes to a document whose messages member is null, so the document has no
messages array; and a message whose content is the single byte 0xFF, which is
not valid UTF-8, is written with the content U+FFFD, not with its content. -/
theorem nil_messages_serialized_null :
    (∃ d, Marshal (NewAPIInput (goString "chat") ModelGpt4_1 .nil 16) = .ok d ∧
      d.get? "messages" = some .null) ∧
    (∃ d,
      Marshal (NewAPIInput (goString "chat") ModelGpt4_1
        (.elems [{ Role := goString "user", Content := GoString.mk [0xFF] }]) 16) = .ok d ∧
      d.get? "messages" = some
        (.arr [.obj [("role", .str "user"),
                     ("content", .str (String.mk [Char.ofNat 0xFFFD]))]]) ∧
      goString (String.mk [Char.ofNat 0xFFFD]) ≠ GoString.mk [0xFF]) :=
  ⟨⟨_, rfl, rfl⟩, ⟨_, rfl, rfl, by decide⟩⟩

/-- C17, amended: for every envelope whose serialization yields a document,
the messages member of the document preserves the conversation: when Messages
is a slice with elements, possibly none, the member is an array of the same
length whose i-th element is the object with exactly the two members role and
content, holding the texts of the role and the content of the i-th message, in
the same order; in a text every byte that is not part of a valid UTF-8
encoding is replaced by U+FFFD, so when the role and the content of the i-th
message are valid UTF-8 the i-th element holds that role and that content
themselves; when Messages is the nil slice, the member is null. -/
theorem messages_serialized (a : APIInput) (d : Json) (h : Marshal a = .ok d) :
    (∀ l : List Message, a.Messages = .elems l →
      ∃ arr : List Json, d.get? "messages" = some (.arr arr) ∧
        arr.length = l.length ∧
        ∀ (i : Nat) (hi : i < l.length),
          arr[i]? = some
            (.obj [("role", .str l[i].Role.text), ("content", .str l[i].Content.text)]) ∧
          (l[i].Role.validUTF8 = true → l[i].Content.validUTF8 = true →
            ∃ role content : String,
              arr[i]? = some (.obj [("role", .str role), ("content", .str content)]) ∧
              goString role = l[i].Role ∧ goString content = l[i].Content)) ∧
    (a.Messages = .nil → d.get? "messages" = some .null) := by
  have hm := Marshal_messages_get? h
  constructor
  · intro l hl
    rw [hl] at hm
    refine ⟨l.map messageJson, hm, List.length_map _ _, ?_⟩
    intro i hi
    have hget : (l.map messageJson)[i]? = some (messageJson l[i]) := by
      rw [List.getElem?_map, List.getElem?_eq_getElem hi]
      rfl
    refine ⟨hget, ?_⟩
    intro hr hc
    exact ⟨l[i].Role.text, l[i].Content.text, hget, goString_text _ hr, goString_text _ hc⟩
  · intro hn
    rw [hn] at hm
    exact hm

theorem messages_serialized_witness :
    ∃ arr : List Json,
      (Json.obj
        [("endpoint", .str "chat"), ("model", .str "GPT-4.1"),
         ("temperature", .float Float64.one), ("stream", .bool false),
         ("messages", .arr
           [.obj [("role", .str "system"), ("content", .str "Be brief.")],
            .obj [("role", .str "user"), ("content", .str "hi")],
            .obj [("role", .str "assistant"), ("content", .str "héllo")],
            .obj [("role", .str "user"), ("content", .str "hi")],
            .obj [("role", .str "assistant"),
                  ("content", .str (String.mk ['h', Char.ofNat 0xFFFD]))]]),
         ("max_tokens", .uint 16), ("top_p", .float Float64.one)]).get? "messages"
        = some (.arr arr) ∧
      arr.length = 5 ∧
      arr[0]? = some (.obj [("role", .str "system"), ("content", .str "Be brief.")]) ∧
      arr[1]? = some (.obj [("role", .str "user"), ("content", .str "hi")]) ∧
      arr[2]? = some (.obj [("role", .str "assistant"), ("content", .str "héllo")]) ∧
      arr[3]? = some (.obj [("role", .str "user"), ("content", .str "hi")]) ∧
      arr[4]? = some (.obj [("role", .str "assistant"),
                            ("content", .str (String.mk ['h', Char.ofNat 0xFFFD]))]) ∧
      (∃ role content : String,
        arr[2]? = some (.obj [("role", .str role), ("content", .str content)]) ∧
        goString role = goString "assistant" ∧
        goString content = GoString.mk [104, 195, 169, 108, 108, 111]) :=
  match (messages_serialized conversationEnvelope _ rfl).1
      [{ Role := goString "system", Content := goString "Be brief." },
       { Role := goString "user", Content := goString "hi" },
       { Role := goString "assistant", Content := goString "héllo" },
       { Role := goString "user", Content := goString "hi" },
       { Role := goString "assistant", Content := GoString.mk [104, 0xFF] }] rfl with
  | ⟨arr, h1, h2, h3⟩ =>
    ⟨arr, h1, h2, (h3 0 (by decide)).1, (h3 1 (by decide)).1, (h3 2 (by decide)).1,
      (h3 3 (by decide)).1, (h3 4 (by decide)).1,
      (h3 2 (by decide)).2 (by decide) (by decide)⟩

/-! ## Response serialization and round trip: lemmas -/

theorem encodeUsage_eq (u : LlmUsage) : encodeUsage u = .ok (usageJson u) := by
  obtain ⟨i, o, t⟩ := u
  cases i <;> cases o <;> cases t <;> rfl

theorem encodeOutput_eq (o : LlmUnifiedResponse) : encodeOutput o = .ok (outputJson o) := by
  obtain ⟨role, content, usage, fin⟩ := o
  cases usage with
  | none => cases role <;> cases fin <;> rfl
  | some u =>
    have hu := encodeUsage_eq u
    cases role <;> cases fin <;>
      simp [encodeOutput, outputJson, omitEmpty, optMember, encodeStruct, encodeMembers,
        encodeString, hu]

theorem MarshalResponse_eq (r : APIResponse) : MarshalResponse r = .ok (responseJson r) := by
  simp [MarshalResponse, responseJson, encodeStruct, encodeMembers, encodeUint,
    encodeOutput_eq]

theorem fieldIndex_input_tokens : fieldIndex LlmUsage.fieldNames "input_tokens" = some 0 := by
  decide

theorem fieldIndex_output_tokens : fieldIndex LlmUsage.fieldNames "output_tokens" = some 1 := by
  decide

theorem fieldIndex_total_tokens : fieldIndex LlmUsage.fieldNames "total_tokens" = some 2 := by
  decide

theorem fieldIndex_role : fieldIndex LlmUnifiedResponse.fieldNames "role" = some 0 := by
  decide

theorem fieldIndex_content : fieldIndex LlmUnifiedResponse.fieldNames "content" = some 1 := by
  decide

theorem fieldIndex_usage : fieldIndex LlmUnifiedResponse.fieldNames "usage" = some 2 := by
  decide

theorem fieldIndex_finish_reason :
    fieldIndex LlmUnifiedResponse.fieldNames "finish_reason" = some 3 := by
  decide

theorem fieldIndex_code : fieldIndex APIResponse.fieldNames "code" = some 0 := by
  decide

theorem fieldIndex_output : fieldIndex APIResponse.fieldNames "output" = some 1 := by
  decide

theorem decodeUint32Ptr_uint {n : Nat} (h : n < 2 ^ 32) :
    decodeUint32Ptr (.uint n) = .ok (some n) := by
  have h1 : decodeUint 32 "uint32" 0 (.uint n) = .ok n := by
    simp only [decodeUint, if_pos h]
  simp only [decodeUint32Ptr, h1]

theorem LlmUsage_setField_input_uint (u : LlmUsage) {n : Nat} (h : n < 2 ^ 32) :
    LlmUsage.setField u "input_tokens" (.uint n) = .ok { u with InputTokens := some n } := by
  simp only [LlmUsage.setField, fieldIndex_input_tokens, decodeUint32Ptr_uint h]

theorem LlmUsage_setField_output_uint (u : LlmUsage) {n : Nat} (h : n < 2 ^ 32) :
    LlmUsage.setField u "output_tokens" (.uint n) = .ok { u with OutputTokens := some n } := by
  simp only [LlmUsage.setField, fieldIndex_output_tokens, decodeUint32Ptr_uint h]

theorem LlmUsage_setField_total_uint (u : LlmUsage) {n : Nat} (h : n < 2 ^ 32) :
    LlmUsage.setField u "total_tokens" (.uint n) = .ok { u with TotalTokens := some n } := by
  simp only [LlmUsage.setField, fieldIndex_total_tokens, decodeUint32Ptr_uint h]

theorem countInRange_some {n : Nat} (h : countInRange (some n) = true) : n < 2 ^ 32 := by
  simpa [countInRange, optAll] using h

theorem decodeMembers_optMember_input (p : Option Nat) (h : countInRange p = true)
    (rest : List (String × Json)) (u : LlmUsage) :
    decodeMembers LlmUsage.setField (optMember "input_tokens" p Json.uint ++ rest) u =
      decodeMembers LlmUsage.setField rest { u with InputTokens := p.or u.InputTokens } := by
  cases p with
  | none => rfl
  | some n =>
    simp only [optMember, List.cons_append, List.nil_append, decodeMembers,
      LlmUsage_setField_input_uint u (countInRange_some h), Option.or_some]
    rfl

theorem decodeMembers_optMember_output (p : Option Nat) (h : countInRange p = true)
    (rest : List (String × Json)) (u : LlmUsage) :
    decodeMembers LlmUsage.setField (optMember "output_tokens" p Json.uint ++ rest) u =
      decodeMembers LlmUsage.setField rest { u with OutputTokens := p.or u.OutputTokens } := by
  cases p with
  | none => rfl
  | some n =>
    simp only [optMember, List.cons_append, List.nil_append, decodeMembers,
      LlmUsage_setField_output_uint u (countInRange_some h), Option.or_some]
    rfl

theorem decodeMembers_optMember_total (p : Option Nat) (h : countInRange p = true)
    (rest : List (String × Json)) (u : LlmUsage) :
    decodeMembers LlmUsage.setField (optMember "total_tokens" p Json.uint ++ rest) u =
      decodeMembers LlmUsage.setField rest { u with TotalTokens := p.or u.TotalTokens } := by
  cases p with
  | none => rfl
  | some n =>
    simp only [optMember, List.cons_append, List.nil_append, decodeMembers,
      LlmUsage_setField_total_uint u (countInRange_some h), Option.or_some]
    rfl

theorem decodeUsage_usageJson (u : LlmUsage) (h : u.inRange = true) :
    decodeMembers LlmUsage.setField (objectMembers (usageJson u)) LlmUsage.zero = .ok u := by
  simp only [LlmUsage.inRange, Bool.and_eq_true] at h
  obtain ⟨⟨hi, ho⟩, ht⟩ := h
  have h3 := decodeMembers_optMember_total u.TotalTokens ht []
  rw [List.append_nil] at h3
  simp only [usageJson, objectMembers, List.append_assoc,
    decodeMembers_optMember_input _ hi, decodeMembers_optMember_output _ ho, h3,
    decodeMembers, LlmUsage.zero, Option.or_none]

theorem LlmUnifiedResponse_setField_role_str (o : LlmUnifiedResponse) (s : String) :
    LlmUnifiedResponse.setField o "role" (.str s) = .ok { o with Role := some (goString s) } := by
  simp only [LlmUnifiedResponse.setField, fieldIndex_role, decodeStringPtr]

theorem LlmUnifiedResponse_setField_content_str (o : LlmUnifiedResponse) (s : String) :
    LlmUnifiedResponse.setField o "content" (.str s) = .ok { o with Content := goString s } := by
  simp only [LlmUnifiedResponse.setField, fieldIndex_content, decodeString]

theorem LlmUnifiedResponse_setField_finish_str (o : LlmUnifiedResponse) (s : String) :
    LlmUnifiedResponse.setField o "finish_reason" (.str s)
      = .ok { o with FinishReason := some (goString s) } := by
  simp only [LlmUnifiedResponse.setField, fieldIndex_finish_reason, decodeStringPtr]

theorem LlmUnifiedResponse_setField_usage_obj (o : LlmUnifiedResponse)
    (ums : List (String × Json)) :
    LlmUnifiedResponse.setField o "usage" (.obj ums) =
      match decodeMembers LlmUsage.setField ums (o.Usage.getD LlmUsage.zero) with
      | .error e => .error e
      | .ok u => .ok { o with Usage := some u } := by
  simp only [LlmUnifiedResponse.setField, fieldIndex_usage, decodeUsagePtr]
  cases decodeMembers LlmUsage.setField ums (o.Usage.getD LlmUsage.zero) <;> rfl

theorem decodeMembers_optMember_role (p : Option GoString) (rest : List (String × Json))
    (o : LlmUnifiedResponse) :
    decodeMembers LlmUnifiedResponse.setField
        (optMember "role" p (fun s => Json.str s.text) ++ rest) o =
      decodeMembers LlmUnifiedResponse.setField rest
        { o with Role := (p.map (fun s => goString s.text)).or o.Role } := by
  cases p with
  | none => rfl
  | some s =>
    simp only [optMember, List.cons_append, List.nil_append, decodeMembers,
      LlmUnifiedResponse_setField_role_str, Option.or_some]
    rfl

theorem decodeMembers_optMember_finish (p : Option GoString) (rest : List (String × Json))
    (o : LlmUnifiedResponse) :
    decodeMembers LlmUnifiedResponse.setField
        (optMember "finish_reason" p (fun s => Json.str s.text) ++ rest) o =
      decodeMembers LlmUnifiedResponse.setField rest
        { o with FinishReason := (p.map (fun s => goString s.text)).or o.FinishReason } := by
  cases p with
  | none => rfl
  | some s =>
    simp only [optMember, List.cons_append, List.nil_append, decodeMembers,
      LlmUnifiedResponse_setField_finish_str, Option.or_some]
    rfl

theorem decodeMembers_optMember_usage (p : Option LlmUsage)
    (h : optAll LlmUsage.inRange p = true) (rest : List (String × Json))
    (o : LlmUnifiedResponse) (ho : o.Usage = none) :
    decodeMembers LlmUnifiedResponse.setField (optMember "usage" p usageJson ++ rest) o =
      decodeMembers LlmUnifiedResponse.setField rest { o with Usage := p } := by
  cases p with
  | none =>
    obtain ⟨r, c, u, f⟩ := o
    simp only at ho
    subst ho
    rfl
  | some u =>
    have hu := decodeUsage_usageJson u h
    simp only [objectMembers, usageJson] at hu
    rw [show optMember "usage" (some u) usageJson = [("usage", usageJson u)] from rfl]
    simp only [List.cons_append, List.nil_append, decodeMembers, usageJson,
      LlmUnifiedResponse_setField_usage_obj, ho, Option.getD_none, hu]
    rfl

theorem decodeOutput_outputJson (o : LlmUnifiedResponse)
    (h : optAll LlmUsage.inRange o.Usage = true) :
    decodeOutput LlmUnifiedResponse.zero (outputJson o) = .ok
      { Role := o.Role.map (fun s => goString s.text)
        Content := goString o.Content.text
        Usage := o.Usage
        FinishReason := o.FinishReason.map (fun s => goString s.text) } := by
  have h4 := decodeMembers_optMember_finish o.FinishReason []
  simp only [List.append_nil] at h4
  simp only [decodeOutput, outputJson, List.append_assoc, decodeMembers_optMember_role,
    List.cons_append, List.nil_append, decodeMembers, LlmUnifiedResponse_setField_content_str]
  rw [decodeMembers_optMember_usage o.Usage h _ _ rfl, h4]
  simp only [decodeMembers, LlmUnifiedResponse.zero, Option.or_none]

theorem Decode_responseJson (r : APIResponse) (h : r.inRange = true) :
    Decode (responseJson r) = .ok
      { Code := r.Code
        Output :=
          { Role := r.Output.Role.map (fun s => goString s.text)
            Content := goString r.Output.Content.text
            Usage := r.Output.Usage
            FinishReason := r.Output.FinishReason.map (fun s => goString s.text) } } := by
  simp only [APIResponse.inRange, Bool.and_eq_true, decide_eq_true_eq] at h
  obtain ⟨hc, hu⟩ := h
  have hcode : decodeUint 16 "uint16" 0 (.uint r.Code) = .ok r.Code := by
    simp only [decodeUint, if_pos hc]
  simp only [Decode, responseJson, decodeAPIResponse, decodeMembers, APIResponse.setField,
    fieldIndex_code, fieldIndex_output, APIResponse.zero, hcode,
    decodeOutput_outputJson r.Output hu]

/-! ## Zero counts: lemmas -/

theorem decodeMembers_append {σ : Type}
    (setField : σ → String → Json → Except DecodeError σ) (l1 l2 : List (String × Json)) :
    ∀ s : σ, decodeMembers setField (l1 ++ l2) s =
      match decodeMembers setField l1 s with
      | .error e => .error e
      | .ok s1 => decodeMembers setField l2 s1 := by
  induction l1 with
  | nil =>
    intro s
    rfl
  | cons kv rest ih =>
    intro s
    obtain ⟨k, v⟩ := kv
    cases hs : setField s k v with
    | error e => simp [decodeMembers, hs]
    | ok s1 => simp [decodeMembers, hs, ih s1]

theorem designates_fold {name key : String} (h : designates name key = true) :
    foldName name = foldName key := by
  unfold designates at h
  simp only [Bool.or_eq_true, decide_eq_true_eq] at h
  rcases h with h | h
  · rw [h]
  · exact h

theorem designates_exclusive {n1 n2 key : String} (hne : foldName n1 ≠ foldName n2)
    (h : designates n1 key = true) : designates n2 key = false := by
  cases h2 : designates n2 key with
  | false => rfl
  | true => exact absurd ((designates_fold h).trans (designates_fold h2).symm) hne

theorem decodeUint32Ptr_zero : decodeUint32Ptr (.uint 0) = .ok (some 0) :=
  decodeUint32Ptr_uint (by decide)

theorem LlmUsage_setField_input_zero (u : LlmUsage) {k : String}
    (hk : designates "input_tokens" k = true) :
    LlmUsage.setField u k (.uint 0) = .ok { u with InputTokens := some 0 } := by
  simp only [LlmUsage.setField, fieldIndex_LlmUsage, hk, if_true, decodeUint32Ptr_zero]

theorem LlmUsage_setField_output_zero (u : LlmUsage) {k : String}
    (hk : designates "output_tokens" k = true) :
    LlmUsage.setField u k (.uint 0) = .ok { u with OutputTokens := some 0 } := by
  have h0 : designates "input_tokens" k = false :=
    designates_exclusive (by decide) hk
  simp only [LlmUsage.setField, fieldIndex_LlmUsage, hk, h0, if_true, Bool.false_eq_true,
    if_false, decodeUint32Ptr_zero]

theorem LlmUsage_setField_total_zero (u : LlmUsage) {k : String}
    (hk : designates "total_tokens" k = true) :
    LlmUsage.setField u k (.uint 0) = .ok { u with TotalTokens := some 0 } := by
  have h0 : designates "input_tokens" k = false :=
    designates_exclusive (by decide) hk
  have h1 : designates "output_tokens" k = false :=
    designates_exclusive (by decide) hk
  simp only [LlmUsage.setField, fieldIndex_LlmUsage, hk, h0, h1, if_true, Bool.false_eq_true,
    if_false, decodeUint32Ptr_zero]

/-- A member with value 0 that designates a count sets the count to 0. -/
theorem Count_setField_zero (c : Count) (u : LlmUsage) {k : String}
    (hk : designates c.key k = true) :
    ∃ u1, LlmUsage.setField u k (.uint 0) = .ok u1 ∧ c.get u1 = some 0 := by
  cases c
  · exact ⟨_, LlmUsage_setField_input_zero u hk, rfl⟩
  · exact ⟨_, LlmUsage_setField_output_zero u hk, rfl⟩
  · exact ⟨_, LlmUsage_setField_total_zero u hk, rfl⟩

/-- A member that does not designate a count leaves the count as it was. -/
theorem Count_setField_frame (c : Count) {u u1 : LlmUsage} {k : String} {v : Json}
    (hk : designates c.key k = false) (h : LlmUsage.setField u k v = .ok u1) :
    c.get u1 = c.get u := by
  cases c
  · exact LlmUsage_setField_input hk h
  · exact LlmUsage_setField_output hk h
  · exact LlmUsage_setField_total hk h

/-- The count that the last member designating it writes is the decoded count. -/
theorem usage_last_write (c : Count) (pre post : List (String × Json)) (k : String)
    (hk : designates c.key k = true) (hpost : lacksKey c.key post = true) (u0 u : LlmUsage)
    (h : decodeMembers LlmUsage.setField (pre ++ (k, .uint 0) :: post) u0 = .ok u) :
    c.get u = some 0 := by
  rw [decodeMembers_append] at h
  cases hpre : decodeMembers LlmUsage.setField pre u0 with
  | error e => simp [hpre] at h
  | ok u1 =>
    obtain ⟨u2, hu2, hget⟩ := Count_setField_zero c u1 hk
    simp only [hpre, decodeMembers, hu2] at h
    exact decodeMembers_invariant LlmUsage.setField (fun u => c.get u = some 0)
      (fun kv => designates c.key kv.1 = false)
      (fun s k v s1 hP hI hs => (Count_setField_frame c hP hs).trans hI)
      post u2 u (lacksKey_iff.mp hpost) hget h

theorem LlmUnifiedResponse_setField_usage_of (o : LlmUnifiedResponse) {k : String}
    (ums : List (String × Json)) (hk : designates "usage" k = true) :
    LlmUnifiedResponse.setField o k (.obj ums) =
      match decodeMembers LlmUsage.setField ums (o.Usage.getD LlmUsage.zero) with
      | .error e => .error e
      | .ok u => .ok { o with Usage := some u } := by
  have h0 : designates "role" k = false := designates_exclusive (by decide) hk
  have h1 : designates "content" k = false := designates_exclusive (by decide) hk
  simp only [LlmUnifiedResponse.setField, fieldIndex_LlmUnifiedResponse, hk, h0, h1, if_true,
    Bool.false_eq_true, if_false, decodeUsagePtr]
  cases decodeMembers LlmUsage.setField ums (o.Usage.getD LlmUsage.zero) <;> rfl

/-- The usage object under the last member that designates usage is the one
whose decode is the usage record of the output. -/
theorem output_last_usage (opre opost : List (String × Json)) (ku : String)
    (ums : List (String × Json)) (hku : designates "usage" ku = true)
    (hopost : lacksKey "usage" opost = true) (o0 o : LlmUnifiedResponse)
    (h : decodeMembers LlmUnifiedResponse.setField (opre ++ (ku, .obj ums) :: opost) o0
      = .ok o) :
    ∃ u0 u, decodeMembers LlmUsage.setField ums u0 = .ok u ∧ o.Usage = some u := by
  rw [decodeMembers_append] at h
  cases hpre : decodeMembers LlmUnifiedResponse.setField opre o0 with
  | error e => simp [hpre] at h
  | ok o1 =>
    simp only [hpre, decodeMembers, LlmUnifiedResponse_setField_usage_of o1 ums hku] at h
    cases hu : decodeMembers LlmUsage.setField ums (o1.Usage.getD LlmUsage.zero) with
    | error e => simp [hu] at h
    | ok u =>
      simp only [hu] at h
      refine ⟨_, u, hu, ?_⟩
      exact decodeMembers_invariant LlmUnifiedResponse.setField (fun o => o.Usage = some u)
        (fun kv => designates "usage" kv.1 = false)
        (fun s k v s1 hP hI hs => (LlmUnifiedResponse_setField_usage hP hs).trans hI)
        opost _ o (lacksKey_iff.mp hopost) rfl h

theorem APIResponse_setField_output_of (r : APIResponse) {k : String} (v : Json)
    (hk : designates "output" k = true) :
    APIResponse.setField r k v =
      match decodeOutput r.Output v with
      | .error e => .error e
      | .ok x => .ok { r with Output := x } := by
  have h0 : designates "code" k = false := designates_exclusive (by decide) hk
  simp only [APIResponse.setField, fieldIndex_APIResponse, hk, h0, if_true,
    Bool.false_eq_true, if_false]

theorem APIResponse_setField_output {r r1 : APIResponse} {k : String} {v : Json}
    (hk : designates "output" k = false) (h : APIResponse.setField r k v = .ok r1) :
    r1.Output = r.Output := by
  rcases APIResponse_setField_cases h with ⟨_, x, rfl⟩ | ⟨h0, _⟩ | rfl
  · rfl
  · rw [hk] at h0
    cases h0
  · rfl

/-- The output object under the last member that designates output is the one
whose decode is the output of the response. -/
theorem top_last_output (tpre tpost : List (String × Json)) (ko : String)
    (oms : List (String × Json)) (hko : designates "output" ko = true)
    (htpost : lacksKey "output" tpost = true) (r0 r : APIResponse)
    (h : decodeMembers APIResponse.setField (tpre ++ (ko, .obj oms) :: tpost) r0 = .ok r) :
    ∃ o0, decodeMembers LlmUnifiedResponse.setField oms o0 = .ok r.Output := by
  rw [decodeMembers_append] at h
  cases hpre : decodeMembers APIResponse.setField tpre r0 with
  | error e => simp [hpre] at h
  | ok r1 =>
    simp only [hpre, decodeMembers, APIResponse_setField_output_of r1 (.obj oms) hko,
      decodeOutput] at h
    cases ho : decodeMembers LlmUnifiedResponse.setField oms r1.Output with
    | error e => simp [ho] at h
    | ok o =>
      simp only [ho] at h
      refine ⟨r1.Output, ?_⟩
      have hout : r.Output = o :=
        decodeMembers_invariant APIResponse.setField (fun r => r.Output = o)
          (fun kv => designates "output" kv.1 = false)
          (fun s k v s1 hP hI hs => (APIResponse_setField_output hP hs).trans hI)
          tpost _ r (lacksKey_iff.mp htpost) rfl h
      rw [hout]
      exact ho

/-- The usage record of a decoded document is the decode of its last usage
object. -/
theorem Decode_usageDocument {tpre opre ums opost tpost : List (String × Json)}
    {ko ku : String} (hko : designates "output" ko = true)
    (htpost : lacksKey "output" tpost = true) (hku : designates "usage" ku = true)
    (hopost : lacksKey "usage" opost = true) {r : APIResponse}
    (h : Decode (usageDocument tpre ko opre ku ums opost tpost) = .ok r) :
    ∃ u0 u, decodeMembers LlmUsage.setField ums u0 = .ok u ∧ r.Output.Usage = some u := by
  simp only [Decode, usageDocument, decodeAPIResponse] at h
  obtain ⟨o0, ho⟩ := top_last_output tpre tpost ko _ hko htpost _ r h
  exact output_last_usage opre opost ku ums hku hopost o0 _ ho

theorem Count_clear_zero (c : Count) : c.clear LlmUsage.zero = LlmUsage.zero := by
  cases c <;> rfl

theorem Count_get_clear (c : Count) (u : LlmUsage) : c.get (c.clear u) = none := by
  cases c <;> rfl

theorem Count_get_clear_of_ne {c c1 : Count} (h : c1 ≠ c) (u : LlmUsage) :
    c1.get (c.clear u) = c1.get u := by
  cases c <;> cases c1 <;> first | rfl | exact absurd rfl h

/-- A member that designates a count changes nothing but that count. -/
theorem Count_clear_setField_of (c : Count) {u u1 : LlmUsage} {k : String} {v : Json}
    (hk : designates c.key k = true) (h : LlmUsage.setField u k v = .ok u1) :
    c.clear u1 = c.clear u := by
  cases c
  · have h1 : designates "output_tokens" k = false := designates_exclusive (by decide) hk
    have h2 : designates "total_tokens" k = false := designates_exclusive (by decide) hk
    rcases LlmUsage_setField_cases h with ⟨_, x, rfl⟩ | ⟨h0, _⟩ | ⟨h0, _⟩ | rfl
    · rfl
    · rw [h1] at h0
      cases h0
    · rw [h2] at h0
      cases h0
    · rfl
  · have h1 : designates "input_tokens" k = false := designates_exclusive (by decide) hk
    have h2 : designates "total_tokens" k = false := designates_exclusive (by decide) hk
    rcases LlmUsage_setField_cases h with ⟨h0, _⟩ | ⟨_, x, rfl⟩ | ⟨h0, _⟩ | rfl
    · rw [h1] at h0
      cases h0
    · rfl
    · rw [h2] at h0
      cases h0
    · rfl
  · have h1 : designates "input_tokens" k = false := designates_exclusive (by decide) hk
    have h2 : designates "output_tokens" k = false := designates_exclusive (by decide) hk
    rcases LlmUsage_setField_cases h with ⟨h0, _⟩ | ⟨h0, _⟩ | ⟨_, x, rfl⟩ | rfl
    · rw [h1] at h0
      cases h0
    · rw [h2] at h0
      cases h0
    · rfl
    · rfl

/-- A member that does not designate a count acts the same way on the usage
record with that count made absent. -/
theorem Count_clear_setField (c : Count) {u u1 : LlmUsage} {k : String} {v : Json}
    (hk : designates c.key k = false) (h : LlmUsage.setField u k v = .ok u1) :
    LlmUsage.setField (c.clear u) k v = .ok (c.clear u1) := by
  unfold LlmUsage.setField at h ⊢
  rw [fieldIndex_LlmUsage] at h ⊢
  split_ifs at h ⊢ with h0 h1 h2
  · cases hd : decodeUint32Ptr v with
    | error e => simp [hd] at h
    | ok x =>
      simp only [hd, Except.ok.injEq] at h ⊢
      subst h
      cases c
      · rw [Count.key, h0] at hk
        cases hk
      · rfl
      · rfl
  · cases hd : decodeUint32Ptr v with
    | error e => simp [hd] at h
    | ok x =>
      simp only [hd, Except.ok.injEq] at h ⊢
      subst h
      cases c
      · rfl
      · rw [Count.key, h1] at hk
        cases hk
      · rfl
  · cases hd : decodeUint32Ptr v with
    | error e => simp [hd] at h
    | ok x =>
      simp only [hd, Except.ok.injEq] at h ⊢
      subst h
      cases c
      · rfl
      · rfl
      · rw [Count.key, h2] at hk
        cases hk
  · simp only [Except.ok.injEq] at h ⊢
    rw [h]

/-- Decoding a usage object without the members that designate a count gives
the usage record with that count made absent. -/
theorem decodeMembers_removeKey (c : Count) :
    ∀ (ms : List (String × Json)) (u u1 : LlmUsage),
      decodeMembers LlmUsage.setField ms u = .ok u1 →
      decodeMembers LlmUsage.setField (removeKey c.key ms) (c.clear u) = .ok (c.clear u1) := by
  intro ms
  induction ms with
  | nil =>
    intro u u1 h
    simp only [decodeMembers, Except.ok.injEq] at h
    subst h
    rfl
  | cons kv rest ih =>
    intro u u1 h
    obtain ⟨k, v⟩ := kv
    cases hs : LlmUsage.setField u k v with
    | error e => simp [decodeMembers, hs] at h
    | ok u2 =>
      simp only [decodeMembers, hs] at h
      have hrest := ih u2 u1 h
      cases hk : designates c.key k with
      | true =>
        have hrm : removeKey c.key ((k, v) :: rest) = removeKey c.key rest := by
          simp [removeKey, hk]
        rw [hrm, ← Count_clear_setField_of c hk hs]
        exact hrest
      | false =>
        have hrm : removeKey c.key ((k, v) :: rest) = (k, v) :: removeKey c.key rest := by
          simp [removeKey, hk]
        rw [hrm]
        simp only [decodeMembers, Count_clear_setField c hk hs]
        exact hrest

theorem decodeUsagePtr_removeKey (c : Count) {cur x : Option LlmUsage} {v : Json}
    (h : decodeUsagePtr cur v = .ok x) :
    decodeUsagePtr (cur.map c.clear) (mapObject (removeKey c.key) v) = .ok (x.map c.clear) := by
  cases v with
  | null =>
    simp only [decodeUsagePtr, Except.ok.injEq] at h
    subst h
    rfl
  | obj ms =>
    cases hd : decodeMembers LlmUsage.setField ms (cur.getD LlmUsage.zero) with
    | error e => simp [decodeUsagePtr, hd] at h
    | ok u =>
      simp only [decodeUsagePtr, hd, Except.ok.injEq] at h
      subst h
      have hcur : (cur.map c.clear).getD LlmUsage.zero = c.clear (cur.getD LlmUsage.zero) := by
        cases cur with
        | none => exact (Count_clear_zero c).symm
        | some u0 => rfl
      simp only [mapObject, decodeUsagePtr, hcur, decodeMembers_removeKey c ms _ u hd,
        Option.map_some']
  | bool b => simp [decodeUsagePtr] at h
  | uint n => simp [decodeUsagePtr] at h
  | float f => simp [decodeUsagePtr] at h
  | numLit t => simp [decodeUsagePtr] at h
  | str s => simp [decodeUsagePtr] at h
  | arr l => simp [decodeUsagePtr] at h

theorem LlmUnifiedResponse_setField_removeKey (c : Count) {o o1 : LlmUnifiedResponse}
    {k : String} {v : Json} (h : LlmUnifiedResponse.setField o k v = .ok o1) :
    LlmUnifiedResponse.setField { o with Usage := o.Usage.map c.clear } k
        (if designates "usage" k then mapObject (removeKey c.key) v else v)
      = .ok { o1 with Usage := o1.Usage.map c.clear } := by
  cases hu : designates "usage" k with
  | true =>
    have h0 : designates "role" k = false := designates_exclusive (by decide) hu
    have h1 : designates "content" k = false := designates_exclusive (by decide) hu
    simp only [LlmUnifiedResponse.setField, fieldIndex_LlmUnifiedResponse, hu, h0, h1, if_true,
      Bool.false_eq_true, if_false] at h ⊢
    cases hd : decodeUsagePtr o.Usage v with
    | error e => simp [hd] at h
    | ok x =>
      simp only [hd, Except.ok.injEq] at h
      subst h
      simp only [decodeUsagePtr_removeKey c hd]
  | false =>
    simp only [Bool.false_eq_true, if_false]
    unfold LlmUnifiedResponse.setField at h ⊢
    rw [fieldIndex_LlmUnifiedResponse] at h ⊢
    simp only [hu, Bool.false_eq_true, if_false] at h ⊢
    split_ifs at h ⊢ with h0 h1 h3
    · cases hd : decodeStringPtr v with
      | error e => simp [hd] at h
      | ok x =>
        simp only [hd, Except.ok.injEq] at h ⊢
        subst h
        rfl
    · cases hd : decodeString o.Content v with
      | error e => simp [hd] at h
      | ok x =>
        simp only [hd, Except.ok.injEq] at h ⊢
        subst h
        rfl
    · cases hd : decodeStringPtr v with
      | error e => simp [hd] at h
      | ok x =>
        simp only [hd, Except.ok.injEq] at h ⊢
        subst h
        rfl
    · simp only [Except.ok.injEq] at h ⊢
      rw [h]

theorem decodeMembers_output_removeKey (c : Count) :
    ∀ (ms : List (String × Json)) (o o1 : LlmUnifiedResponse),
      decodeMembers LlmUnifiedResponse.setField ms o = .ok o1 →
      decodeMembers LlmUnifiedResponse.setField (mapMembersAt "usage" (removeKey c.key) ms)
        { o with Usage := o.Usage.map c.clear } = .ok { o1 with Usage := o1.Usage.map c.clear } := by
  intro ms
  induction ms with
  | nil =>
    intro o o1 h
    simp only [decodeMembers, Except.ok.injEq] at h
    subst h
    rfl
  | cons kv rest ih =>
    intro o o1 h
    obtain ⟨k, v⟩ := kv
    cases hs : LlmUnifiedResponse.setField o k v with
    | error e => simp [decodeMembers, hs] at h
    | ok o2 =>
      simp only [decodeMembers, hs] at h
      have hrest := ih o2 o1 h
      have hstep := LlmUnifiedResponse_setField_removeKey c hs
      have hmap : mapMembersAt "usage" (removeKey c.key) ((k, v) :: rest) =
          (k, if designates "usage" k then mapObject (removeKey c.key) v else v) ::
            mapMembersAt "usage" (removeKey c.key) rest := by
        simp only [mapMembersAt, List.map_cons]
        cases designates "usage" k <;> rfl
      rw [hmap]
      simp only [decodeMembers, hstep]
      exact hrest

theorem decodeOutput_removeKey (c : Count) {cur x : LlmUnifiedResponse} {v : Json}
    (h : decodeOutput cur v = .ok x) :
    decodeOutput { cur with Usage := cur.Usage.map c.clear }
        (mapObject (mapMembersAt "usage" (removeKey c.key)) v)
      = .ok { x with Usage := x.Usage.map c.clear } := by
  cases v with
  | null =>
    simp only [decodeOutput, Except.ok.injEq] at h
    subst h
    rfl
  | obj ms =>
    simp only [decodeOutput] at h
    simp only [mapObject, decodeOutput]
    exact decodeMembers_output_removeKey c ms cur x h
  | bool b => simp [decodeOutput] at h
  | uint n => simp [decodeOutput] at h
  | float f => simp [decodeOutput] at h
  | numLit t => simp [decodeOutput] at h
  | str s => simp [decodeOutput] at h
  | arr l => simp [decodeOutput] at h

theorem APIResponse_setField_removeKey (c : Count) {r r1 : APIResponse} {k : String}
    {v : Json} (h : APIResponse.setField r k v = .ok r1) :
    APIResponse.setField
        { r with Output := { r.Output with Usage := r.Output.Usage.map c.clear } } k
        (if designates "output" k then
          mapObject (mapMembersAt "usage" (removeKey c.key)) v else v)
      = .ok { r1 with Output := { r1.Output with Usage := r1.Output.Usage.map c.clear } } := by
  cases ho : designates "output" k with
  | true =>
    simp only [APIResponse_setField_output_of _ _ ho, if_true] at h ⊢
    cases hd : decodeOutput r.Output v with
    | error e => simp [hd] at h
    | ok x =>
      simp only [hd, Except.ok.injEq] at h
      subst h
      simp only [decodeOutput_removeKey c hd]
  | false =>
    simp only [Bool.false_eq_true, if_false]
    unfold APIResponse.setField at h ⊢
    rw [fieldIndex_APIResponse] at h ⊢
    simp only [ho, Bool.false_eq_true, if_false] at h ⊢
    split_ifs at h ⊢ with h0
    · cases hd : decodeUint 16 "uint16" r.Code v with
      | error e => simp [hd] at h
      | ok x =>
        simp only [hd, Except.ok.injEq] at h ⊢
        subst h
        rfl
    · simp only [Except.ok.injEq] at h ⊢
      rw [h]

theorem decodeMembers_response_removeKey (c : Count) :
    ∀ (ms : List (String × Json)) (r r1 : APIResponse),
      decodeMembers APIResponse.setField ms r = .ok r1 →
      decodeMembers APIResponse.setField
        (mapMembersAt "output" (mapMembersAt "usage" (removeKey c.key)) ms)
        { r with Output := { r.Output with Usage := r.Output.Usage.map c.clear } }
      = .ok { r1 with Output := { r1.Output with Usage := r1.Output.Usage.map c.clear } } := by
  intro ms
  induction ms with
  | nil =>
    intro r r1 h
    simp only [decodeMembers, Except.ok.injEq] at h
    subst h
    rfl
  | cons kv rest ih =>
    intro r r1 h
    obtain ⟨k, v⟩ := kv
    cases hs : APIResponse.setField r k v with
    | error e => simp [decodeMembers, hs] at h
    | ok r2 =>
      simp only [decodeMembers, hs] at h
      have hrest := ih r2 r1 h
      have hstep := APIResponse_setField_removeKey c hs
      have hmap : mapMembersAt "output" (mapMembersAt "usage" (removeKey c.key))
            ((k, v) :: rest) =
          (k, if designates "output" k then
                mapObject (mapMembersAt "usage" (removeKey c.key)) v else v) ::
            mapMembersAt "output" (mapMembersAt "usage" (removeKey c.key)) rest := by
        simp only [mapMembersAt, List.map_cons]
        cases designates "output" k <;> rfl
      rw [hmap]
      simp only [decodeMembers, hstep]
      exact hrest

/-- Removing from the usage objects of a decodable document the members that
designate a count makes that count absent in the decoded usage record and
changes nothing else. -/
theorem Decode_removeCount (c : Count) {doc : Json} {r : APIResponse}
    (h : Decode doc = .ok r) :
    Decode (removeCount c.key doc) = .ok
      { r with Output := { r.Output with Usage := r.Output.Usage.map c.clear } } := by
  unfold Decode at h ⊢
  cases doc with
  | null =>
    simp only [decodeAPIResponse, Except.ok.injEq] at h
    subst h
    rfl
  | obj ms =>
    simp only [decodeAPIResponse] at h
    simp only [removeCount, mapObject, decodeAPIResponse]
    exact decodeMembers_response_removeKey c ms APIResponse.zero r h
  | bool b => simp [decodeAPIResponse] at h
  | uint n => simp [decodeAPIResponse] at h
  | float f => simp [decodeAPIResponse] at h
  | numLit t => simp [decodeAPIResponse] at h
  | str s => simp [decodeAPIResponse] at h
  | arr l => simp [decodeAPIResponse] at h

theorem Count_lacksKey_absent (c : Count) {doc : Json} {r : APIResponse}
    (h : Decode doc = .ok r) (hl : lacksKey c.key (usageMembers doc) = true) :
    ∀ u, r.Output.Usage = some u → c.get u = none :=
  Decode_usage_invariant (fun u => c.get u = none)
    (fun kv => designates c.key kv.1 = false)
    (fun _ _ _ _ hk hK hs => (Count_setField_frame c hk hs).trans hK)
    (by cases c <;> rfl) h (lacksKey_iff.mp hl)

theorem APIResponse_validUTF8_iff (r : APIResponse) :
    r.validUTF8 = true ↔
      ({ Code := r.Code
         Output :=
           { Role := r.Output.Role.map (fun s => goString s.text)
             Content := goString r.Output.Content.text
             Usage := r.Output.Usage
             FinishReason := r.Output.FinishReason.map (fun s => goString s.text) } }
        : APIResponse) = r := by
  obtain ⟨code, role, content, usage, fin⟩ := r
  simp only [APIResponse.validUTF8, Bool.and_eq_true, APIResponse.mk.injEq,
    LlmUnifiedResponse.mk.injEq, true_and, and_true]
  have hopt : ∀ p : Option GoString,
      optAll GoString.validUTF8 p = true ↔ p.map (fun s => goString s.text) = p := by
    intro p
    cases p with
    | none => simp [optAll]
    | some s => simp [optAll, validUTF8_iff]
  rw [hopt role, hopt fin, validUTF8_iff]
  constructor
  · rintro ⟨⟨h1, h2⟩, h3⟩
    exact ⟨h2, h1, h3⟩
  · rintro ⟨h2, h1, h3⟩
    exact ⟨⟨h1, h2⟩, h3⟩

/-! ## Zero counts and round trip: claims -/

/-- C18, as stated, fails on its clauses about missing and removed keys. The
usage object of the first document has the key input_tokens with value 0 and
has no key output_tokens (its second key is OUTPUT_TOKENS), yet the output
count decodes as present, with value 5: the decoder also accepts a key that
equals the field name up to case folding. The usage object of the second
document has the key input_tokens with value 0, and the document decodes to
the same response as the document without that key, because the key
INPUT_TOKENS of the same object designates the same count. -/
theorem capital_count_key_decoded :
    ("output_tokens" ∉
      ([("input_tokens", Json.uint 0), ("OUTPUT_TOKENS", Json.uint 5)]).map Prod.fst ∧
     Decode (usageResponse 200 "hello"
        [("input_tokens", .uint 0), ("OUTPUT_TOKENS", .uint 5)]) = .ok
      { Code := 200,
        Output :=
          { Role := none, Content := goString "hello",
            Usage := some { InputTokens := some 0, OutputTokens := some 5,
                            TotalTokens := none },
            FinishReason := none } }) ∧
    ([("INPUT_TOKENS", Json.uint 0), ("input_tokens", Json.uint 0)].filter
        (fun kv => !decide (kv.1 = "input_tokens")) = [("INPUT_TOKENS", Json.uint 0)] ∧
     Decode (usageResponse 200 "hello"
        [("INPUT_TOKENS", .uint 0), ("input_tokens", .uint 0)]) =
      Decode (usageResponse 200 "hello" [("INPUT_TOKENS", .uint 0)])) :=
  ⟨⟨by decide, rfl⟩, ⟨rfl, rfl⟩⟩

/-- C18, amended: a count that the provider reports as 0 is decoded as present
with value 0 and is told apart from an absent count, for each of input_tokens,
output_tokens and total_tokens independently. Take any response document that
decodes (every member that designates a field holds null or a value of the
kind and range of the field) and in which the last top-level member
designating output (key equal to the name exactly or up to case folding) holds
an object, the last member of that object designating usage holds an object,
the usage object, and the last member of the usage object designating the
count has the value 0. Then the document decodes to a response with a usage
record in which that count is present and equal to 0, and in which every count
that no member of any usage object of the document designates is absent. The
document without the members designating the count in its usage objects
decodes to the same response except that the count is absent, the other two
counts being as before; so the two decodes differ. -/
theorem zero_count_decoded (c : Count) (doc : Json)
    (tpre opre upre upost opost tpost : List (String × Json)) (ko ku k : String)
    (hdoc : doc = usageDocument tpre ko opre ku (upre ++ (k, .uint 0) :: upost) opost tpost)
    (hw : wellTyped doc = true)
    (hko : designates "output" ko = true) (htpost : lacksKey "output" tpost = true)
    (hku : designates "usage" ku = true) (hopost : lacksKey "usage" opost = true)
    (hk : designates c.key k = true) (hupost : lacksKey c.key upost = true) :
    ∃ (r : APIResponse) (u : LlmUsage),
      Decode doc = .ok r ∧
      r.Output.Usage = some u ∧
      c.get u = some 0 ∧
      (∀ c1 : Count, lacksKey c1.key (usageMembers doc) = true → c1.get u = none) ∧
      Decode (removeCount c.key doc) = .ok
        { r with Output := { r.Output with Usage := some (c.clear u) } } ∧
      c.get (c.clear u) = none ∧
      (∀ c1 : Count, c1 ≠ c → c1.get (c.clear u) = c1.get u) ∧
      Decode doc ≠ Decode (removeCount c.key doc) := by
  obtain ⟨r, hr⟩ := (Decode_isOk_iff doc).mpr hw
  have hr1 := hr
  rw [hdoc] at hr1
  obtain ⟨u0, u, hu, husage⟩ := Decode_usageDocument hko htpost hku hopost hr1
  have hget : c.get u = some 0 := usage_last_write c upre upost k hk hupost u0 u hu
  have hrm := Decode_removeCount c hr
  rw [husage] at hrm
  refine ⟨r, u, hr, husage, hget, ?_, hrm, Count_get_clear c u, ?_, ?_⟩
  · intro c1 hl
    exact Count_lacksKey_absent c1 hr hl u husage
  · intro c1 hne
    exact Count_get_clear_of_ne hne u
  · rw [hr, hrm]
    intro heq
    have h1 := congrArg (fun x : APIResponse => x.Output.Usage) (Except.ok.inj heq)
    simp only [Option.map_some'] at h1
    rw [husage] at h1
    have h2 := congrArg (fun x : Option LlmUsage => x.bind c.get) h1
    simp only [Option.some_bind, hget, Count_get_clear] at h2
    cases h2

theorem zero_count_decoded_witness :
    (∃ (r : APIResponse) (u : LlmUsage),
      Decode zeroInputReply = .ok r ∧
      r.Output.Usage = some u ∧
      Count.inputTokens.get u = some 0 ∧
      (∀ c1 : Count, lacksKey c1.key (usageMembers zeroInputReply) = true → c1.get u = none) ∧
      Decode (removeCount "input_tokens" zeroInputReply) = .ok
        { r with Output := { r.Output with Usage := some (Count.inputTokens.clear u) } } ∧
      Count.inputTokens.get (Count.inputTokens.clear u) = none ∧
      (∀ c1 : Count, c1 ≠ .inputTokens →
        c1.get (Count.inputTokens.clear u) = c1.get u) ∧
      Decode zeroInputReply ≠ Decode (removeCount "input_tokens" zeroInputReply)) ∧
    Decode zeroInputReply = .ok
      { Code := 200,
        Output :=
          { Role := some (goString "assistant"), Content := goString "hello",
            Usage := some { InputTokens := some 0, OutputTokens := none,
                            TotalTokens := some 7 },
            FinishReason := some (goString "stop") } } ∧
    Decode (removeCount "input_tokens" zeroInputReply) = .ok
      { Code := 200,
        Output :=
          { Role := some (goString "assistant"), Content := goString "hello",
            Usage := some { InputTokens := none, OutputTokens := none,
                            TotalTokens := some 7 },
            FinishReason := some (goString "stop") } } :=
  ⟨zero_count_decoded .inputTokens zeroInputReply [("code", .uint 200)]
      [("role", .str "assistant"), ("content", .str "hello")] []
      [("total_tokens", .uint 7)] [("finish_reason", .str "stop")] [] "output" "usage"
      "input_tokens" rfl (by decide) (by decide) (by decide) (by decide) (by decide)
      (by decide) (by decide),
    rfl, rfl⟩

/-- C19, as stated, fails: the content of a response value is a Go string, a
sequence of bytes that need not be valid UTF-8. The response whose content is
the single byte 0xFF is serialized with the content U+FFFD, and decoding the
serialization yields the content EF BF BD, a value that is not the one
serialized. -/
theorem invalid_content_not_round_tripped :
    ∃ d : Json,
      MarshalResponse
        { Code := 200,
          Output := { Role := none, Content := GoString.mk [0xFF], Usage := none,
                      FinishReason := none } } = .ok d ∧
      d = .obj [("code", .uint 200),
                ("output", .obj [("content", .str (String.mk [Char.ofNat 0xFFFD]))])] ∧
      Decode d = .ok
        { Code := 200,
          Output := { Role := none, Content := GoString.mk [0xEF, 0xBF, 0xBD], Usage := none,
                      FinishReason := none } } ∧
      Decode d ≠ .ok
        { Code := 200,
          Output := { Role := none, Content := GoString.mk [0xFF], Usage := none,
                      FinishReason := none } } := by
  refine ⟨_, rfl, rfl, rfl, ?_⟩
  intro h
  have h1 := congrArg (fun x : APIResponse => x.Output.Content.bytes) (Except.ok.inj h)
  revert h1
  decide

/-- C19, amended: for every response envelope whose numbers are values of
their Go types (the code a uint16, each count present a uint32), with role,
usage, finish_reason and the three counts each absent or present, empty
strings and zero counts included, serialization succeeds, and decoding the
serialized document succeeds and yields the response envelope in which the
content, the role and the finish reason are replaced by the UTF-8 encodings
of their texts (every byte that is not part of a valid UTF-8 encoding having
become U+FFFD). The decode is the serialized envelope itself if and only if
its content, its role and its finish reason are valid UTF-8. -/
theorem response_round_trip (r : APIResponse) (h : r.inRange = true) :
    ∃ d : Json, MarshalResponse r = .ok d ∧
      Decode d = .ok
        { Code := r.Code
          Output :=
            { Role := r.Output.Role.map (fun s => goString s.text)
              Content := goString r.Output.Content.text
              Usage := r.Output.Usage
              FinishReason := r.Output.FinishReason.map (fun s => goString s.text) } } ∧
      (r.validUTF8 = true → Decode d = .ok r) ∧
      (Decode d = .ok r → r.validUTF8 = true) := by
  have hd := Decode_responseJson r h
  refine ⟨responseJson r, MarshalResponse_eq r, hd, ?_, ?_⟩
  · intro hv
    rw [hd, (APIResponse_validUTF8_iff r).mp hv]
  · intro heq
    rw [hd] at heq
    exact (APIResponse_validUTF8_iff r).mpr (Except.ok.inj heq)

theorem response_round_trip_witness :
    (∃ d : Json,
      MarshalResponse
        { Code := 0,
          Output := { Role := some (goString ""), Content := goString "héllo",
                      Usage := some { InputTokens := some 0, OutputTokens := none,
                                      TotalTokens := some 4294967295 },
                      FinishReason := some (goString "") } } = .ok d ∧
      Decode d = .ok
        { Code := 0,
          Output := { Role := some (goString ""), Content := goString "héllo",
                      Usage := some { InputTokens := some 0, OutputTokens := none,
                                      TotalTokens := some 4294967295 },
                      FinishReason := some (goString "") } }) ∧
    (∃ d : Json,
      MarshalResponse
        { Code := 65535,
          Output := { Role := some (GoString.mk [0xE2, 0x82]),
                      Content := GoString.mk [104, 0xFF, 105],
                      Usage := none, FinishReason := none } } = .ok d ∧
      Decode d = .ok
        { Code := 65535,
          Output := { Role := some (GoString.mk [0xEF, 0xBF, 0xBD, 0xEF, 0xBF, 0xBD]),
                      Content := GoString.mk [104, 0xEF, 0xBF, 0xBD, 105],
                      Usage := none, FinishReason := none } }) :=
  ⟨match response_round_trip
      { Code := 0,
        Output := { Role := some (goString ""), Content := goString "héllo",
                    Usage := some { InputTokens := some 0, OutputTokens := none,
                                    TotalTokens := some 4294967295 },
                    FinishReason := some (goString "") } } (by decide) with
    | ⟨d, h1, _, h3, _⟩ => ⟨d, h1, h3 (by decide)⟩,
   match response_round_trip
      { Code := 65535,
        Output := { Role := some (GoString.mk [0xE2, 0x82]),
                    Content := GoString.mk [104, 0xFF, 105],
                    Usage := none, FinishReason := none } } (by decide) with
    | ⟨d, h1, h2, _⟩ => ⟨d, h1, h2⟩⟩

end Onego
